import Mathlib

/-!
Shallow embedding of the background-scheduler core of the remnawave-shopbot
repository (`src/shop_bot/data_manager/scheduler.py`, together with the store
operations of `src/shop_bot/data_manager/database.py` and
`src/shop_bot/data_manager/remnawave_repository.py` that the scheduler drives),
and proofs of the specification claims about it.

Conventions of the embedding:
* timestamps are integers in milliseconds on a single timeline (Python
  `datetime` values are compared and subtracted; the sources store expiry
  datetimes as strings with one-second resolution, which the embedding models
  as flooring a millisecond timestamp to the whole second);
* a Python string that may be `None` or empty is modelled as a `String` where
  `""` stands for `None`/empty (the sources treat the two interchangeably via
  `or`-chains), or as `Option String` where the distinction never matters;
* a fallible parse (`datetime.fromisoformat` under `try`/`except`) is an
  `Option Int` holding the parsed value, `none` when parsing fails;
* Python `dict`s keyed by strings are association lists preserving insertion
  order, since the scheduler iterates over them in that order.
-/

namespace ShopBot

/-! ## String primitives

The sources normalize emails with `value.strip().lower()` and host names with
`strip()` plus removal of a fixed set of invisible characters.  `String.trim`
and custom ASCII lowering model these; the emails the program generates are
ASCII, so ASCII case folding models Python `str.lower`. -/

/-- Lowercase a character code: ASCII `A`–`Z` maps to `a`–`z`, everything else
is unchanged.  Models Python `str.lower` on the ASCII range. -/
def lowerCharNat (n : Nat) : Nat := if 65 ≤ n ∧ n ≤ 90 then n + 32 else n

/-- Lowercase one character. -/
def lowerChar (c : Char) : Char := Char.ofNat (lowerCharNat c.toNat)

/-- Whitespace recognizer for `strip()`: space, tab, newline, carriage return. -/
def isWs (c : Char) : Bool := c == ' ' || c == '\t' || c == '\n' || c == '\r'

/-- Drop leading and trailing whitespace from a character list (Python `strip`). -/
def trimChars (cs : List Char) : List Char :=
  ((cs.dropWhile isWs).reverse.dropWhile isWs).reverse

/-- Python `s.strip()`. -/
def stripStr (s : String) : String := ⟨trimChars s.toList⟩

/-- Python `s.lower()` (ASCII). -/
def lowerStr (s : String) : String := ⟨s.toList.map lowerChar⟩

/-- Models `database._normalize_email` / `remnawave_repository._normalize_email`:
`(value or "").strip().lower()`, with `""` standing for Python `None`.  The
sources often write `_normalize_email(e) or e.strip()`; the fallback only
triggers when the normalized form is empty, in which case `e.strip()` is empty
too, so that whole expression equals `normEmail e`. -/
def normEmail (s : String) : String := lowerStr (stripStr s)

/-- Invisible characters removed by `database.normalize_host_name`. -/
def invisibleChars : List Char :=
  [Char.ofNat 0x00A0, Char.ofNat 0x200B, Char.ofNat 0x200C,
   Char.ofNat 0x200D, Char.ofNat 0xFEFF]

/-- Models `database.normalize_host_name`: trim, then remove each invisible
character (replacing a single character by the empty string is a filter). -/
def normalizeHostName (s : String) : String :=
  ⟨(trimChars s.toList).filter (fun c => !(invisibleChars.contains c))⟩

/-- Millisecond timestamp stored as a second-resolution datetime string and
re-parsed: models `_to_datetime_str(ts_ms)` followed by `fromisoformat`, which
floors to the whole second. -/
def truncMs (m : Int) : Int := m / 1000 * 1000

/-! ### Lemmas about the string primitives -/

theorem char_toNat_ofNat (n : Nat) (h : n.isValidChar) : (Char.ofNat n).toNat = n := by
  unfold Char.ofNat
  rw [dif_pos h]
  unfold Char.ofNatAux Char.toNat
  simp [UInt32.toNat, UInt32.ofNat']

theorem char_toNat_valid (c : Char) : Nat.isValidChar c.toNat := c.valid

theorem lowerCharNat_valid {n : Nat} (h : n.isValidChar) : (lowerCharNat n).isValidChar := by
  unfold lowerCharNat
  rcases h with h | h
  · split
    · exact Or.inl (by omega)
    · exact Or.inl h
  · split
    · omega
    · exact Or.inr h

theorem lowerCharNat_eq_of_upper {n : Nat} (h : 65 ≤ n ∧ n ≤ 90) :
    lowerCharNat n = n + 32 := by
  unfold lowerCharNat; rw [if_pos h]

theorem lowerCharNat_eq_of_not_upper {n : Nat} (h : ¬(65 ≤ n ∧ n ≤ 90)) :
    lowerCharNat n = n := by
  unfold lowerCharNat; rw [if_neg h]

theorem lowerCharNat_idem (n : Nat) : lowerCharNat (lowerCharNat n) = lowerCharNat n := by
  by_cases h : 65 ≤ n ∧ n ≤ 90
  · rw [lowerCharNat_eq_of_upper h, lowerCharNat_eq_of_not_upper (by omega)]
  · rw [lowerCharNat_eq_of_not_upper h, lowerCharNat_eq_of_not_upper h]

theorem toNat_lowerChar (c : Char) : (lowerChar c).toNat = lowerCharNat c.toNat :=
  char_toNat_ofNat _ (lowerCharNat_valid (char_toNat_valid c))

theorem lowerChar_idem (c : Char) : lowerChar (lowerChar c) = lowerChar c := by
  show Char.ofNat (lowerCharNat (lowerChar c).toNat) = lowerChar c
  rw [toNat_lowerChar, lowerCharNat_idem]
  rfl

theorem char_eq_iff_toNat {a b : Char} : a = b ↔ a.toNat = b.toNat := by
  constructor
  · intro h; rw [h]
  · intro h; exact Char.ext (UInt32.ext h)

theorem char_beq_toNat (a b : Char) : (a == b) = (a.toNat == b.toNat) := by
  by_cases h : a = b
  · rw [h]; simp
  · have h2 : a.toNat ≠ b.toNat := fun hc => h (char_eq_iff_toNat.mpr hc)
    rw [beq_eq_false_iff_ne.mpr h, beq_eq_false_iff_ne.mpr h2]

/-- `isWs` seen through character codes. -/
def isWsN (n : Nat) : Bool := n == 32 || n == 9 || n == 10 || n == 13

theorem isWs_eq_isWsN (c : Char) : isWs c = isWsN c.toNat := by
  unfold isWs isWsN
  rw [char_beq_toNat, char_beq_toNat, char_beq_toNat, char_beq_toNat]
  rfl

theorem natBeqFalse {m k : Nat} (h : m ≠ k) : (m == k) = false :=
  beq_eq_false_iff_ne.mpr h

theorem isWsN_lowerCharNat (n : Nat) : isWsN (lowerCharNat n) = isWsN n := by
  by_cases h : 65 ≤ n ∧ n ≤ 90
  · rw [lowerCharNat_eq_of_upper h]
    unfold isWsN
    rw [natBeqFalse (show n + 32 ≠ 32 by omega),
        natBeqFalse (show n + 32 ≠ 9 by omega),
        natBeqFalse (show n + 32 ≠ 10 by omega),
        natBeqFalse (show n + 32 ≠ 13 by omega),
        natBeqFalse (show n ≠ 32 by omega),
        natBeqFalse (show n ≠ 9 by omega),
        natBeqFalse (show n ≠ 10 by omega),
        natBeqFalse (show n ≠ 13 by omega)]
  · rw [lowerCharNat_eq_of_not_upper h]

theorem isWs_lowerChar (c : Char) : isWs (lowerChar c) = isWs c := by
  rw [isWs_eq_isWsN, isWs_eq_isWsN, toNat_lowerChar, isWsN_lowerCharNat]

theorem lowerComp : lowerChar ∘ lowerChar = lowerChar := funext lowerChar_idem

theorem toList_mk (cs : List Char) : (String.mk cs).toList = cs := rfl

theorem lowerStr_idem (s : String) : lowerStr (lowerStr s) = lowerStr s := by
  unfold lowerStr
  rw [toList_mk, List.map_map, lowerComp]

theorem dropWhile_stable {p : Char → Bool} (cs : List Char) :
    (cs.dropWhile p).dropWhile p = cs.dropWhile p := by
  induction cs with
  | nil => rfl
  | cons c rest ih =>
    by_cases h : p c
    · rw [List.dropWhile_cons_of_pos h, ih]
    · rw [List.dropWhile_cons_of_neg h, List.dropWhile_cons_of_neg h]

theorem dropWhile_eq_self_of_head {l : List Char}
    (h : ∀ c, l.head? = some c → isWs c = false) : l.dropWhile isWs = l := by
  cases l with
  | nil => rfl
  | cons c t =>
    have := h c rfl
    exact List.dropWhile_cons_of_neg (by rw [this]; simp)

theorem head_clean_dropWhile (l : List Char) :
    ∀ c, (l.dropWhile isWs).head? = some c → isWs c = false := by
  intro c hc
  have h1 := List.head?_dropWhile_not isWs l
  rw [hc] at h1
  exact h1

theorem trimChars_idem (cs : List Char) : trimChars (trimChars cs) = trimChars cs := by
  unfold trimChars
  have hpre : ((cs.dropWhile isWs).reverse.dropWhile isWs).reverse <+: cs.dropWhile isWs := by
    have hs : (cs.dropWhile isWs).reverse.dropWhile isWs <:+ (cs.dropWhile isWs).reverse :=
      List.dropWhile_suffix isWs
    have h2 := List.reverse_prefix.mpr hs
    rw [List.reverse_reverse] at h2
    exact h2
  have h1 : (((cs.dropWhile isWs).reverse.dropWhile isWs).reverse).dropWhile isWs
      = ((cs.dropWhile isWs).reverse.dropWhile isWs).reverse := by
    apply dropWhile_eq_self_of_head
    intro c hc
    rcases hpre with ⟨r, hr⟩
    cases hx : ((cs.dropWhile isWs).reverse.dropWhile isWs).reverse with
    | nil => rw [hx] at hc; cases hc
    | cons d t =>
      rw [hx] at hc hr
      have hd : d = c := by
        have : (d :: t).head? = some d := rfl
        rw [hc] at this; cases this; rfl
      subst hd
      have hhead : (cs.dropWhile isWs).head? = some d := by
        rw [← hr]; rfl
      exact head_clean_dropWhile cs d hhead
  rw [h1, List.reverse_reverse]
  rw [dropWhile_eq_self_of_head (head_clean_dropWhile _)]

theorem dropWhile_map_lower (cs : List Char) :
    (cs.map lowerChar).dropWhile isWs = (cs.dropWhile isWs).map lowerChar := by
  induction cs with
  | nil => rfl
  | cons c rest ih =>
    by_cases h : isWs c
    · have h2 : isWs (lowerChar c) = true := by rw [isWs_lowerChar]; exact h
      simp only [List.map_cons, List.dropWhile_cons_of_pos h2,
        List.dropWhile_cons_of_pos h, ih]
    · have h2 : ¬ isWs (lowerChar c) = true := by rw [isWs_lowerChar]; exact h
      simp only [List.map_cons, List.dropWhile_cons_of_neg h2,
        List.dropWhile_cons_of_neg h, List.map_cons]

theorem trimChars_map_lower (cs : List Char) :
    trimChars (cs.map lowerChar) = (trimChars cs).map lowerChar := by
  unfold trimChars
  rw [dropWhile_map_lower, ← List.map_reverse, dropWhile_map_lower, List.map_reverse]

theorem stripStr_lowerStr (s : String) : stripStr (lowerStr s) = lowerStr (stripStr s) := by
  show String.mk (trimChars (String.mk (s.toList.map lowerChar)).toList)
     = String.mk ((String.mk (trimChars s.toList)).toList.map lowerChar)
  rw [toList_mk, toList_mk, trimChars_map_lower]
  rfl

theorem stripStr_idem (s : String) : stripStr (stripStr s) = stripStr s := by
  show String.mk (trimChars (String.mk (trimChars s.toList)).toList)
     = String.mk (trimChars s.toList)
  rw [toList_mk, trimChars_idem]

/-- Email normalization is idempotent: the sources re-normalize already
normalized emails at several layers (`get_key_by_email` inside
`update_key_status_from_server`, `record_key` after the scheduler, …) and this
lemma lets those layers collapse. -/
theorem normEmail_idem (s : String) : normEmail (normEmail s) = normEmail s := by
  unfold normEmail
  rw [stripStr_lowerStr, stripStr_idem, lowerStr_idem]

/-- Stripping an already normalized email changes nothing. -/
theorem stripStr_normEmail (s : String) : stripStr (normEmail s) = normEmail s := by
  unfold normEmail
  rw [stripStr_lowerStr, stripStr_idem]

/-- Lowering an already normalized email changes nothing. -/
theorem lowerStr_normEmail (s : String) : lowerStr (normEmail s) = normEmail s := by
  unfold normEmail
  rw [lowerStr_idem]

theorem normEmail_stripStr (s : String) : normEmail (stripStr s) = normEmail s := by
  unfold normEmail
  rw [stripStr_idem]

/-! ## Data model

`DbKey` is one row of the `vpn_keys` table as the scheduler sees it: the parse
of the stored `expire_at` string is carried directly (`none` when the stored
string is unparseable), and the `email`/`key_email` pair — kept equal by every
writer — is a single field holding the stored column value.  Fields the
scheduler never reads (`short_uuid`, traffic limits, tag, description,
`created_at`, …) are omitted.  `RemoteAccount` is the duck-typed Remnawave
payload collapsed to the fields the sync path reads: `email`/`accountEmail`,
the parse of `expireAt`/`expiryDate`, `subscriptionUrl` (with `none` standing
for a missing or empty URL) and `uuid`/`id`/`client_uuid` (`none` for
missing/empty). -/

structure DbKey where
  keyId : Nat
  userId : Nat
  hostName : String
  email : String
  expiryMs : Option Int
  subscriptionUrl : Option String
  uuid : Option String
  deriving DecidableEq, Repr

structure RemoteAccount where
  email : String
  expireAtMs : Option Int
  subscriptionUrl : Option String
  uuid : Option String
  deriving DecidableEq, Repr

/-- Local store: the `vpn_keys` rows, the set of `telegram_id`s present in the
`users` table (sync only ever reads it), and the next SQLite rowid. -/
structure Store where
  keys : List DbKey
  users : List Nat
  nextKeyId : Nat
  deriving DecidableEq, Repr

/-! ## ExpiryNotifier (`check_expiring_subscriptions`)

`notified_users` is a dict `user_id → key_id → set of fired hour marks`; the
embedding represents it as a total function with the empty set for absent
entries (an entry holding an empty set is observably identical to an absent
entry, so `setdefault`'s creation of empty entries needs no modelling). -/

def NOTIFY_BEFORE_HOURS : List Nat := [72, 48, 24, 1]

def HOUR_MS : Int := 3600000

abbrev NotifState := Nat → Nat → List Nat

/-- Models `_cleanup_notified_users`: entries whose key id no longer occurs in
the key listing are removed (the user id plays no role in the membership
test). -/
def cleanupNotified (activeIds : List Nat) (st : NotifState) : NotifState :=
  fun u k => if activeIds.contains k then st u k else []

/-- The `for hours_mark in NOTIFY_BEFORE_HOURS` loop's search for a mark with
`hours_mark - 1 < total_hours_left <= hours_mark` (the set iteration order is
irrelevant: the half-open ranges are disjoint, so at most one mark matches). -/
def chooseMark (marks : List Nat) (h : Int) : Option Nat :=
  marks.find? (fun T => decide ((T : Int) - 1 < h) && decide (h ≤ (T : Int)))

structure NotifOut where
  state : NotifState
  sent : List (Nat × Nat × Nat)

/-- One iteration of the key loop in `check_expiring_subscriptions`:
parse failure is caught per key; keys whose expiry already passed are
skipped; otherwise the matching mark (if any) fires unless it is already
recorded for this `(user_id, key_id)`. -/
def notifyKeyStep (now : Int) (acc : NotifOut) (k : DbKey) : NotifOut :=
  match k.expiryMs with
  | none => acc
  | some e =>
    if e - now < 0 then acc
    else
      match chooseMark NOTIFY_BEFORE_HOURS ((e - now) / HOUR_MS) with
      | none => acc
      | some T =>
        if T ∈ acc.state k.userId k.keyId then acc
        else
          { state := fun u kk =>
              if u == k.userId && kk == k.keyId then T :: acc.state u kk else acc.state u kk,
            sent := acc.sent ++ [(k.userId, k.keyId, T)] }

/-- Models `check_expiring_subscriptions`: cleanup pass, then the key loop. -/
def check_expiring_subscriptions (now : Int) (allKeys : List DbKey)
    (st : NotifState) : NotifOut :=
  allKeys.foldl (notifyKeyStep now) ⟨cleanupNotified (allKeys.map (·.keyId)) st, []⟩

/-- A sequence of notifier runs, each with its own key listing and clock;
returns the final notification state and every notification sent. -/
def runNotifier : List (List DbKey × Int) → NotifState → NotifState × List (Nat × Nat × Nat)
  | [], st => (st, [])
  | (keys, now) :: rest, st =>
    let out := check_expiring_subscriptions now keys st
    let (stF, sentF) := runNotifier rest out.state
    (stF, out.sent ++ sentF)

/-! ### Notifier lemmas -/

theorem notifyKeyStep_mono (now : Int) (acc : NotifOut) (r : DbKey) {u k : Nat} {T : Nat}
    (hT : T ∈ acc.state u k) :
    T ∈ (notifyKeyStep now acc r).state u k ∧
      ((u, k, T) ∈ (notifyKeyStep now acc r).sent → (u, k, T) ∈ acc.sent) := by
  unfold notifyKeyStep
  split
  · exact ⟨hT, fun h => h⟩
  · split
    · exact ⟨hT, fun h => h⟩
    · split
      · exact ⟨hT, fun h => h⟩
      · next T2 _ =>
        split
        · exact ⟨hT, fun h => h⟩
        · next hmem =>
          constructor
          · by_cases huk : (u == r.userId && k == r.keyId) = true
            · simp only [huk, if_pos]
              exact List.mem_cons_of_mem _ hT
            · simp only [huk]
              simpa using hT
          · intro hsent
            rcases List.mem_append.mp hsent with h | h
            · exact h
            · exfalso
              have heq : (u, k, T) = (r.userId, r.keyId, T2) := by
                cases List.mem_singleton.mp h; rfl
              have hu : u = r.userId := congrArg Prod.fst heq
              have hk : k = r.keyId := congrArg Prod.fst (congrArg Prod.snd heq)
              have hTeq : T = T2 := congrArg Prod.snd (congrArg Prod.snd heq)
              rw [hu, hk, hTeq] at hT
              exact hmem hT

theorem notifyFold_mono (now : Int) (keys : List DbKey) (acc : NotifOut) {u k : Nat} {T : Nat}
    (hT : T ∈ acc.state u k) :
    T ∈ (keys.foldl (notifyKeyStep now) acc).state u k ∧
      ((u, k, T) ∈ (keys.foldl (notifyKeyStep now) acc).sent → (u, k, T) ∈ acc.sent) := by
  induction keys generalizing acc with
  | nil => exact ⟨hT, fun h => h⟩
  | cons r rest ih =>
    have hstep := notifyKeyStep_mono now acc r hT
    have hrec := ih (notifyKeyStep now acc r) hstep.1
    exact ⟨hrec.1, fun h => hstep.2 (hrec.2 h)⟩

theorem cleanup_keeps (activeIds : List Nat) (st : NotifState) {u k : Nat}
    (hk : activeIds.contains k = true) : cleanupNotified activeIds st u k = st u k := by
  unfold cleanupNotified
  rw [if_pos hk]

/-- C1: at-most-once notification.  Once a threshold `T` is recorded as fired
for `(user, key)` in the in-memory notification state, no later notifier run
with a non-decreasing clock sends a notification for `T` for that key again,
as long as the key id remains present in every run's key listing (so the
cleanup pass never purges it); the record also survives every run. -/
theorem at_most_once_notification (runs : List (List DbKey × Int)) (st : NotifState)
    (u k T : Nat) (hT : T ∈ st u k)
    (hpresent : ∀ r ∈ runs, (r.1.map (fun x => x.keyId)).contains k = true)
    (hclock : List.Chain' (· ≤ ·) (runs.map (fun r => r.2))) :
    T ∈ (runNotifier runs st).1 u k ∧ (u, k, T) ∉ (runNotifier runs st).2 := by
  induction runs generalizing st with
  | nil => exact ⟨hT, by simp [runNotifier]⟩
  | cons r rest ih =>
    obtain ⟨keys, now⟩ := r
    have hactive : (keys.map (fun x => x.keyId)).contains k = true :=
      hpresent (keys, now) (List.mem_cons_self _ _)
    have hclean : T ∈ cleanupNotified (keys.map (fun x => x.keyId)) st u k := by
      rw [cleanup_keeps _ _ hactive]; exact hT
    have hfold := notifyFold_mono now keys ⟨cleanupNotified (keys.map (fun x => x.keyId)) st, []⟩ hclean
    have hrest := ih (check_expiring_subscriptions now keys st).state hfold.1
      (fun rr hrr => hpresent rr (List.mem_cons_of_mem _ hrr))
      (List.Chain'.tail hclock)
    constructor
    · exact hrest.1
    · intro hcontra
      simp only [runNotifier, List.mem_append] at hcontra
      rcases hcontra with h | h
      · have := hfold.2 h
        simp at this
      · exact hrest.2 h

/-! ### C8: threshold firing rule -/

theorem chooseMark_eq_some {h : Int} {T : Nat} :
    chooseMark NOTIFY_BEFORE_HOURS h = some T ↔
      T ∈ NOTIFY_BEFORE_HOURS ∧ (T : Int) - 1 < h ∧ h ≤ (T : Int) := by
  constructor
  · intro hfind
    refine ⟨List.mem_of_find?_eq_some hfind, ?_⟩
    have hp := List.find?_some hfind
    rw [Bool.and_eq_true, decide_eq_true_iff, decide_eq_true_iff] at hp
    exact hp
  · rintro ⟨hmem, h1, h2⟩
    have hhT : h = (T : Int) := by omega
    subst hhT
    fin_cases hmem <;> decide

theorem notifyKeyStep_reduce_none {now : Int} {st : NotifState} {s : List (Nat × Nat × Nat)}
    {k : DbKey} {e : Int} (hexp : k.expiryMs = some e) (hfut : 0 ≤ e - now)
    (hcm : chooseMark NOTIFY_BEFORE_HOURS ((e - now) / HOUR_MS) = none) :
    notifyKeyStep now ⟨st, s⟩ k = ⟨st, s⟩ := by
  unfold notifyKeyStep
  rw [hexp]
  change (if e - now < 0 then _ else _) = _
  rw [if_neg (by omega), hcm]

theorem notifyKeyStep_reduce_some {now : Int} {st : NotifState} {s : List (Nat × Nat × Nat)}
    {k : DbKey} {e : Int} {T : Nat} (hexp : k.expiryMs = some e) (hfut : 0 ≤ e - now)
    (hcm : chooseMark NOTIFY_BEFORE_HOURS ((e - now) / HOUR_MS) = some T) :
    notifyKeyStep now ⟨st, s⟩ k =
      (if T ∈ st k.userId k.keyId then (⟨st, s⟩ : NotifOut)
       else ⟨fun u kk => if u == k.userId && kk == k.keyId then T :: st u kk else st u kk,
             s ++ [(k.userId, k.keyId, T)]⟩) := by
  unfold notifyKeyStep
  rw [hexp]
  change (if e - now < 0 then _ else _) = _
  rw [if_neg (by omega), hcm]

/-- C8: threshold firing rule.  Part one: for a key whose expiry is not in the
past, the per-key step of the scan sends a notification exactly for the
threshold `T ∈ {72,48,24,1}` with `T-1 < hoursLeft ≤ T` that is not yet
recorded for `(user, key)`, and records it as fired.  Part two: with distinct
key ids in the listing (the database primary key), a full scan sends at most
one threshold notification per key. -/
theorem threshold_firing_rule :
    (∀ (now : Int) (st : NotifState) (s : List (Nat × Nat × Nat)) (k : DbKey) (e : Int),
      k.expiryMs = some e → 0 ≤ e - now →
      (∀ T : Nat,
        ((notifyKeyStep now ⟨st, s⟩ k).sent = s ++ [(k.userId, k.keyId, T)] ↔
          (T ∈ NOTIFY_BEFORE_HOURS ∧ (T : Int) - 1 < (e - now) / HOUR_MS ∧
            (e - now) / HOUR_MS ≤ (T : Int) ∧ T ∉ st k.userId k.keyId))) ∧
      (∀ T : Nat, (notifyKeyStep now ⟨st, s⟩ k).sent = s ++ [(k.userId, k.keyId, T)] →
        (notifyKeyStep now ⟨st, s⟩ k).state k.userId k.keyId = T :: st k.userId k.keyId)) ∧
    (∀ (now : Int) (keys : List DbKey) (st : NotifState),
      (keys.map (fun x => x.keyId)).Nodup → ∀ kid : Nat,
      ((check_expiring_subscriptions now keys st).sent.filter
        (fun ev => ev.2.1 == kid)).length ≤ 1) := by
  constructor
  · intro now st s k e hexp hfut
    constructor
    · intro T
      cases hcm : chooseMark NOTIFY_BEFORE_HOURS ((e - now) / HOUR_MS) with
      | none =>
        rw [notifyKeyStep_reduce_none hexp hfut hcm]
        constructor
        · intro hsent
          exfalso
          have := congrArg List.length hsent
          simp at this
        · rintro ⟨hmem, h1, h2, _⟩
          exfalso
          rw [chooseMark_eq_some.mpr ⟨hmem, h1, h2⟩] at hcm
          cases hcm
      | some T2 =>
        rw [notifyKeyStep_reduce_some hexp hfut hcm]
        by_cases hmem2 : T2 ∈ st k.userId k.keyId
        · rw [if_pos hmem2]
          constructor
          · intro hsent
            exfalso
            have := congrArg List.length hsent
            simp at this
          · rintro ⟨hmem, h1, h2, hnot⟩
            exfalso
            have : T = T2 := by
              have := chooseMark_eq_some.mpr ⟨hmem, h1, h2⟩
              rw [this] at hcm
              cases hcm; rfl
            rw [this] at hnot
            exact hnot hmem2
        · rw [if_neg hmem2]
          constructor
          · intro hsent
            simp only [List.append_cancel_left_eq, List.cons.injEq] at hsent
            have : (k.userId, k.keyId, T) = (k.userId, k.keyId, T2) := hsent.1.symm
            have hTeq : T = T2 := congrArg Prod.snd (congrArg Prod.snd this)
            subst hTeq
            exact ⟨(chooseMark_eq_some.mp hcm).1, (chooseMark_eq_some.mp hcm).2.1,
              (chooseMark_eq_some.mp hcm).2.2, hmem2⟩
          · rintro ⟨hmem, h1, h2, hnot⟩
            have : T = T2 := by
              have := chooseMark_eq_some.mpr ⟨hmem, h1, h2⟩
              rw [this] at hcm
              cases hcm; rfl
            subst this
            rfl
    · intro T hsent
      cases hcm : chooseMark NOTIFY_BEFORE_HOURS ((e - now) / HOUR_MS) with
      | none =>
        rw [notifyKeyStep_reduce_none hexp hfut hcm] at hsent
        exfalso
        have := congrArg List.length hsent
        simp at this
      | some T2 =>
        rw [notifyKeyStep_reduce_some hexp hfut hcm] at hsent ⊢
        by_cases hmem2 : T2 ∈ st k.userId k.keyId
        · rw [if_pos hmem2] at hsent
          exfalso
          have := congrArg List.length hsent
          simp at this
        · rw [if_neg hmem2] at hsent ⊢
          simp only [List.append_cancel_left_eq, List.cons.injEq] at hsent
          have : (k.userId, k.keyId, T) = (k.userId, k.keyId, T2) := hsent.1.symm
          have hTeq : T = T2 := congrArg Prod.snd (congrArg Prod.snd this)
          subst hTeq
          simp
  · intro now keys st hnodup kid
    have hbound : ∀ (ks : List DbKey) (acc : NotifOut),
        (((ks.foldl (notifyKeyStep now) acc).sent.filter (fun ev => ev.2.1 == kid)).length ≤
          (acc.sent.filter (fun ev => ev.2.1 == kid)).length +
            ks.countP (fun r => r.keyId == kid)) := by
      intro ks
      induction ks with
      | nil => intro acc; simp
      | cons r rest ih =>
        intro acc
        have hstep : ((notifyKeyStep now acc r).sent.filter
            (fun ev => ev.2.1 == kid)).length ≤
            (acc.sent.filter (fun ev => ev.2.1 == kid)).length +
              (if r.keyId == kid then 1 else 0) := by
          unfold notifyKeyStep
          split
          · split <;> omega
          · split
            · split <;> omega
            · split
              · split <;> omega
              · next T2 _ =>
                split
                · split <;> omega
                · simp only [List.filter_append, List.length_append]
                  by_cases hk : (r.keyId == kid) = true
                  · rw [if_pos hk]
                    simp [hk]
                  · rw [if_neg hk]
                    simp only [List.filter_cons]
                    have : ((r.userId, r.keyId, T2).2.1 == kid) = false := by
                      simpa using hk
                    simp [this]
        calc ((((r :: rest).foldl (notifyKeyStep now) acc).sent.filter
                (fun ev => ev.2.1 == kid)).length)
            = (((rest.foldl (notifyKeyStep now) (notifyKeyStep now acc r)).sent.filter
                (fun ev => ev.2.1 == kid)).length) := rfl
          _ ≤ ((notifyKeyStep now acc r).sent.filter (fun ev => ev.2.1 == kid)).length +
                rest.countP (fun r => r.keyId == kid) := ih _
          _ ≤ ((acc.sent.filter (fun ev => ev.2.1 == kid)).length +
                (if r.keyId == kid then 1 else 0)) +
                rest.countP (fun r => r.keyId == kid) := by omega
          _ = (acc.sent.filter (fun ev => ev.2.1 == kid)).length +
                ((r :: rest).countP (fun r => r.keyId == kid)) := by
              rw [List.countP_cons]
              split <;> simp_all <;> omega
    have hcount : keys.countP (fun r => r.keyId == kid) ≤ 1 := by
      have h1 : keys.countP (fun r => r.keyId == kid) =
          (keys.map (fun x => x.keyId)).count kid := by
        rw [List.count, List.countP_map]
        rfl
      rw [h1]
      exact List.nodup_iff_count_le_one.mp hnodup kid
    have := hbound keys ⟨cleanupNotified (keys.map (fun x => x.keyId)) st, []⟩
    unfold check_expiring_subscriptions
    simp only [List.filter_nil, List.length_nil, Nat.zero_add] at this
    omega

/-- Witness for `at_most_once_notification`: threshold 48 already recorded for
user 1, key 2; a later run at a moment where `hoursLeft = 48` matches mark 48
again, yet no `(1, 2, 48)` notification is sent and the record survives. -/
theorem at_most_once_notification_witness :
    48 ∈ (runNotifier [([⟨2, 1, "h", "e", some (48 * HOUR_MS), none, none⟩], 0)]
      (fun u k => if u == 1 && k == 2 then [48] else [])).1 1 2 ∧
    (1, 2, 48) ∉ (runNotifier [([⟨2, 1, "h", "e", some (48 * HOUR_MS), none, none⟩], 0)]
      (fun u k => if u == 1 && k == 2 then [48] else [])).2 :=
  at_most_once_notification _ _ 1 2 48 (by decide) (by decide) (by simp)

/-- Witness for `threshold_firing_rule`: a key expiring in exactly 48 hours
with an empty notification state fires threshold 48, and the scan over that
single-key listing sends at most one notification for the key. -/
theorem threshold_firing_rule_witness :
    (notifyKeyStep 0 ⟨fun _ _ => [], []⟩
        ⟨3, 7, "h", "e", some (48 * HOUR_MS), none, none⟩).sent = [] ++ [(7, 3, 48)] ∧
    ((check_expiring_subscriptions 0 [⟨3, 7, "h", "e", some (48 * HOUR_MS), none, none⟩]
        (fun _ _ => [])).sent.filter (fun ev => ev.2.1 == 3)).length ≤ 1 :=
  ⟨((threshold_firing_rule.1 0 (fun _ _ => []) []
      ⟨3, 7, "h", "e", some (48 * HOUR_MS), none, none⟩ (48 * HOUR_MS) rfl
      (by decide)).1 48).mpr (by decide),
   threshold_firing_rule.2 0 [⟨3, 7, "h", "e", some (48 * HOUR_MS), none, none⟩]
      (fun _ _ => []) (by decide) 3⟩

/-! ## AlertEngine (`_maybe_alert`)

A metric sample is three optional percentages (CPU, memory, disk — floats in
the source, embedded as rationals).  `_last_resource_alert_at` is a dict keyed
by `(scope, name, severity, comma-joined sorted breached-metric names)`; the
embedding represents it as a total function to `Option Int` (last send time). -/

abbrev AlertKey := String × String × String × String

abbrev AlertState := AlertKey → Option Int

structure Breach where
  type : String
  value : ℚ
  threshold : Int
  deriving DecidableEq, Repr

/-- Warning threshold as computed by `_maybe_alert`: `max(50, thr - 20)`. -/
def warningThr (thr : Int) : Int := max 50 (thr - 20)

/-- The per-metric if/elif of `_maybe_alert`: at or above the critical
threshold the metric lands in the critical list (`breaches`) only; otherwise
at or above the warning threshold it lands in the warning list (`alerts`)
only; otherwise in neither.  `none` for a metric not present in the sample. -/
def classifyMetric (name : String) (v : Option ℚ) (thr : Int) :
    Option Breach × Option Breach :=
  match v with
  | none => (none, none)
  | some x =>
    if (thr : ℚ) ≤ x then (some ⟨name, x, thr⟩, none)
    else if (warningThr thr : ℚ) ≤ x then (none, some ⟨name, x, warningThr thr⟩)
    else (none, none)

/-- The two lists built by `_maybe_alert` in source order CPU, memory, disk
(`'Процессор'`, `'Память'`, `'Диск'`). -/
def classifyBreaches (cpu mem disk : Option ℚ) (cpuThr memThr diskThr : Int) :
    List Breach × List Breach :=
  ((classifyMetric "Процессор" cpu cpuThr).1.toList ++
      (classifyMetric "Память" mem memThr).1.toList ++
      (classifyMetric "Диск" disk diskThr).1.toList,
   (classifyMetric "Процессор" cpu cpuThr).2.toList ++
      (classifyMetric "Память" mem memThr).2.toList ++
      (classifyMetric "Диск" disk diskThr).2.toList)

/-- Lexicographic string comparison by character code: Python `str` ordering,
used by `sorted` on the breached-metric names. -/
def strLeNat : List Char → List Char → Bool
  | [], _ => true
  | _ :: _, [] => false
  | a :: as, b :: bs =>
    if a.toNat < b.toNat then true
    else if b.toNat < a.toNat then false
    else strLeNat as bs

def strLe (a b : String) : Bool := strLeNat a.toList b.toList

/-- Stable insertion sort under `strLe` — Python `sorted` (the names sorted
here are pairwise distinct, so stability is irrelevant). -/
def insertSorted (s : String) : List String → List String
  | [] => [s]
  | t :: rest => if strLe s t then s :: t :: rest else t :: insertSorted s rest

def sortStrings : List String → List String
  | [] => []
  | s :: rest => insertSorted s (sortStrings rest)

/-- Python `",".join(xs)`. -/
def joinComma : List String → String
  | [] => ""
  | [s] => s
  | s :: rest => s ++ "," ++ joinComma rest

/-- The breach signature: `",".join(sorted(type names))`. -/
def signature (names : List String) : String :=
  joinComma (sortStrings names)

/-- The cooldown gate duplicated at the end of `_maybe_alert` for the critical
and the warning block: on a non-empty breach list, build the alert key, send
iff no previous send with that exact key is recorded or the window has
elapsed, and record the send time (the source updates the timestamp in the
same branch that sends). -/
def gateKey (scope name sev : String) (lst : List Breach) : AlertKey :=
  (scope, name, sev, signature (lst.map (fun b => b.type)))

/-- The `not last or elapsed >= window` condition (times in ms, window in s). -/
def gateFire (st : AlertState) (now : Int) (key : AlertKey) (windowSec : Int) : Bool :=
  match st key with
  | none => true
  | some last => decide ((1000 * windowSec : Int) ≤ now - last)

def alertGate (st : AlertState) (now : Int) (scope name sev : String)
    (lst : List Breach) (windowSec : Int) : AlertState × List (AlertKey × Int) :=
  if lst.isEmpty then (st, [])
  else
    if gateFire st now (gateKey scope name sev lst) windowSec then
      (fun k => if k = gateKey scope name sev lst then some now else st k,
       [(gateKey scope name sev lst, now)])
    else (st, [])

/-- Models `_maybe_alert`: no-op without a bot instance; otherwise classify,
then run the critical block with window `max(60, cooldown_sec)` and the
warning block with window `max(300, cooldown_sec * 2)` (seconds). -/
def maybe_alert (bot : Bool) (st : AlertState) (now : Int) (scope name : String)
    (cpu mem disk : Option ℚ) (cpuThr memThr diskThr cooldownSec : Int) :
    AlertState × List (AlertKey × Int) :=
  if !bot then (st, [])
  else
    let bd := classifyBreaches cpu mem disk cpuThr memThr diskThr
    let r1 := alertGate st now scope name "critical" bd.1 (max 60 cooldownSec)
    let r2 := alertGate r1.1 now scope name "warning" bd.2 (max 300 (cooldownSec * 2))
    (r2.1, r1.2 ++ r2.2)

/-- One `_maybe_alert` evaluation's inputs. -/
structure AlertEval where
  bot : Bool
  now : Int
  scope : String
  name : String
  cpu : Option ℚ
  mem : Option ℚ
  disk : Option ℚ
  cpuThr : Int
  memThr : Int
  diskThr : Int
  cooldownSec : Int

/-- A sequence of `_maybe_alert` evaluations against the shared alert state. -/
def runAlerts : List AlertEval → AlertState → AlertState × List (AlertKey × Int)
  | [], st => (st, [])
  | ev :: rest, st =>
    let r1 := maybe_alert ev.bot st ev.now ev.scope ev.name ev.cpu ev.mem ev.disk
      ev.cpuThr ev.memThr ev.diskThr ev.cooldownSec
    let r2 := runAlerts rest r1.1
    (r2.1, r1.2 ++ r2.2)

/-! ### C5: hysteresis lemmas -/

theorem classifyMetric_crit {name : String} {x : ℚ} {thr : Int} (h1 : (thr : ℚ) ≤ x) :
    classifyMetric name (some x) thr = (some ⟨name, x, thr⟩, none) := by
  simp only [classifyMetric]
  rw [if_pos h1]

theorem classifyMetric_warn {name : String} {x : ℚ} {thr : Int} (h1 : ¬(thr : ℚ) ≤ x)
    (h2 : (warningThr thr : ℚ) ≤ x) :
    classifyMetric name (some x) thr = (none, some ⟨name, x, warningThr thr⟩) := by
  simp only [classifyMetric]
  rw [if_neg h1, if_pos h2]

theorem classifyMetric_ok {name : String} {x : ℚ} {thr : Int} (h1 : ¬(thr : ℚ) ≤ x)
    (h2 : ¬(warningThr thr : ℚ) ≤ x) :
    classifyMetric name (some x) thr = (none, none) := by
  simp only [classifyMetric]
  rw [if_neg h1, if_neg h2]

theorem classifyMetric_fst_type {name : String} {v : Option ℚ} {thr : Int} {b : Breach}
    (h : (classifyMetric name v thr).1 = some b) : b.type = name := by
  cases v with
  | none => cases h
  | some x =>
    by_cases h1 : (thr : ℚ) ≤ x
    · rw [classifyMetric_crit h1] at h
      cases h; rfl
    · by_cases h2 : (warningThr thr : ℚ) ≤ x
      · rw [classifyMetric_warn h1 h2] at h
        cases h
      · rw [classifyMetric_ok h1 h2] at h
        cases h

theorem classifyMetric_snd_type {name : String} {v : Option ℚ} {thr : Int} {b : Breach}
    (h : (classifyMetric name v thr).2 = some b) : b.type = name := by
  cases v with
  | none => cases h
  | some x =>
    by_cases h1 : (thr : ℚ) ≤ x
    · rw [classifyMetric_crit h1] at h
      cases h
    · by_cases h2 : (warningThr thr : ℚ) ≤ x
      · rw [classifyMetric_warn h1 h2] at h
        cases h; rfl
      · rw [classifyMetric_ok h1 h2] at h
        cases h

theorem classifyMetric_not_both {name : String} {v : Option ℚ} {thr : Int} {b b2 : Breach}
    (h : (classifyMetric name v thr).1 = some b) :
    (classifyMetric name v thr).2 = some b2 → False := by
  intro h2
  cases v with
  | none => cases h
  | some x =>
    by_cases h1 : (thr : ℚ) ≤ x
    · rw [classifyMetric_crit h1] at h2
      cases h2
    · by_cases hw : (warningThr thr : ℚ) ≤ x
      · rw [classifyMetric_warn h1 hw] at h
        cases h
      · rw [classifyMetric_ok h1 hw] at h
        cases h

theorem mem_toList3 {a b c : Option Breach} {x : Breach} :
    x ∈ a.toList ++ b.toList ++ c.toList ↔ a = some x ∨ b = some x ∨ c = some x := by
  simp [Option.mem_toList, Option.mem_def, List.mem_append, or_assoc]

theorem classifyMetric_fst_eq_iff {name : String} {x : ℚ} {thr : Int} :
    (classifyMetric name (some x) thr).1 = some ⟨name, x, thr⟩ ↔ (thr : ℚ) ≤ x := by
  constructor
  · intro h
    by_contra h1
    by_cases h2 : (warningThr thr : ℚ) ≤ x
    · rw [classifyMetric_warn h1 h2] at h
      cases h
    · rw [classifyMetric_ok h1 h2] at h
      cases h
  · intro h1
    rw [classifyMetric_crit h1]

theorem classifyMetric_snd_eq_iff {name : String} {x : ℚ} {thr : Int} :
    (classifyMetric name (some x) thr).2 = some ⟨name, x, warningThr thr⟩ ↔
      ((warningThr thr : ℚ) ≤ x ∧ x < (thr : ℚ)) := by
  constructor
  · intro h
    by_cases h1 : (thr : ℚ) ≤ x
    · rw [classifyMetric_crit h1] at h
      cases h
    · by_cases h2 : (warningThr thr : ℚ) ≤ x
      · exact ⟨h2, lt_of_not_le h1⟩
      · rw [classifyMetric_ok h1 h2] at h
        cases h
  · rintro ⟨h2, hlt⟩
    rw [classifyMetric_warn (not_le_of_lt hlt) h2]

theorem breach_type_ne {s1 s2 : String} (hne : s1 ≠ s2) {v : ℚ} {t : Int} :
    ¬(Breach.type ⟨s1, v, t⟩ = s2) := fun hx => hne hx

/-- C5: alert hysteresis.  For each metric kind present in the sample, with
critical threshold `C` the warning threshold equals `max(50, C - 20)`; a value
`≥ C` is classified as a critical breach only, a value in `[warning, C)` as a
warning breach only, and no metric name ever occurs in both lists of the same
evaluation. -/
theorem alert_hysteresis (cpu mem disk : Option ℚ) (cT mT dT : Int) (v : ℚ) :
    (cpu = some v →
      (((⟨"Процессор", v, cT⟩ : Breach) ∈ (classifyBreaches cpu mem disk cT mT dT).1) ↔
        (cT : ℚ) ≤ v) ∧
      (((⟨"Процессор", v, warningThr cT⟩ : Breach) ∈
          (classifyBreaches cpu mem disk cT mT dT).2) ↔
        ((warningThr cT : ℚ) ≤ v ∧ v < (cT : ℚ)))) ∧
    (mem = some v →
      (((⟨"Память", v, mT⟩ : Breach) ∈ (classifyBreaches cpu mem disk cT mT dT).1) ↔
        (mT : ℚ) ≤ v) ∧
      (((⟨"Память", v, warningThr mT⟩ : Breach) ∈
          (classifyBreaches cpu mem disk cT mT dT).2) ↔
        ((warningThr mT : ℚ) ≤ v ∧ v < (mT : ℚ)))) ∧
    (disk = some v →
      (((⟨"Диск", v, dT⟩ : Breach) ∈ (classifyBreaches cpu mem disk cT mT dT).1) ↔
        (dT : ℚ) ≤ v) ∧
      (((⟨"Диск", v, warningThr dT⟩ : Breach) ∈
          (classifyBreaches cpu mem disk cT mT dT).2) ↔
        ((warningThr dT : ℚ) ≤ v ∧ v < (dT : ℚ)))) ∧
    (∀ n : String,
      (∃ b ∈ (classifyBreaches cpu mem disk cT mT dT).1, b.type = n) →
      ¬ ∃ b2 ∈ (classifyBreaches cpu mem disk cT mT dT).2, b2.type = n) ∧
    warningThr cT = max 50 (cT - 20) := by
  refine ⟨?_, ?_, ?_, ?_, rfl⟩
  · intro hc
    subst hc
    constructor
    · rw [show (classifyBreaches (some v) mem disk cT mT dT).1 =
            (classifyMetric "Процессор" (some v) cT).1.toList ++
            (classifyMetric "Память" mem mT).1.toList ++
            (classifyMetric "Диск" disk dT).1.toList from rfl, mem_toList3]
      constructor
      · rintro (h | h | h)
        · exact classifyMetric_fst_eq_iff.mp h
        · exact absurd (classifyMetric_fst_type h) (breach_type_ne (by decide))
        · exact absurd (classifyMetric_fst_type h) (breach_type_ne (by decide))
      · intro hle
        exact Or.inl (classifyMetric_fst_eq_iff.mpr hle)
    · rw [show (classifyBreaches (some v) mem disk cT mT dT).2 =
            (classifyMetric "Процессор" (some v) cT).2.toList ++
            (classifyMetric "Память" mem mT).2.toList ++
            (classifyMetric "Диск" disk dT).2.toList from rfl, mem_toList3]
      constructor
      · rintro (h | h | h)
        · exact classifyMetric_snd_eq_iff.mp h
        · exact absurd (classifyMetric_snd_type h) (breach_type_ne (by decide))
        · exact absurd (classifyMetric_snd_type h) (breach_type_ne (by decide))
      · intro hle
        exact Or.inl (classifyMetric_snd_eq_iff.mpr hle)
  · intro hc
    subst hc
    constructor
    · rw [show (classifyBreaches cpu (some v) disk cT mT dT).1 =
            (classifyMetric "Процессор" cpu cT).1.toList ++
            (classifyMetric "Память" (some v) mT).1.toList ++
            (classifyMetric "Диск" disk dT).1.toList from rfl, mem_toList3]
      constructor
      · rintro (h | h | h)
        · exact absurd (classifyMetric_fst_type h) (breach_type_ne (by decide))
        · exact classifyMetric_fst_eq_iff.mp h
        · exact absurd (classifyMetric_fst_type h) (breach_type_ne (by decide))
      · intro hle
        exact Or.inr (Or.inl (classifyMetric_fst_eq_iff.mpr hle))
    · rw [show (classifyBreaches cpu (some v) disk cT mT dT).2 =
            (classifyMetric "Процессор" cpu cT).2.toList ++
            (classifyMetric "Память" (some v) mT).2.toList ++
            (classifyMetric "Диск" disk dT).2.toList from rfl, mem_toList3]
      constructor
      · rintro (h | h | h)
        · exact absurd (classifyMetric_snd_type h) (breach_type_ne (by decide))
        · exact classifyMetric_snd_eq_iff.mp h
        · exact absurd (classifyMetric_snd_type h) (breach_type_ne (by decide))
      · intro hle
        exact Or.inr (Or.inl (classifyMetric_snd_eq_iff.mpr hle))
  · intro hc
    subst hc
    constructor
    · rw [show (classifyBreaches cpu mem (some v) cT mT dT).1 =
            (classifyMetric "Процессор" cpu cT).1.toList ++
            (classifyMetric "Память" mem mT).1.toList ++
            (classifyMetric "Диск" (some v) dT).1.toList from rfl, mem_toList3]
      constructor
      · rintro (h | h | h)
        · exact absurd (classifyMetric_fst_type h) (breach_type_ne (by decide))
        · exact absurd (classifyMetric_fst_type h) (breach_type_ne (by decide))
        · exact classifyMetric_fst_eq_iff.mp h
      · intro hle
        exact Or.inr (Or.inr (classifyMetric_fst_eq_iff.mpr hle))
    · rw [show (classifyBreaches cpu mem (some v) cT mT dT).2 =
            (classifyMetric "Процессор" cpu cT).2.toList ++
            (classifyMetric "Память" mem mT).2.toList ++
            (classifyMetric "Диск" (some v) dT).2.toList from rfl, mem_toList3]
      constructor
      · rintro (h | h | h)
        · exact absurd (classifyMetric_snd_type h) (breach_type_ne (by decide))
        · exact absurd (classifyMetric_snd_type h) (breach_type_ne (by decide))
        · exact classifyMetric_snd_eq_iff.mp h
      · intro hle
        exact Or.inr (Or.inr (classifyMetric_snd_eq_iff.mpr hle))
  · rintro n ⟨b, hb, hbt⟩ ⟨b2, hb2, hb2t⟩
    rw [show (classifyBreaches cpu mem disk cT mT dT).1 =
          (classifyMetric "Процессор" cpu cT).1.toList ++
          (classifyMetric "Память" mem mT).1.toList ++
          (classifyMetric "Диск" disk dT).1.toList from rfl, mem_toList3] at hb
    rw [show (classifyBreaches cpu mem disk cT mT dT).2 =
          (classifyMetric "Процессор" cpu cT).2.toList ++
          (classifyMetric "Память" mem mT).2.toList ++
          (classifyMetric "Диск" disk dT).2.toList from rfl, mem_toList3] at hb2
    rcases hb with h | h | h <;> rcases hb2 with g | g | g
    · exact classifyMetric_not_both h g
    · have e1 := classifyMetric_fst_type h
      have e2 := classifyMetric_snd_type g
      rw [hbt] at e1
      rw [hb2t] at e2
      rw [e1] at e2
      exact absurd e2 (by decide)
    · have e1 := classifyMetric_fst_type h
      have e2 := classifyMetric_snd_type g
      rw [hbt] at e1
      rw [hb2t] at e2
      rw [e1] at e2
      exact absurd e2 (by decide)
    · have e1 := classifyMetric_fst_type h
      have e2 := classifyMetric_snd_type g
      rw [hbt] at e1
      rw [hb2t] at e2
      rw [e1] at e2
      exact absurd e2 (by decide)
    · exact classifyMetric_not_both h g
    · have e1 := classifyMetric_fst_type h
      have e2 := classifyMetric_snd_type g
      rw [hbt] at e1
      rw [hb2t] at e2
      rw [e1] at e2
      exact absurd e2 (by decide)
    · have e1 := classifyMetric_fst_type h
      have e2 := classifyMetric_snd_type g
      rw [hbt] at e1
      rw [hb2t] at e2
      rw [e1] at e2
      exact absurd e2 (by decide)
    · have e1 := classifyMetric_fst_type h
      have e2 := classifyMetric_snd_type g
      rw [hbt] at e1
      rw [hb2t] at e2
      rw [e1] at e2
      exact absurd e2 (by decide)
    · exact classifyMetric_not_both h g

/-- Witness for `alert_hysteresis`: with critical threshold 90 (warning 70), a
CPU sample of 71 yields a warning breach and no critical breach. -/
theorem alert_hysteresis_witness :
    ((⟨"Процессор", (71 : ℚ), warningThr 90⟩ : Breach) ∈
        (classifyBreaches (some 71) none none 90 90 90).2) ∧
    ((⟨"Процессор", (71 : ℚ), 90⟩ : Breach) ∉
        (classifyBreaches (some 71) none none 90 90 90).1) := by
  have h := alert_hysteresis (some 71) none none 90 90 90 71
  refine ⟨(h.1 rfl).2.mpr (by norm_num [warningThr]), fun hc => ?_⟩
  have h2 := (h.1 rfl).1.mp hc
  norm_num at h2

/-! ### C4: cooldown lemmas -/

/-- The gap the claim demands between two alerts with the same key, given the
configured base cooldown `cd` (seconds): at least the base cooldown for
severity `"critical"`, and at least both twice the base cooldown and 5 minutes
for severity `"warning"`. -/
def relGapK (K : AlertKey) (cd t0 t : Int) : Prop :=
  (K.2.2.1 = "critical" → 1000 * cd ≤ t - t0) ∧
  (K.2.2.1 = "warning" → 1000 * (2 * cd) ≤ t - t0 ∧ 300000 ≤ t - t0)

theorem alertGate_empty {st : AlertState} {now : Int} {scope name sev : String}
    {lst : List Breach} {w : Int} (h : lst.isEmpty = true) :
    alertGate st now scope name sev lst w = (st, []) := by
  unfold alertGate
  rw [if_pos h]

theorem alertGate_nofire {st : AlertState} {now : Int} {scope name sev : String}
    {lst : List Breach} {w : Int} (h1 : lst.isEmpty = false)
    (h2 : gateFire st now (gateKey scope name sev lst) w = false) :
    alertGate st now scope name sev lst w = (st, []) := by
  unfold alertGate
  rw [if_neg (by rw [h1]; simp), if_neg (by rw [h2]; simp)]

theorem alertGate_fire {st : AlertState} {now : Int} {scope name sev : String}
    {lst : List Breach} {w : Int} (h1 : lst.isEmpty = false)
    (h2 : gateFire st now (gateKey scope name sev lst) w = true) :
    alertGate st now scope name sev lst w =
      (fun k => if k = gateKey scope name sev lst then some now else st k,
       [(gateKey scope name sev lst, now)]) := by
  unfold alertGate
  rw [if_neg (by rw [h1]; simp), if_pos h2]

theorem gateFire_window {st : AlertState} {now : Int} {key : AlertKey} {w : Int}
    (h : gateFire st now key w = true) :
    ∀ t0, st key = some t0 → 1000 * w ≤ now - t0 := by
  intro t0 hst
  unfold gateFire at h
  rw [hst] at h
  exact of_decide_eq_true h

/-- Per-gate accounting for a fixed key `K`: either the gate neither sends `K`
nor moves its entry, or `K` is exactly the gate's key, the single send is
`(K, now)`, the entry becomes `now`, and any previously recorded time was at
least the window ago. -/
theorem alertGate_filterK (st : AlertState) (now : Int) (scope name sev : String)
    (lst : List Breach) (w : Int) (K : AlertKey) :
    ((alertGate st now scope name sev lst w).2.filter (fun p => decide (p.1 = K)) = [] ∧
      (alertGate st now scope name sev lst w).1 K = st K) ∨
    (K = gateKey scope name sev lst ∧
      (alertGate st now scope name sev lst w).2.filter (fun p => decide (p.1 = K)) = [(K, now)] ∧
      (alertGate st now scope name sev lst w).1 K = some now ∧
      (∀ t0, st K = some t0 → 1000 * w ≤ now - t0)) := by
  by_cases h1 : lst.isEmpty
  · rw [alertGate_empty h1]
    exact Or.inl ⟨rfl, rfl⟩
  · cases h2 : gateFire st now (gateKey scope name sev lst) w with
    | false =>
      rw [alertGate_nofire (eq_false_of_ne_true h1) h2]
      exact Or.inl ⟨rfl, rfl⟩
    | true =>
      rw [alertGate_fire (eq_false_of_ne_true h1) h2]
      by_cases hK : K = gateKey scope name sev lst
      · refine Or.inr ⟨hK, ?_, ?_, ?_⟩
        · simp [List.filter, hK.symm]
        · simp only [if_pos hK]
        · intro t0 hst
          rw [hK] at hst
          exact gateFire_window h2 t0 hst
      · refine Or.inl ⟨?_, ?_⟩
        · simp only [List.filter]
          rw [decide_eq_false (by simpa using fun hx : gateKey scope name sev lst = K => hK hx.symm)]
        · simp only [if_neg hK]

theorem sev_of_gateKey {scope name sev : String} {lst : List Breach} {K : AlertKey}
    (h : K = gateKey scope name sev lst) : K.2.2.1 = sev := by
  rw [h]; rfl

/-- Per-evaluation accounting for a fixed key `K` across the two gates of
`_maybe_alert`. -/
theorem maybe_alert_filterK (bot : Bool) (st : AlertState) (now : Int)
    (scope name : String) (cpu mem disk : Option ℚ) (cT mT dT cd : Int) (K : AlertKey) :
    ((maybe_alert bot st now scope name cpu mem disk cT mT dT cd).2.filter
        (fun p => decide (p.1 = K)) = [] ∧
      (maybe_alert bot st now scope name cpu mem disk cT mT dT cd).1 K = st K) ∨
    ((maybe_alert bot st now scope name cpu mem disk cT mT dT cd).2.filter
        (fun p => decide (p.1 = K)) = [(K, now)] ∧
      (maybe_alert bot st now scope name cpu mem disk cT mT dT cd).1 K = some now ∧
      (∀ t0, st K = some t0 → relGapK K cd t0 now)) := by
  unfold maybe_alert
  cases bot with
  | false => exact Or.inl ⟨rfl, rfl⟩
  | true =>
    simp only [Bool.not_true, Bool.false_eq_true, if_false]
    have hg1 := alertGate_filterK st now scope name "critical"
      (classifyBreaches cpu mem disk cT mT dT).1 (max 60 cd) K
    rcases hg1 with ⟨hf1, hs1⟩ | ⟨hk1, hf1, hs1, hw1⟩
    · have hg2 := alertGate_filterK
        (alertGate st now scope name "critical"
          (classifyBreaches cpu mem disk cT mT dT).1 (max 60 cd)).1 now scope name "warning"
        (classifyBreaches cpu mem disk cT mT dT).2 (max 300 (cd * 2)) K
      rcases hg2 with ⟨hf2, hs2⟩ | ⟨hk2, hf2, hs2, hw2⟩
      · refine Or.inl ⟨?_, ?_⟩
        · rw [List.filter_append, hf1, hf2]
          rfl
        · rw [hs2, hs1]
      · refine Or.inr ⟨?_, ?_, ?_⟩
        · rw [List.filter_append, hf1, hf2]
          rfl
        · exact hs2
        · intro t0 hst
          have hsev : K.2.2.1 = "warning" := sev_of_gateKey hk2
          have hb := hw2 t0 (by rw [hs1]; exact hst)
          constructor
          · intro hc
            rw [hsev] at hc
            exact absurd hc (by decide)
          · intro _
            have hle1 : (1000 : Int) * (2 * cd) ≤ 1000 * max 300 (cd * 2) := by
              have : (2 : Int) * cd ≤ max 300 (cd * 2) := by
                rw [show (2 : Int) * cd = cd * 2 from by ring]
                exact le_max_right _ _
              omega
            have hle2 : (300000 : Int) ≤ 1000 * max 300 (cd * 2) := by
              have : (300 : Int) ≤ max 300 (cd * 2) := le_max_left _ _
              omega
            exact ⟨le_trans hle1 hb, le_trans hle2 hb⟩
    · have hg2 := alertGate_filterK
        (alertGate st now scope name "critical"
          (classifyBreaches cpu mem disk cT mT dT).1 (max 60 cd)).1 now scope name "warning"
        (classifyBreaches cpu mem disk cT mT dT).2 (max 300 (cd * 2)) K
      rcases hg2 with ⟨hf2, hs2⟩ | ⟨hk2, hf2, hs2, hw2⟩
      · refine Or.inr ⟨?_, ?_, ?_⟩
        · rw [List.filter_append, hf1, hf2, List.append_nil]
        · rw [hs2, hs1]
        · intro t0 hst
          have hsev : K.2.2.1 = "critical" := sev_of_gateKey hk1
          have hb := hw1 t0 hst
          constructor
          · intro _
            have : (1000 : Int) * cd ≤ 1000 * max 60 cd := by
              have : cd ≤ max 60 cd := le_max_right _ _
              omega
            exact le_trans this hb
          · intro hw
            rw [hsev] at hw
            exact absurd hw (by decide)
      · exfalso
        have e1 : K.2.2.1 = "critical" := sev_of_gateKey hk1
        have e2 : K.2.2.1 = "warning" := sev_of_gateKey hk2
        rw [e1] at e2
        exact absurd e2 (by decide)

theorem runAlerts_chainAux (K : AlertKey) (cd : Int) :
    ∀ (evs : List AlertEval) (st0 : AlertState),
      (∀ ev ∈ evs, ev.cooldownSec = cd) →
      List.Chain' (relGapK K cd)
        (((runAlerts evs st0).2.filter (fun p => decide (p.1 = K))).map (fun p => p.2)) ∧
      (∀ t0, st0 K = some t0 →
        ∀ t1, ((((runAlerts evs st0).2.filter (fun p => decide (p.1 = K))).map
            (fun p => p.2)).head? = some t1) → relGapK K cd t0 t1) := by
  intro evs
  induction evs with
  | nil =>
    intro st0 _
    constructor
    · exact List.chain'_nil
    · intro t0 _ t1 h1
      cases h1
  | cons ev rest ih =>
    intro st0 hcd
    have hcd0 : ev.cooldownSec = cd := hcd ev (List.mem_cons_self _ _)
    have hcdr : ∀ e ∈ rest, e.cooldownSec = cd :=
      fun e he => hcd e (List.mem_cons_of_mem _ he)
    have hrun : runAlerts (ev :: rest) st0 =
        (((runAlerts rest (maybe_alert ev.bot st0 ev.now ev.scope ev.name ev.cpu ev.mem ev.disk
            ev.cpuThr ev.memThr ev.diskThr ev.cooldownSec).1).1),
         (maybe_alert ev.bot st0 ev.now ev.scope ev.name ev.cpu ev.mem ev.disk
            ev.cpuThr ev.memThr ev.diskThr ev.cooldownSec).2 ++
          (runAlerts rest (maybe_alert ev.bot st0 ev.now ev.scope ev.name ev.cpu ev.mem ev.disk
            ev.cpuThr ev.memThr ev.diskThr ev.cooldownSec).1).2) := rfl
    rcases maybe_alert_filterK ev.bot st0 ev.now ev.scope ev.name ev.cpu ev.mem ev.disk
        ev.cpuThr ev.memThr ev.diskThr ev.cooldownSec K with ⟨hf1, hs1⟩ | ⟨hf1, hs1, hw1⟩
    · have hih := ih (maybe_alert ev.bot st0 ev.now ev.scope ev.name ev.cpu ev.mem ev.disk
          ev.cpuThr ev.memThr ev.diskThr ev.cooldownSec).1 hcdr
      rw [hrun]
      simp only [List.filter_append, hf1, List.nil_append]
      exact ⟨hih.1, fun t0 ht0 => hih.2 t0 (by rw [hs1]; exact ht0)⟩
    · have hih := ih (maybe_alert ev.bot st0 ev.now ev.scope ev.name ev.cpu ev.mem ev.disk
          ev.cpuThr ev.memThr ev.diskThr ev.cooldownSec).1 hcdr
      rw [hrun]
      simp only [List.filter_append, hf1, List.map_append, List.map_cons, List.map_nil,
        List.cons_append, List.nil_append]
      constructor
      · rw [List.chain'_cons']
        refine ⟨?_, hih.1⟩
        intro t1 ht1
        have := hih.2 ev.now (by exact hs1) t1 ht1
        exact this
      · intro t0 ht0 t1 ht1
        have : t1 = ev.now := by
          simp only [List.head?_cons] at ht1
          cases ht1
          rfl
        rw [this]
        rw [← hcd0]
        exact hw1 t0 ht0

/-- C4: alert cooldown.  Part one: an alert for key `K` (fixed scope, name,
severity and breach signature) at time `now` with a previously recorded alert
at `t0` implies `now - t0` is at least the base cooldown for severity
`"critical"`, and at least both twice the base cooldown and 5 minutes for
severity `"warning"`.  Part two: over any sequence of evaluations sharing the
configured cooldown, consecutive alerts with the same key are always at least
that far apart.  Part three: an alert key with no recorded entry is never
suppressed — a cooldown entry recorded under any other signature cannot block
it. -/
theorem alert_cooldown :
    (∀ (bot : Bool) (st : AlertState) (now : Int) (scope name : String)
        (cpu mem disk : Option ℚ) (cT mT dT cd : Int) (K : AlertKey) (t t0 : Int),
      st K = some t0 →
      (K, t) ∈ (maybe_alert bot st now scope name cpu mem disk cT mT dT cd).2 →
      t = now ∧ relGapK K cd t0 now) ∧
    (∀ (evs : List AlertEval) (st0 : AlertState) (K : AlertKey) (cd : Int),
      (∀ ev ∈ evs, ev.cooldownSec = cd) →
      List.Chain' (relGapK K cd)
        (((runAlerts evs st0).2.filter (fun p => decide (p.1 = K))).map (fun p => p.2))) ∧
    (∀ (st : AlertState) (now : Int) (scope name : String)
        (cpu mem disk : Option ℚ) (cT mT dT cd : Int),
      ((classifyBreaches cpu mem disk cT mT dT).1 ≠ [] →
        st (gateKey scope name "critical" (classifyBreaches cpu mem disk cT mT dT).1) = none →
        (gateKey scope name "critical" (classifyBreaches cpu mem disk cT mT dT).1, now) ∈
          (maybe_alert true st now scope name cpu mem disk cT mT dT cd).2) ∧
      ((classifyBreaches cpu mem disk cT mT dT).2 ≠ [] →
        st (gateKey scope name "warning" (classifyBreaches cpu mem disk cT mT dT).2) = none →
        (gateKey scope name "warning" (classifyBreaches cpu mem disk cT mT dT).2, now) ∈
          (maybe_alert true st now scope name cpu mem disk cT mT dT cd).2)) := by
  refine ⟨?_, ?_, ?_⟩
  · intro bot st now scope name cpu mem disk cT mT dT cd K t t0 hst hmem
    rcases maybe_alert_filterK bot st now scope name cpu mem disk cT mT dT cd K with
      ⟨hf, _⟩ | ⟨hf, _, hw⟩
    · exfalso
      have : (K, t) ∈ (maybe_alert bot st now scope name cpu mem disk cT mT dT cd).2.filter
          (fun p => decide (p.1 = K)) := List.mem_filter.mpr ⟨hmem, by simp⟩
      rw [hf] at this
      cases this
    · have : (K, t) ∈ (maybe_alert bot st now scope name cpu mem disk cT mT dT cd).2.filter
          (fun p => decide (p.1 = K)) := List.mem_filter.mpr ⟨hmem, by simp⟩
      rw [hf] at this
      have ht : t = now := by
        have := List.mem_singleton.mp this
        cases this
        rfl
      exact ⟨ht, hw t0 hst⟩
  · intro evs st0 K cd hcd
    exact (runAlerts_chainAux K cd evs st0 hcd).1
  · intro st now scope name cpu mem disk cT mT dT cd
    constructor
    · intro hne hnone
      have hemp : (classifyBreaches cpu mem disk cT mT dT).1.isEmpty = false := by
        cases hl : (classifyBreaches cpu mem disk cT mT dT).1 with
        | nil => exact absurd hl hne
        | cons a l => rfl
      have hfire : gateFire st now
          (gateKey scope name "critical" (classifyBreaches cpu mem disk cT mT dT).1)
          (max 60 cd) = true := by
        unfold gateFire
        rw [hnone]
      show _ ∈ (alertGate st now scope name "critical"
          (classifyBreaches cpu mem disk cT mT dT).1 (max 60 cd)).2 ++
        (alertGate (alertGate st now scope name "critical"
            (classifyBreaches cpu mem disk cT mT dT).1 (max 60 cd)).1 now scope name "warning"
          (classifyBreaches cpu mem disk cT mT dT).2 (max 300 (cd * 2))).2
      rw [alertGate_fire hemp hfire]
      exact List.mem_append.mpr (Or.inl (List.mem_singleton.mpr rfl))
    · intro hne hnone
      have hemp : (classifyBreaches cpu mem disk cT mT dT).2.isEmpty = false := by
        cases hl : (classifyBreaches cpu mem disk cT mT dT).2 with
        | nil => exact absurd hl hne
        | cons a l => rfl
      have hother : (alertGate st now scope name "critical"
          (classifyBreaches cpu mem disk cT mT dT).1 (max 60 cd)).1
          (gateKey scope name "warning" (classifyBreaches cpu mem disk cT mT dT).2) =
          st (gateKey scope name "warning" (classifyBreaches cpu mem disk cT mT dT).2) := by
        rcases alertGate_filterK st now scope name "critical"
            (classifyBreaches cpu mem disk cT mT dT).1 (max 60 cd)
            (gateKey scope name "warning" (classifyBreaches cpu mem disk cT mT dT).2) with
          ⟨_, hs⟩ | ⟨hk, _, _, _⟩
        · exact hs
        · exfalso
          have e1 : (gateKey scope name "warning"
              (classifyBreaches cpu mem disk cT mT dT).2).2.2.1 = "warning" := rfl
          have e2 := sev_of_gateKey hk
          rw [e1] at e2
          exact absurd e2 (by decide)
      have hfire : gateFire (alertGate st now scope name "critical"
          (classifyBreaches cpu mem disk cT mT dT).1 (max 60 cd)).1 now
          (gateKey scope name "warning" (classifyBreaches cpu mem disk cT mT dT).2)
          (max 300 (cd * 2)) = true := by
        unfold gateFire
        rw [hother, hnone]
      show _ ∈ (alertGate st now scope name "critical"
          (classifyBreaches cpu mem disk cT mT dT).1 (max 60 cd)).2 ++
        (alertGate (alertGate st now scope name "critical"
            (classifyBreaches cpu mem disk cT mT dT).1 (max 60 cd)).1 now scope name "warning"
          (classifyBreaches cpu mem disk cT mT dT).2 (max 300 (cd * 2))).2
      rw [alertGate_fire hemp hfire]
      exact List.mem_append.mpr (Or.inr (List.mem_singleton.mpr rfl))

/-- Witness for `alert_cooldown`: a concrete pair of evaluations (CPU 95,
critical threshold 90, cooldown 3600 s) half a cooldown apart; consecutive
critical alerts with the same key respect the claimed gaps. -/
theorem alert_cooldown_witness :
    List.Chain'
      (relGapK ("local", "panel", "critical", signature ["Процессор"]) 3600)
      (((runAlerts
          [⟨true, 0, "local", "panel", some 95, none, none, 90, 90, 90, 3600⟩,
           ⟨true, 1800000, "local", "panel", some 95, none, none, 90, 90, 90, 3600⟩]
          (fun _ => none)).2.filter
        (fun p => decide (p.1 = ("local", "panel", "critical", signature ["Процессор"])))).map
        (fun p => p.2)) :=
  alert_cooldown.2.1
    [⟨true, 0, "local", "panel", some 95, none, none, 90, 90, 90, 3600⟩,
     ⟨true, 1800000, "local", "panel", some 95, none, none, 90, 90, 90, 3600⟩]
    (fun _ => none) ("local", "panel", "critical", signature ["Процессор"]) 3600
    (by decide)

/-! ## Job gates (`_maybe_run_periodic_speedtests`, `_maybe_run_daily_backup`,
`_maybe_collect_resource_metrics`)

Each job keeps a module-level `datetime | None` of its last completed gating
cycle.  Settings reads (`backup_interval_days`, `monitoring_enabled`,
`monitoring_interval_sec`) are modelled as already-parsed inputs, including
their parse-failure defaults.  External job bodies (the SSH speedtest sweep,
`backup_manager.create_backup_file` / `send_backup_to_admins`, the metric
collectors) are not part of the scheduler; their outcomes are inputs:
`Except.error` stands for a raised exception reaching the scheduler's handler. -/

structure JobGate where
  last : Option Int
  deriving DecidableEq, Repr

def SPEEDTEST_INTERVAL_MS : Int := 8 * 3600 * 1000

/-- The shared gating test `not last or not (now - last < interval)`. -/
def jobDue (g : JobGate) (now : Int) (intervalMs : Int) : Bool :=
  match g.last with
  | none => true
  | some t => decide (intervalMs ≤ now - t)

/-- Models `_maybe_run_periodic_speedtests`: return early when gated; run the
sweep; advance the timestamp only when the sweep body did not raise (the
`except` block skips the assignment).  Returns the new gate and whether the
body ran. -/
def maybe_run_periodic_speedtests (g : JobGate) (now : Int) (body : Except Unit Unit) :
    JobGate × Bool :=
  if jobDue g now SPEEDTEST_INTERVAL_MS then
    match body with
    | .ok _ => (⟨some now⟩, true)
    | .error _ => (g, true)
  else (g, false)

/-- Models `_maybe_run_daily_backup`.  `days` is the parsed
`backup_interval_days` (defaulted to 1 on parse failure); `days ≤ 0` disables
the job.  `createResult` is `create_backup_file`: `.error` when it raises,
`.ok pathExists` otherwise; `sendResult` is `send_backup_to_admins`.  The
source sets `_last_backup_run_at = now` at the end of the outer `try`, so the
timestamp advances whenever `create_backup_file` did not raise — even when the
returned path is missing (`.ok false`, nothing sent) or the send raised (its
exception is caught by the inner handler). -/
def maybe_run_daily_backup (g : JobGate) (now : Int) (days : Int)
    (createResult : Except Unit Bool) (sendResult : Except Unit Int) : JobGate × Bool :=
  if days ≤ 0 then (g, false)
  else if jobDue g now (max 1 days * 24 * 3600 * 1000) then
    match createResult with
    | .ok _ => (⟨some now⟩, true)
    | .error _ => (g, true)
  else (g, false)

/-- Models `_maybe_collect_resource_metrics`.  `enabled` is the parsed
`monitoring_enabled` flag, `intervalSec` the parsed `monitoring_interval_sec`
(the source enforces a 30-second floor).  The local and per-host collection
failures are caught and logged inside the loop (`innerOk` has no effect);
`outerFault` is an unexpected exception reaching the outer handler before the
final timestamp assignment. -/
def maybe_collect_resource_metrics (g : JobGate) (now : Int) (enabled : Bool)
    (intervalSec : Int) (innerOk : Bool) (outerFault : Bool) : JobGate × Bool :=
  if !enabled then (g, false)
  else if jobDue g now (1000 * max 30 intervalSec) then
    if outerFault then (g, true) else (⟨some now⟩, true)
  else (g, false)

/-- Follows the claim's words (not the source): a backup run succeeds when the
backup file was created, exists, and was distributed to admins without error. -/
def backupRunSucceededSpec (createResult : Except Unit Bool)
    (sendResult : Except Unit Int) : Prop :=
  createResult = Except.ok true ∧ ∃ n, sendResult = Except.ok n

/-- C9 counterexample: `backup_interval_days = 1`, never run before, the
backup file is created but sending it to the admins raises — the run did not
succeed as the claim means it, yet `_last_backup_run_at` advances to `now`, so
the failed backup is postponed a full interval instead of being retried on the
next tick. -/
theorem job_gating_counterexample :
    ¬ backupRunSucceededSpec (Except.ok true) (Except.error ()) ∧
    (maybe_run_daily_backup ⟨none⟩ 0 1 (Except.ok true) (Except.error ())).1.last = some 0 ∧
    (maybe_run_daily_backup ⟨none⟩ 0 1 (Except.ok true) (Except.error ())).2 = true := by
  refine ⟨?_, by decide, by decide⟩
  rintro ⟨_, n, h⟩
  cases h

/-- C9 as amended: every gated job's body runs only when no previous run is
recorded or the minimum interval has elapsed; the speedtest job advances its
timestamp exactly when its body does not raise; the backup job advances its
timestamp whenever backup-file creation does not raise, independently of the
send outcome (so a backup whose distribution failed is postponed a full
interval); the metrics job advances whenever its pass reaches the final
assignment, independently of the swallowed per-collection failures; and a job
whose timestamp did not advance is due again at every later instant. -/
theorem job_gating_amended :
    (∀ (g : JobGate) (now : Int) (body : Except Unit Unit),
      (jobDue g now SPEEDTEST_INTERVAL_MS = false →
        maybe_run_periodic_speedtests g now body = (g, false)) ∧
      (jobDue g now SPEEDTEST_INTERVAL_MS = true → body = Except.ok () →
        maybe_run_periodic_speedtests g now body = (⟨some now⟩, true)) ∧
      (jobDue g now SPEEDTEST_INTERVAL_MS = true → body = Except.error () →
        maybe_run_periodic_speedtests g now body = (g, true))) ∧
    (∀ (g : JobGate) (now days : Int) (c : Except Unit Bool) (s : Except Unit Int),
      (days ≤ 0 → maybe_run_daily_backup g now days c s = (g, false)) ∧
      (0 < days → jobDue g now (max 1 days * 24 * 3600 * 1000) = false →
        maybe_run_daily_backup g now days c s = (g, false)) ∧
      (0 < days → jobDue g now (max 1 days * 24 * 3600 * 1000) = true →
        ∀ b, c = Except.ok b → maybe_run_daily_backup g now days c s = (⟨some now⟩, true)) ∧
      (0 < days → jobDue g now (max 1 days * 24 * 3600 * 1000) = true →
        c = Except.error () → maybe_run_daily_backup g now days c s = (g, true)) ∧
      (∀ s2, maybe_run_daily_backup g now days c s = maybe_run_daily_backup g now days c s2)) ∧
    (∀ (g : JobGate) (now : Int) (enabled : Bool) (i : Int) (inner outer : Bool),
      (enabled = false → maybe_collect_resource_metrics g now enabled i inner outer = (g, false)) ∧
      (enabled = true → jobDue g now (1000 * max 30 i) = false →
        maybe_collect_resource_metrics g now enabled i inner outer = (g, false)) ∧
      (enabled = true → jobDue g now (1000 * max 30 i) = true → outer = true →
        maybe_collect_resource_metrics g now enabled i inner outer = (g, true)) ∧
      (enabled = true → jobDue g now (1000 * max 30 i) = true → outer = false →
        maybe_collect_resource_metrics g now enabled i inner outer = (⟨some now⟩, true)) ∧
      (∀ inner2, maybe_collect_resource_metrics g now enabled i inner outer =
        maybe_collect_resource_metrics g now enabled i inner2 outer)) ∧
    (∀ (g : JobGate) (now now2 i : Int), now ≤ now2 →
      jobDue g now i = true → jobDue g now2 i = true) := by
  refine ⟨?_, ?_, ?_, ?_⟩
  · intro g now body
    refine ⟨?_, ?_, ?_⟩
    · intro hdue
      unfold maybe_run_periodic_speedtests
      rw [hdue]
      simp
    · intro hdue hb
      unfold maybe_run_periodic_speedtests
      rw [hdue, hb]
      simp
    · intro hdue hb
      unfold maybe_run_periodic_speedtests
      rw [hdue, hb]
      simp
  · intro g now days c s
    refine ⟨?_, ?_, ?_, ?_, ?_⟩
    · intro hd
      unfold maybe_run_daily_backup
      rw [if_pos hd]
    · intro hd hdue
      unfold maybe_run_daily_backup
      rw [if_neg (by omega), hdue]
      simp
    · intro hd hdue b hc
      unfold maybe_run_daily_backup
      rw [if_neg (by omega), hdue, hc]
      simp
    · intro hd hdue hc
      unfold maybe_run_daily_backup
      rw [if_neg (by omega), hdue, hc]
      simp
    · intro s2
      unfold maybe_run_daily_backup
      rfl
  · intro g now enabled i inner outer
    refine ⟨?_, ?_, ?_, ?_, ?_⟩
    · intro he
      unfold maybe_collect_resource_metrics
      rw [he]
      simp
    · intro he hdue
      unfold maybe_collect_resource_metrics
      rw [he, hdue]
      simp
    · intro he hdue ho
      unfold maybe_collect_resource_metrics
      rw [he, hdue, ho]
      simp
    · intro he hdue ho
      unfold maybe_collect_resource_metrics
      rw [he, hdue, ho]
      simp
    · intro inner2
      unfold maybe_collect_resource_metrics
      rfl
  · intro g now now2 i hle hdue
    unfold jobDue at hdue ⊢
    cases hl : g.last with
    | none => rfl
    | some t =>
      rw [hl] at hdue
      have hdue2 : decide (i ≤ now - t) = true := hdue
      have h3 := of_decide_eq_true hdue2
      exact decide_eq_true (by omega)

/-- Witness for `job_gating_amended`: the backup job, due for the first time
with a successfully created backup file, runs and advances its timestamp. -/
theorem job_gating_amended_witness :
    maybe_run_daily_backup ⟨none⟩ 5 1 (Except.ok true) (Except.ok 2) = (⟨some 5⟩, true) :=
  (job_gating_amended.2.1 ⟨none⟩ 5 1 (Except.ok true) (Except.ok 2)).2.2.1
    (by decide) (by decide) true rfl

/-! ## Store operations driven by the reconciler (`database.py`,
`remnawave_repository.py`) -/

/-- Models `_normalize_key_row`'s email view on read: the `email`/`key_email`
fields of a returned row hold the normalized stored email when that is
nonempty, otherwise the raw stored value. -/
def rowEmailView (e : String) : String := if normEmail e == "" then e else normEmail e

/-- Models `database.get_keys_for_host`: rows whose `TRIM(host_name)` matches
the trimmed normalized lookup (SQL `TRIM` modelled like `strip`). -/
def get_keys_for_host (st : Store) (h : String) : List DbKey :=
  st.keys.filter (fun k => stripStr k.hostName == stripStr (normalizeHostName h))

/-- Models `database.get_key_by_email`: the lookup
`_normalize_email(email) or email.strip()` collapses to `normEmail`; the row
matches on either email column (the embedding keeps them equal). -/
def get_key_by_email (st : Store) (e : String) : Option DbKey :=
  st.keys.find? (fun k => k.email == normEmail e)

/-- Models `database.delete_key_by_email`: delete every row matching the
normalized lookup; report whether any row was affected. -/
def delete_key_by_email (st : Store) (e : String) : Store × Bool :=
  ({ st with keys := st.keys.filter (fun k => !(k.email == normEmail e)) },
   st.keys.any (fun k => k.email == normEmail e))

/-- Models the `update_key_fields` call issued by
`update_key_status_from_server`: only `remnawave_user_uuid`, `expire_at` and
`subscription_url` are touched (`None` arguments are skipped by
`update_key_fields`, and an all-`None` call is rejected by
`_apply_key_updates`); `expire_at` is stored at second resolution; the
rowcount reports whether the key id exists. -/
def updFn (kid : Nat) (uuid : Option String) (expireAtMs : Option Int)
    (subUrl : Option String) (k : DbKey) : DbKey :=
  if k.keyId == kid then
    { k with
      uuid := match uuid with | some u => some u | none => k.uuid,
      expiryMs := match expireAtMs with
        | some m => some (truncMs m)
        | none => k.expiryMs,
      subscriptionUrl := match subUrl with
        | some s => some s
        | none => k.subscriptionUrl }
  else k

def update_key_sync_fields (st : Store) (kid : Nat) (uuid : Option String)
    (expireAtMs : Option Int) (subUrl : Option String) : Store × Bool :=
  if uuid.isNone && expireAtMs.isNone && subUrl.isNone then (st, false)
  else
    ({ st with keys := st.keys.map (updFn kid uuid expireAtMs subUrl) },
     st.keys.any (fun k => k.keyId == kid))

/-- Models `database.update_key_status_from_server` as the sync calls it (the
`client_data` dict branch): with a payload, refresh the matched row from the
remote uuid / parsed expiry / subscription URL, `False` when no row matches;
with `None`, delete the row when one exists and report `True` either way. -/
def update_key_status_from_server (st : Store) (keyEmail : String)
    (client : Option RemoteAccount) : Store × Bool :=
  match client, get_key_by_email st (normEmail keyEmail) with
  | some _, none => (st, false)
  | some c, some k => update_key_sync_fields st k.keyId c.uuid c.expireAtMs c.subscriptionUrl
  | none, some _ => delete_key_by_email st (normEmail keyEmail)
  | none, none => (st, true)

/-- Models `database.add_new_key` for the fields the sync path reads back:
the email columns store the normalized email, `expire_at` is stored at second
resolution, the rowid is `nextKeyId`; a duplicate email violates the table's
unique index (`IntegrityError` → `none`, no insert). -/
def add_new_key (st : Store) (userId : Nat) (hostName remUuid keyEmail : String)
    (expiryMs : Int) (subUrl : Option String) : Store × Option Nat :=
  if st.keys.any (fun k => k.email == normEmail keyEmail) then (st, none)
  else
    ({ st with
        keys := st.keys ++ [⟨st.nextKeyId, userId, normalizeHostName hostName,
          normEmail keyEmail, some (truncMs expiryMs), subUrl,
          if remUuid == "" then none else some remUuid⟩],
        nextKeyId := st.nextKeyId + 1 },
     some st.nextKeyId)

/-- The per-row rewrite of `record_key`'s update path (the `update_key_fields`
call): kwargs of the form `value or existing[...]` keep the stored value when
the new one is empty. -/
def rebindFn (kid : Nat) (hostNorm remUuid emailNorm : String) (subUrl : Option String)
    (expStored : Int) (k2 : DbKey) : DbKey :=
  if k2.keyId == kid then
    { k2 with
      hostName := if hostNorm == "" then k2.hostName else hostNorm,
      uuid := if remUuid == "" then k2.uuid else some remUuid,
      email := if emailNorm == "" then k2.email else emailNorm,
      subscriptionUrl := match subUrl with
        | some s => some s
        | none => k2.subscriptionUrl,
      expiryMs := some expStored }
  else k2

/-- Models `remnawave_repository.record_key` for the fields the sync path
reads back (`squad_uuid`, `short_uuid`, traffic fields, tag and description
are stored but never read by the scheduler and are omitted).  The expiry
defaults to the current time (`_default_expire_at_ms`); an existing row —
matched by normalized email, or by remnawave uuid when the email finds
nothing — is updated in place keeping its owner, otherwise a new row is
inserted. -/
def record_key_existing (st : Store) (emailNormalized remUuid : String) : Option DbKey :=
  match (if emailNormalized == "" then none else get_key_by_email st emailNormalized) with
  | some k => some k
  | none =>
    if remUuid == "" then none
    else st.keys.find? (fun k => k.uuid == some (stripStr remUuid))

def record_key (st : Store) (userId : Nat) (squadUuid remUuid email hostName : String)
    (expireAtMs : Option Int) (subUrl : Option String) (now : Int) : Store × Option Nat :=
  match record_key_existing st (normEmail email) remUuid with
  | some k =>
    ({ st with keys := st.keys.map (rebindFn k.keyId (if hostName == "" then "" else normalizeHostName hostName) remUuid (normEmail email) subUrl (truncMs (expireAtMs.getD now))) },
     some k.keyId)
  | none =>
    add_new_key st userId (if hostName == "" then "" else normalizeHostName hostName)
      remUuid email (expireAtMs.getD now) subUrl

/-- Models `remnawave_repository.record_key_from_payload` applied to the
orphan payload the sync builds (a copy of the remote dict with the squad's
`host_name` and `squad_uuid` filled in): uuid, email, expiry and subscription
URL come from the remote account, the uuid stripped as in the source. -/
def record_key_from_payload (st : Store) (userId : Nat) (acct : RemoteAccount)
    (hostName squadUuid : String) (now : Int) : Store × Option Nat :=
  record_key st userId squadUuid (stripStr (acct.uuid.getD "")) acct.email hostName
    acct.expireAtMs acct.subscriptionUrl now

/-! ## KeyReconciler (`sync_keys_with_panels`) -/

/-- One `remote_by_email` entry: the lowercased key, the raw stripped email,
the account. -/
structure RemoteEntry where
  norm : String
  raw : String
  acct : RemoteAccount
  deriving DecidableEq, Repr

/-- Python dict assignment `remote_by_email[raw.lower()] = (raw, user)`:
overwrite in place, else append (insertion order preserved). -/
def insertOv (m : List RemoteEntry) (e : RemoteEntry) : List RemoteEntry :=
  if m.any (fun x => x.norm == e.norm) then
    m.map (fun x => if x.norm == e.norm then e else x)
  else m ++ [e]

/-- The `remote_by_email` map: skip accounts whose stripped email is empty,
key by the lowercased stripped email. -/
def buildRemoteMap (rs : List RemoteAccount) : List RemoteEntry :=
  rs.foldl (fun m r =>
    if stripStr r.email == "" then m
    else insertOv m ⟨lowerStr (stripStr r.email), stripStr r.email, r⟩) []

/-- `remote_by_email.pop(normalized_email, None)`. -/
def popEntry (m : List RemoteEntry) (n : String) : Option RemoteEntry × List RemoteEntry :=
  match m.find? (fun x => x.norm == n) with
  | some e => (some e, m.filter (fun x => !(x.norm == n)))
  | none => (none, m)

/-- Observable actions of one reconciliation pass, tagged by call site:
the best-effort remote deletion attempt, the grace-period local deletion, the
refresh from remote values, the missing-remote deletion (with whether a row
existed, hence was deleted), and the orphan relink (with `record_key`'s
result). -/
inductive SyncEv where
  | remoteDelete (email : String) (ok : Bool)
  | graceDelete (email : String) (deleted : Bool)
  | updateFromRemote (email : String) (changed : Bool)
  | missingDelete (email : String) (deleted : Bool)
  | relink (email : String) (userId : Nat) (newKeyId : Option Nat)
  deriving DecidableEq, Repr

/-- Whether the event wrote the local store. -/
def SyncEv.isLocalMut : SyncEv → Bool
  | .remoteDelete _ _ => false
  | .graceDelete _ d => d
  | .updateFromRemote _ _ => true
  | .missingDelete _ d => d
  | .relink _ _ r => r.isSome

/-- Models `remnawave_api.extract_subscription_url`.  Modelled from the spec:
the module `shop_bot.modules.remnawave_api` is not among the sources under
review; per the specification the reconciler compares "remote expiry and
remote subscription URL against local values", so the extractor yields the
remote account's subscription URL (`none` for missing/empty). -/
def extract_subscription_url (r : RemoteAccount) : Option String := r.subscriptionUrl

/-- The drift test of the matched branch of the key loop: expiry delta beyond
1 second when both sides parse, or a non-empty remote subscription URL that
differs from the local one. -/
def needsUpdate (localMs : Option Int) (localSub : Option String)
    (acct : RemoteAccount) : Bool :=
  (match acct.expireAtMs, localMs with
   | some r, some l => decide (1000 < (r - l).natAbs)
   | _, _ => false) ||
  (match extract_subscription_url acct, localSub with
   | some s, some ls => !(s == ls)
   | some _, none => true
   | none, _ => false)

def GRACE_MS : Int := 5 * 24 * 3600 * 1000

structure SyncSt where
  store : Store
  rmap : List RemoteEntry
  evs : List SyncEv

/-- The raw email the key loop computes for one row: the normalized view of
the stored columns, stripped. -/
def rawOf (k : DbKey) : String := stripStr (rowEmailView k.email)

/-- The grace check `expiry_date and expiry_date < now - timedelta(days=5)`. -/
def graceOld (now : Int) (expiryMs : Option Int) : Bool :=
  match expiryMs with
  | some e => decide (e < now - GRACE_MS)
  | none => false

/-- `remote_email or raw_email`: the identifier the best-effort remote
deletion targets. -/
def graceTarget (s : SyncSt) (k : DbKey) : String :=
  match (popEntry s.rmap (lowerStr (rawOf k))).1 with
  | some en => en.raw
  | none => rawOf k

/-- The body of the `for db_key in keys_in_db` loop for one row.  `remoteFail`
injects the outcome of the best-effort `remnawave_api.delete_client_on_host`
call, whose exception is caught and logged without changing control flow. -/
def syncKeyStep (now : Int) (remoteFail : String → Bool) (s : SyncSt) (k : DbKey) : SyncSt :=
  if rawOf k == "" then s
  else if graceOld now k.expiryMs then
    { store := (delete_key_by_email s.store (rawOf k)).1,
      rmap := (popEntry s.rmap (lowerStr (rawOf k))).2,
      evs := s.evs ++
        [SyncEv.remoteDelete (graceTarget s k) (!remoteFail (graceTarget s k)),
         SyncEv.graceDelete (rawOf k) (delete_key_by_email s.store (rawOf k)).2] }
  else
    match (popEntry s.rmap (lowerStr (rawOf k))).1 with
    | some en =>
      if needsUpdate k.expiryMs k.subscriptionUrl en.acct then
        { store := (update_key_status_from_server s.store (rawOf k) (some en.acct)).1,
          rmap := (popEntry s.rmap (lowerStr (rawOf k))).2,
          evs := s.evs ++ [SyncEv.updateFromRemote (rawOf k)
            (update_key_status_from_server s.store (rawOf k) (some en.acct)).2] }
      else { s with rmap := (popEntry s.rmap (lowerStr (rawOf k))).2 }
    | none =>
      { store := (update_key_status_from_server s.store (rawOf k) none).1,
        rmap := (popEntry s.rmap (lowerStr (rawOf k))).2,
        evs := s.evs ++ [SyncEv.missingDelete (rawOf k)
          (get_key_by_email s.store (rawOf k)).isSome] }

/-- Value of the maximal digit run. -/
def digitsVal (ds : List Char) : Nat :=
  ds.foldl (fun n c => 10 * n + (c.toNat - 48)) 0

/-- Models `re.search(r"user(\d+)", email)`: the leftmost occurrence of
`user` immediately followed by at least one digit; the captured group is the
maximal digit run after it. -/
def findUserToken : List Char → Option Nat
  | [] => none
  | c :: rest =>
    match c :: rest with
    | 'u' :: 's' :: 'e' :: 'r' :: cs =>
      if (cs.takeWhile Char.isDigit).isEmpty then findUserToken rest
      else some (digitsVal (cs.takeWhile Char.isDigit))
    | _ => findUserToken rest

/-- The orphan-relink body for one remaining remote-map entry: recover the
user id from the raw email (`int(...)` of the captured digits; a missing
match or the value `0` both fail the `if not user_id` guard), require the
user to exist, skip when a local key with that email already exists,
otherwise record the key from the payload. -/
def relinkStep (hostName squadUuid : String) (now : Int) (acc : Store × List SyncEv)
    (en : RemoteEntry) : Store × List SyncEv :=
  match findUserToken en.raw.toList with
  | none => acc
  | some uid =>
    if uid == 0 then acc
    else if !(acc.1.users.contains uid) then acc
    else match get_key_by_email acc.1 en.raw with
      | some _ => acc
      | none =>
        ((record_key_from_payload acc.1 uid en.acct hostName squadUuid now).1,
         acc.2 ++ [SyncEv.relink en.raw uid
           (record_key_from_payload acc.1 uid en.acct hostName squadUuid now).2])

/-- The orphan-relink phase: fold `relinkStep` over the remote-map entries
left after the key loop, in map order. -/
def syncRelinkPhase (hostName squadUuid : String) (now : Int) (s1 : SyncSt) :
    Store × List SyncEv :=
  s1.rmap.foldl (relinkStep hostName squadUuid now) (s1.store, s1.evs)

/-- One squad's reconciliation pass: build the remote map, walk the local
keys, then relink the remaining orphans in map order. -/
def syncSquad (now : Int) (remoteFail : String → Bool) (st : Store)
    (hostName squadUuid : String) (remoteUsers : List RemoteAccount) :
    Store × List SyncEv :=
  syncRelinkPhase hostName squadUuid now
    ((get_keys_for_host st hostName).foldl (syncKeyStep now remoteFail)
      ⟨st, buildRemoteMap remoteUsers, []⟩)

/-- Per-squad inputs of one `sync_keys_with_panels` tick.  `fetch` is the
outcome of `remnawave_api.list_users` — the only call inside the per-squad
`try`/`except`; `bodyFault` injects an unhandled exception in the body after
a successful fetch (for example a store failure while processing that squad's
keys), which nothing in the source catches inside the loop. -/
structure SquadFetch where
  hostNameRaw : String
  squadUuidRaw : String
  fetch : Except Unit (List RemoteAccount)
  bodyFault : Bool

/-- Models the squad loop of `sync_keys_with_panels`: squads without a
`squad_uuid` are skipped with a warning; a fetch failure is logged and skips
only that squad; an unhandled post-fetch error propagates out of the loop,
abandoning the remaining squads for this tick (third component `true`). -/
def sync_keys_with_panels (now : Int) (remoteFail : String → Bool) (st : Store) :
    List SquadFetch → Store × List SyncEv × Bool
  | [] => (st, [], false)
  | sq :: rest =>
    if stripStr sq.squadUuidRaw == "" then sync_keys_with_panels now remoteFail st rest
    else match sq.fetch with
      | .error _ => sync_keys_with_panels now remoteFail st rest
      | .ok remoteUsers =>
        if sq.bodyFault then (st, [], true)
        else
          let hostName := if stripStr sq.hostNameRaw == "" then "unknown"
            else stripStr sq.hostNameRaw
          let r := syncSquad now remoteFail st hostName (stripStr sq.squadUuidRaw) remoteUsers
          let rest2 := sync_keys_with_panels now remoteFail r.1 rest
          (rest2.1, r.2 ++ rest2.2.1, rest2.2.2)

/-! ### C7: per-squad failure isolation -/

/-- C7 counterexample: two squads; the first squad's body fails after its
remote listing was fetched (for example a store failure), and the second
squad — whose local key `e@h` has no remote match and would be deleted — is
not reconciled at all: the whole pass aborts with the store untouched, while
the same tick without the failing squad does delete the key. -/
theorem per_squad_isolation_counterexample :
    (sync_keys_with_panels 0 (fun _ => false)
        ⟨[⟨1, 5, "h2", "e@h", some 500, none, none⟩], [5], 2⟩
        [⟨"h1", "u1", Except.ok [], true⟩, ⟨"h2", "u2", Except.ok [], false⟩]) =
      (⟨[⟨1, 5, "h2", "e@h", some 500, none, none⟩], [5], 2⟩, [], true) ∧
    (sync_keys_with_panels 0 (fun _ => false)
        ⟨[⟨1, 5, "h2", "e@h", some 500, none, none⟩], [5], 2⟩
        [⟨"h2", "u2", Except.ok [], false⟩]) =
      (⟨[], [5], 2⟩, [SyncEv.missingDelete "e@h" true], false) := by
  constructor
  · decide
  · decide

/-- C7 as amended: a failure of the remote-listing fetch for one squad (the
only part of the per-squad body inside a `try`/`except`) skips only that
squad and the remaining squads are still reconciled; but an unhandled error
in the body after a successful fetch propagates out of the squad loop and
aborts reconciliation of all remaining squads for that tick. -/
theorem per_squad_fetch_isolation :
    (∀ (now : Int) (rf : String → Bool) (st : Store) (sq : SquadFetch)
        (rest : List SquadFetch),
      sq.fetch = Except.error () →
      sync_keys_with_panels now rf st (sq :: rest) =
        sync_keys_with_panels now rf st rest) ∧
    (∀ (now : Int) (rf : String → Bool) (st : Store) (sq : SquadFetch)
        (rs : List RemoteAccount) (rest : List SquadFetch),
      sq.fetch = Except.ok rs → sq.bodyFault = true →
      (stripStr sq.squadUuidRaw == "") = false →
      sync_keys_with_panels now rf st (sq :: rest) = (st, [], true)) := by
  constructor
  · intro now rf st sq rest hf
    unfold sync_keys_with_panels
    by_cases hu : (stripStr sq.squadUuidRaw == "") = true
    · rw [if_pos hu]
      cases rest <;> rfl
    · rw [if_neg hu, hf]
      cases rest <;> rfl
  · intro now rf st sq rs rest hf hb hu
    unfold sync_keys_with_panels
    rw [if_neg (by rw [hu]; simp), hf, hb]
    simp

/-- Witness for `per_squad_fetch_isolation`: a single squad whose fetch fails
leaves the tick identical to a tick without it. -/
theorem per_squad_fetch_isolation_witness :
    sync_keys_with_panels 0 (fun _ => false) ⟨[], [], 1⟩
        [⟨"h1", "u1", Except.error (), false⟩] =
      sync_keys_with_panels 0 (fun _ => false) ⟨[], [], 1⟩ [] :=
  per_squad_fetch_isolation.1 0 (fun _ => false) ⟨[], [], 1⟩
    ⟨"h1", "u1", Except.error (), false⟩ [] rfl

/-! ### Store well-formedness and shared sync lemmas -/

/-- Invariants the database maintains on `vpn_keys`: every writer stores the
normalized email, the email columns carry a unique index, key ids are the
unique rowids and stay below the next rowid. -/
structure StoreWF (st : Store) : Prop where
  emailsNorm : ∀ k ∈ st.keys, normEmail k.email = k.email
  emailsP : st.keys.Pairwise (fun a b => a.email ≠ b.email)
  idsP : st.keys.Pairwise (fun a b => a.keyId ≠ b.keyId)
  idsLt : ∀ k ∈ st.keys, k.keyId < st.nextKeyId

theorem stripStr_of_norm {e : String} (h : normEmail e = e) : stripStr e = e := by
  conv_lhs => rw [← h]
  rw [stripStr_normEmail, h]

theorem lowerStr_of_norm {e : String} (h : normEmail e = e) : lowerStr e = e := by
  conv_lhs => rw [← h]
  rw [lowerStr_normEmail, h]

theorem rowEmailView_of_norm {e : String} (h : normEmail e = e) : rowEmailView e = e := by
  unfold rowEmailView
  rw [h]
  split <;> rfl

/-- Under the store invariant, the raw email the key loop computes is exactly
the stored email. -/
theorem rawOf_of_norm {k : DbKey} (h : normEmail k.email = k.email) : rawOf k = k.email := by
  unfold rawOf
  rw [rowEmailView_of_norm h, stripStr_of_norm h]

/-- Two members of an id-pairwise list sharing a key id are the same row. -/
theorem eq_of_mem_idsP {l : List DbKey} (hp : l.Pairwise (fun a b => a.keyId ≠ b.keyId))
    {a b : DbKey} (ha : a ∈ l) (hb : b ∈ l) (hid : a.keyId = b.keyId) : a = b := by
  by_contra hne
  exact hp.forall (fun x y h => fun e => h e.symm) ha hb hne hid

/-- Same for the email columns. -/
theorem eq_of_mem_emailsP {l : List DbKey} (hp : l.Pairwise (fun a b => a.email ≠ b.email))
    {a b : DbKey} (ha : a ∈ l) (hb : b ∈ l) (hid : a.email = b.email) : a = b := by
  by_contra hne
  exact hp.forall (fun x y h => fun e => h e.symm) ha hb hne hid

/-- Facts about every `remote_by_email` entry: the raw email is the stripped,
nonempty account email and the key is its lowercase (equivalently the
normalized account email). -/
structure MapEntryWF (en : RemoteEntry) : Prop where
  rawEq : en.raw = stripStr en.acct.email
  normEq : en.norm = lowerStr en.raw
  rawNe : en.raw ≠ ""

theorem mapEntryWF_norm {en : RemoteEntry} (h : MapEntryWF en) :
    en.norm = normEmail en.acct.email := by
  rw [h.normEq, h.rawEq]
  rfl

/-- The map key is itself a normalized string. -/
theorem mapEntryWF_norm_norm {en : RemoteEntry} (h : MapEntryWF en) :
    normEmail en.norm = en.norm := by
  rw [mapEntryWF_norm h]
  exact normEmail_idem _

theorem insertOv_mem {m : List RemoteEntry} {e x : RemoteEntry}
    (hx : x ∈ insertOv m e) : x ∈ m ∨ x = e := by
  unfold insertOv at hx
  split at hx
  · rcases List.mem_map.mp hx with ⟨y, hy, hyx⟩
    by_cases hb : (y.norm == e.norm) = true
    · rw [if_pos hb] at hyx
      exact Or.inr hyx.symm
    · rw [if_neg hb] at hyx
      exact Or.inl (hyx ▸ hy)
  · rcases List.mem_append.mp hx with h | h
    · exact Or.inl h
    · exact Or.inr (List.mem_singleton.mp h)

theorem buildRemoteMap_wf {rs : List RemoteAccount} :
    ∀ en ∈ buildRemoteMap rs, MapEntryWF en := by
  suffices h : ∀ (l : List RemoteAccount) (m0 : List RemoteEntry),
      (∀ en ∈ m0, MapEntryWF en) →
      ∀ en ∈ l.foldl (fun m r =>
        if stripStr r.email == "" then m
        else insertOv m ⟨lowerStr (stripStr r.email), stripStr r.email, r⟩) m0,
        MapEntryWF en by
    intro en hen
    exact h rs [] (fun _ h2 => absurd h2 (List.not_mem_nil _)) en hen
  intro l
  induction l with
  | nil => intro m0 h0 en hen; exact h0 en hen
  | cons r rest ih =>
    intro m0 h0 en hen
    simp only [List.foldl_cons] at hen
    by_cases hr : (stripStr r.email == "") = true
    · rw [if_pos hr] at hen
      exact ih m0 h0 en hen
    · rw [if_neg hr] at hen
      refine ih _ ?_ en hen
      intro x hx
      rcases insertOv_mem hx with h | h
      · exact h0 x h
      · subst h
        exact ⟨rfl, rfl, by simpa using hr⟩

theorem popEntry_found {m : List RemoteEntry} {n : String} {en : RemoteEntry}
    (h : (popEntry m n).1 = some en) :
    en ∈ m ∧ en.norm = n ∧
      (popEntry m n).2 = m.filter (fun x => !(x.norm == n)) := by
  unfold popEntry at h ⊢
  cases hf : m.find? (fun x => x.norm == n) with
  | none =>
    rw [hf] at h
    cases h
  | some e =>
    rw [hf] at h
    have h2 : some e = some en := h
    cases h2
    exact ⟨List.mem_of_find?_eq_some hf, by simpa using List.find?_some hf, rfl⟩

theorem popEntry_none {m : List RemoteEntry} {n : String}
    (h : (popEntry m n).1 = none) :
    (popEntry m n).2 = m ∧ ∀ en ∈ m, en.norm ≠ n := by
  unfold popEntry at h ⊢
  cases hf : m.find? (fun x => x.norm == n) with
  | none =>
    refine ⟨rfl, ?_⟩
    intro en hen
    have := List.find?_eq_none.mp hf en hen
    simpa using this
  | some e =>
    rw [hf] at h
    cases h

theorem popEntry_sub {m : List RemoteEntry} {n : String} :
    ∀ en ∈ (popEntry m n).2, en ∈ m := by
  intro en hen
  unfold popEntry at hen
  cases hf : m.find? (fun x => x.norm == n) with
  | none => rw [hf] at hen; exact hen
  | some e =>
    rw [hf] at hen
    exact List.mem_of_mem_filter hen

/-- The key loop only appends events; the appended events of one step are
tagged with the row's raw email. -/
theorem syncKeyStep_evs (now : Int) (rf : String → Bool) (s : SyncSt) (k : DbKey) :
    ∃ t, (syncKeyStep now rf s k).evs = s.evs ++ t ∧
      (∀ e b, SyncEv.graceDelete e b ∈ t → e = rawOf k ∧ graceOld now k.expiryMs = true) ∧
      (∀ e b, SyncEv.missingDelete e b ∈ t → e = rawOf k) ∧
      (∀ e b, SyncEv.updateFromRemote e b ∈ t → e = rawOf k) := by
  unfold syncKeyStep
  by_cases h1 : (rawOf k == "") = true
  · rw [if_pos h1]
    exact ⟨[], by simp⟩
  · rw [if_neg h1]
    by_cases h2 : graceOld now k.expiryMs = true
    · rw [if_pos h2]
      refine ⟨_, rfl, ?_, ?_, ?_⟩
      · intro e b he
        rcases List.mem_cons.mp he with h | h
        · cases h
        · rcases List.mem_cons.mp h with h | h
          · cases h; exact ⟨rfl, h2⟩
          · cases h
      · intro e b he
        rcases List.mem_cons.mp he with h | h
        · cases h
        · rcases List.mem_cons.mp h with h | h
          · cases h
          · cases h
      · intro e b he
        rcases List.mem_cons.mp he with h | h
        · cases h
        · rcases List.mem_cons.mp h with h | h
          · cases h
          · cases h
    · rw [if_neg h2]
      split
      · next en _ =>
        by_cases h3 : needsUpdate k.expiryMs k.subscriptionUrl en.acct = true
        · rw [if_pos h3]
          refine ⟨_, rfl, ?_, ?_, ?_⟩
          · intro e b he
            have h := List.mem_singleton.mp he
            simp at h
          · intro e b he
            have h := List.mem_singleton.mp he
            simp at h
          · intro e b he
            have h := List.mem_singleton.mp he
            rw [(by simpa using h : e = rawOf k ∧
              b = (update_key_status_from_server s.store (rawOf k) (some en.acct)).2).1]
        · rw [if_neg h3]
          exact ⟨[], by simp⟩
      · refine ⟨_, rfl, ?_, ?_, ?_⟩
        · intro e b he
          have h := List.mem_singleton.mp he
          simp at h
        · intro e b he
          have h := List.mem_singleton.mp he
          rw [(by simpa using h : e = rawOf k ∧
            b = (get_key_by_email s.store (rawOf k)).isSome).1]
        · intro e b he
          have h := List.mem_singleton.mp he
          simp at h

/-- The relink loop only appends `relink` events. -/
theorem relinkStep_evs (hostName squadUuid : String) (now : Int)
    (acc : Store × List SyncEv) (en : RemoteEntry) :
    ∃ t, (relinkStep hostName squadUuid now acc en).2 = acc.2 ++ t ∧
      ∀ ev ∈ t, ∃ e u r, ev = SyncEv.relink e u r := by
  unfold relinkStep
  split
  · exact ⟨[], by simp⟩
  · next uid _ =>
    by_cases h1 : (uid == 0) = true
    · rw [if_pos h1]
      exact ⟨[], by simp⟩
    · rw [if_neg h1]
      by_cases h2 : (!(acc.1.users.contains uid)) = true
      · rw [if_pos h2]
        exact ⟨[], by simp⟩
      · rw [if_neg h2]
        split
        · exact ⟨[], by simp⟩
        · refine ⟨_, rfl, ?_⟩
          intro ev hev
          have h := List.mem_singleton.mp hev
          exact ⟨_, _, _, h⟩

/-! ### Branch equations for the key loop -/

theorem syncKeyStep_eq_skip {now : Int} {rf : String → Bool} {s : SyncSt} {k : DbKey}
    (h : (rawOf k == "") = true) : syncKeyStep now rf s k = s := by
  unfold syncKeyStep
  rw [if_pos h]

theorem syncKeyStep_eq_grace {now : Int} {rf : String → Bool} {s : SyncSt} {k : DbKey}
    (h1 : (rawOf k == "") = false) (h2 : graceOld now k.expiryMs = true) :
    syncKeyStep now rf s k =
      { store := (delete_key_by_email s.store (rawOf k)).1,
        rmap := (popEntry s.rmap (lowerStr (rawOf k))).2,
        evs := s.evs ++
          [SyncEv.remoteDelete (graceTarget s k) (!rf (graceTarget s k)),
           SyncEv.graceDelete (rawOf k) (delete_key_by_email s.store (rawOf k)).2] } := by
  unfold syncKeyStep
  rw [if_neg (by rw [h1]; simp), if_pos h2]

theorem syncKeyStep_eq_update {now : Int} {rf : String → Bool} {s : SyncSt} {k : DbKey}
    {en : RemoteEntry} (h1 : (rawOf k == "") = false) (h2 : graceOld now k.expiryMs = false)
    (hp : (popEntry s.rmap (lowerStr (rawOf k))).1 = some en)
    (h3 : needsUpdate k.expiryMs k.subscriptionUrl en.acct = true) :
    syncKeyStep now rf s k =
      { store := (update_key_status_from_server s.store (rawOf k) (some en.acct)).1,
        rmap := (popEntry s.rmap (lowerStr (rawOf k))).2,
        evs := s.evs ++ [SyncEv.updateFromRemote (rawOf k)
          (update_key_status_from_server s.store (rawOf k) (some en.acct)).2] } := by
  unfold syncKeyStep
  rw [if_neg (by rw [h1]; simp), if_neg (by rw [h2]; simp), hp]
  exact if_pos h3

theorem syncKeyStep_eq_noupdate {now : Int} {rf : String → Bool} {s : SyncSt} {k : DbKey}
    {en : RemoteEntry} (h1 : (rawOf k == "") = false) (h2 : graceOld now k.expiryMs = false)
    (hp : (popEntry s.rmap (lowerStr (rawOf k))).1 = some en)
    (h3 : needsUpdate k.expiryMs k.subscriptionUrl en.acct = false) :
    syncKeyStep now rf s k =
      { store := s.store, rmap := (popEntry s.rmap (lowerStr (rawOf k))).2,
        evs := s.evs } := by
  unfold syncKeyStep
  rw [if_neg (by rw [h1]; simp), if_neg (by rw [h2]; simp), hp]
  exact if_neg (by rw [h3]; simp)

theorem syncKeyStep_eq_missing {now : Int} {rf : String → Bool} {s : SyncSt} {k : DbKey}
    (h1 : (rawOf k == "") = false) (h2 : graceOld now k.expiryMs = false)
    (hp : (popEntry s.rmap (lowerStr (rawOf k))).1 = none) :
    syncKeyStep now rf s k =
      { store := (update_key_status_from_server s.store (rawOf k) none).1,
        rmap := (popEntry s.rmap (lowerStr (rawOf k))).2,
        evs := s.evs ++ [SyncEv.missingDelete (rawOf k)
          (get_key_by_email s.store (rawOf k)).isSome] } := by
  unfold syncKeyStep
  rw [if_neg (by rw [h1]; simp), if_neg (by rw [h2]; simp), hp]

/-! ### List helpers -/

theorem filter_filter_of_imp {l : List DbKey} {p q : DbKey → Bool}
    (h : ∀ x ∈ l, p x = true → q x = true) :
    (l.filter q).filter p = l.filter p := by
  induction l with
  | nil => rfl
  | cons x rest ih =>
    have ih2 := ih (fun y hy => h y (List.mem_cons_of_mem _ hy))
    by_cases hq : q x = true
    · rw [List.filter_cons_of_pos hq]
      by_cases hpx : p x = true
      · rw [List.filter_cons_of_pos hpx, List.filter_cons_of_pos hpx, ih2]
      · rw [List.filter_cons_of_neg (by simpa using hpx),
          List.filter_cons_of_neg (by simpa using hpx), ih2]
    · rw [List.filter_cons_of_neg (by simpa using hq)]
      have hpx : p x = false := by
        by_contra hc
        exact hq (h x (List.mem_cons_self _ _) (by simpa using hc))
      rw [List.filter_cons_of_neg (by rw [hpx]; simp), ih2]

theorem filter_filter_excl {l : List DbKey} {p q : DbKey → Bool}
    (h : ∀ x ∈ l, p x = true → q x = false) :
    (l.filter q).filter p = [] := by
  induction l with
  | nil => rfl
  | cons x rest ih =>
    have ih2 := ih (fun y hy => h y (List.mem_cons_of_mem _ hy))
    by_cases hq : q x = true
    · rw [List.filter_cons_of_pos hq]
      have hpx : p x = false := by
        by_contra hc
        have := h x (List.mem_cons_self _ _) (by simpa using hc)
        rw [this] at hq
        cases hq
      rw [List.filter_cons_of_neg (by rw [hpx]; simp), ih2]
    · rw [List.filter_cons_of_neg (by simpa using hq), ih2]

theorem filter_map_eq {l : List DbKey} {f : DbKey → DbKey} {p : DbKey → Bool}
    (hp : ∀ x, p (f x) = p x) (hfix : ∀ x ∈ l, p x = true → f x = x) :
    (l.map f).filter p = l.filter p := by
  induction l with
  | nil => rfl
  | cons x rest ih =>
    have ih2 := ih (fun y hy => hfix y (List.mem_cons_of_mem _ hy))
    rw [List.map_cons]
    by_cases hpx : p x = true
    · rw [List.filter_cons_of_pos (by rw [hp x]; exact hpx), List.filter_cons_of_pos hpx,
        hfix x (List.mem_cons_self _ _) hpx, ih2]
    · rw [List.filter_cons_of_neg (by rw [hp x]; simpa using hpx),
        List.filter_cons_of_neg (by simpa using hpx), ih2]

/-! ### Branch equations for the store updates -/

theorem updFn_email (kid : Nat) (uuid : Option String) (expireAtMs : Option Int)
    (subUrl : Option String) (k : DbKey) :
    (updFn kid uuid expireAtMs subUrl k).email = k.email := by
  unfold updFn
  split <;> rfl

theorem updFn_keyId (kid : Nat) (uuid : Option String) (expireAtMs : Option Int)
    (subUrl : Option String) (k : DbKey) :
    (updFn kid uuid expireAtMs subUrl k).keyId = k.keyId := by
  unfold updFn
  split <;> rfl

theorem updFn_of_ne {kid : Nat} {k : DbKey} (uuid : Option String)
    (expireAtMs : Option Int) (subUrl : Option String) (h : k.keyId ≠ kid) :
    updFn kid uuid expireAtMs subUrl k = k := by
  unfold updFn
  rw [if_neg (by simpa using h)]

/-- The rebind map of `record_key` leaves a row's email alone or sets it to
the normalized payload email. -/
theorem rebindFn_email (kid : Nat) (hostNorm remUuid emailNorm : String)
    (subUrl : Option String) (expStored : Int) (k2 : DbKey) :
    (rebindFn kid hostNorm remUuid emailNorm subUrl expStored k2).email = k2.email ∨
    (rebindFn kid hostNorm remUuid emailNorm subUrl expStored k2).email = emailNorm := by
  unfold rebindFn
  split
  · show (if emailNorm == "" then k2.email else emailNorm) = k2.email ∨
      (if emailNorm == "" then k2.email else emailNorm) = emailNorm
    by_cases hb : (emailNorm == "") = true
    · rw [if_pos hb]
      exact Or.inl rfl
    · rw [if_neg hb]
      exact Or.inr rfl
  · exact Or.inl rfl

theorem get_key_by_email_found {st : Store} {e : String} {k : DbKey}
    (h : get_key_by_email st e = some k) : k ∈ st.keys ∧ k.email = normEmail e := by
  unfold get_key_by_email at h
  exact ⟨List.mem_of_find?_eq_some h, by simpa using List.find?_some h⟩

theorem get_key_by_email_none {st : Store} {e : String}
    (h : get_key_by_email st e = none) : ∀ k ∈ st.keys, k.email ≠ normEmail e := by
  unfold get_key_by_email at h
  intro k hk
  simpa using List.find?_eq_none.mp h k hk

theorem get_key_by_email_isSome {st : Store} {e : String} {k : DbKey}
    (hk : k ∈ st.keys) (he : (k.email == normEmail e) = true) :
    (get_key_by_email st e).isSome = true := by
  unfold get_key_by_email
  exact List.find?_isSome.mpr ⟨k, hk, he⟩

theorem update_some_none {st : Store} {e : String} {c : RemoteAccount}
    (hg : get_key_by_email st (normEmail e) = none) :
    update_key_status_from_server st e (some c) = (st, false) := by
  unfold update_key_status_from_server
  rw [hg]

theorem update_some_some {st : Store} {e : String} {c : RemoteAccount} {k : DbKey}
    (hg : get_key_by_email st (normEmail e) = some k) :
    update_key_status_from_server st e (some c) =
      update_key_sync_fields st k.keyId c.uuid c.expireAtMs c.subscriptionUrl := by
  unfold update_key_status_from_server
  rw [hg]

theorem update_none_some {st : Store} {e : String} {k : DbKey}
    (hg : get_key_by_email st (normEmail e) = some k) :
    update_key_status_from_server st e none = delete_key_by_email st (normEmail e) := by
  unfold update_key_status_from_server
  rw [hg]

theorem update_none_none {st : Store} {e : String}
    (hg : get_key_by_email st (normEmail e) = none) :
    update_key_status_from_server st e none = (st, true) := by
  unfold update_key_status_from_server
  rw [hg]

theorem update_key_sync_fields_fst (st : Store) (kid : Nat) (uuid : Option String)
    (expireAtMs : Option Int) (subUrl : Option String) :
    (update_key_sync_fields st kid uuid expireAtMs subUrl).1 = st ∨
    (update_key_sync_fields st kid uuid expireAtMs subUrl).1 =
      { st with keys := st.keys.map (updFn kid uuid expireAtMs subUrl) } := by
  unfold update_key_sync_fields
  split
  · exact Or.inl rfl
  · exact Or.inr rfl

theorem popEntry_none_of {m : List RemoteEntry} {n : String}
    (h : ∀ x ∈ m, x.norm ≠ n) : popEntry m n = (none, m) := by
  unfold popEntry
  rw [List.find?_eq_none.mpr (fun x hx => by simpa using h x hx)]

/-- An email class is empty exactly when no row carries the email. -/
theorem class_empty_iff {l : List DbKey} {E : String} :
    l.filter (fun r => r.email == E) = [] ↔ ∀ x ∈ l, x.email ≠ E := by
  rw [List.filter_eq_nil_iff]
  constructor
  · intro h x hx he
    exact h x hx (by simpa using he)
  · intro h x hx hbe
    exact h x hx (by simpa using hbe)

/-! ### The key-loop invariant tracking one email class -/

/-- Store facts carried through the key loop while the tracked class `E` is
untouched: the user table and the rowid counter are unchanged, the store stays
well formed, and the set of rows with email `E` equals `L`. -/
structure ClassInv (E : String) (L : List DbKey) (users0 : List Nat) (next0 : Nat)
    (st : Store) : Prop where
  usersEq : st.users = users0
  nextEq : st.nextKeyId = next0
  emailsNorm : ∀ r ∈ st.keys, normEmail r.email = r.email
  emailsP : st.keys.Pairwise (fun a b => a.email ≠ b.email)
  idsP : st.keys.Pairwise (fun a b => a.keyId ≠ b.keyId)
  classEq : st.keys.filter (fun r => r.email == E) = L

/-- The loop state invariant: the store facts plus a predicate every
surviving remote-map entry satisfies (the map only ever loses entries). -/
structure LoopInv (E : String) (L : List DbKey) (users0 : List Nat) (next0 : Nat)
    (R : RemoteEntry → Prop) (s : SyncSt) : Prop where
  store : ClassInv E L users0 next0 s.store
  rmapP : ∀ en ∈ s.rmap, R en

theorem classInv_delete {E : String} {L : List DbKey} {users0 : List Nat} {next0 : Nat}
    {st : Store} {e : String} (h : ClassInv E L users0 next0 st)
    (hne : normEmail e ≠ E) :
    ClassInv E L users0 next0 (delete_key_by_email st e).1 := by
  refine ⟨h.usersEq, h.nextEq, ?_, ?_, ?_, ?_⟩
  · intro r hr
    exact h.emailsNorm r (List.mem_of_mem_filter hr)
  · exact List.Pairwise.sublist (List.filter_sublist _) h.emailsP
  · exact List.Pairwise.sublist (List.filter_sublist _) h.idsP
  · show (st.keys.filter (fun k => !(k.email == normEmail e))).filter
      (fun r => r.email == E) = L
    rw [filter_filter_of_imp ?_, h.classEq]
    intro x _ hpx
    have hx2 : x.email = E := by simpa using hpx
    have hb : (x.email == normEmail e) = false := by
      rw [hx2]
      exact beq_eq_false_iff_ne.mpr (fun hc => hne hc.symm)
    rw [hb]
    rfl

theorem classInv_delete_self {E : String} {L : List DbKey} {users0 : List Nat}
    {next0 : Nat} {st : Store} {e : String} (h : ClassInv E L users0 next0 st)
    (heq : normEmail e = E) :
    ClassInv E [] users0 next0 (delete_key_by_email st e).1 := by
  refine ⟨h.usersEq, h.nextEq, ?_, ?_, ?_, ?_⟩
  · intro r hr
    exact h.emailsNorm r (List.mem_of_mem_filter hr)
  · exact List.Pairwise.sublist (List.filter_sublist _) h.emailsP
  · exact List.Pairwise.sublist (List.filter_sublist _) h.idsP
  · show (st.keys.filter (fun k => !(k.email == normEmail e))).filter
      (fun r => r.email == E) = []
    refine filter_filter_excl ?_
    intro x _ hpx
    have hx2 : x.email = E := by simpa using hpx
    have hb : (x.email == normEmail e) = true := by
      rw [hx2, heq]
      simp
    rw [hb]
    rfl

theorem classInv_updFields {E : String} {L : List DbKey} {users0 : List Nat}
    {next0 : Nat} {st : Store} {kid : Nat} {uuid : Option String}
    {expireAtMs : Option Int} {subUrl : Option String}
    (h : ClassInv E L users0 next0 st)
    (hkid : ∀ x ∈ st.keys, x.email = E → x.keyId ≠ kid) :
    ClassInv E L users0 next0 (update_key_sync_fields st kid uuid expireAtMs subUrl).1 := by
  rcases update_key_sync_fields_fst st kid uuid expireAtMs subUrl with hf | hf
  · rw [hf]
    exact h
  · rw [hf]
    refine ⟨h.usersEq, h.nextEq, ?_, ?_, ?_, ?_⟩
    · intro r hr
      rcases List.mem_map.mp hr with ⟨y, hy, rfl⟩
      rw [updFn_email]
      exact h.emailsNorm y hy
    · refine List.pairwise_map.mpr (h.emailsP.imp ?_)
      intro a b hab
      rw [updFn_email, updFn_email]
      exact hab
    · refine List.pairwise_map.mpr (h.idsP.imp ?_)
      intro a b hab
      rw [updFn_keyId, updFn_keyId]
      exact hab
    · show (st.keys.map (updFn kid uuid expireAtMs subUrl)).filter
        (fun r => r.email == E) = L
      rw [filter_map_eq (fun x => by rw [updFn_email])
        (fun x hx hpx => updFn_of_ne _ _ _ (hkid x hx (by simpa using hpx))), h.classEq]

/-- Processing a row whose (normalized) email differs from the tracked `E`
preserves the loop invariant. -/
theorem syncKeyStep_inv {E : String} {L : List DbKey} {users0 : List Nat} {next0 : Nat}
    {R : RemoteEntry → Prop} {now : Int} {rf : String → Bool} {s : SyncSt} {r : DbKey}
    (hinv : LoopInv E L users0 next0 R s)
    (hnorm : normEmail r.email = r.email) (hne : r.email ≠ E) :
    LoopInv E L users0 next0 R (syncKeyStep now rf s r) := by
  have hraw : rawOf r = r.email := rawOf_of_norm hnorm
  have hnraw : normEmail (rawOf r) = rawOf r := by rw [hraw]; exact hnorm
  have hneE : normEmail (rawOf r) ≠ E := by rw [hnraw, hraw]; exact hne
  have hrmap : ∀ en ∈ (popEntry s.rmap (lowerStr (rawOf r))).2, R en :=
    fun en hen => hinv.rmapP en (popEntry_sub en hen)
  by_cases h1 : (rawOf r == "") = true
  · rw [syncKeyStep_eq_skip h1]
    exact hinv
  · have h1f : (rawOf r == "") = false := by simpa using h1
    by_cases h2 : graceOld now r.expiryMs = true
    · rw [syncKeyStep_eq_grace h1f h2]
      exact ⟨classInv_delete hinv.store hneE, hrmap⟩
    · have h2f : graceOld now r.expiryMs = false := by simpa using h2
      cases hp : (popEntry s.rmap (lowerStr (rawOf r))).1 with
      | some en =>
        by_cases h3 : needsUpdate r.expiryMs r.subscriptionUrl en.acct = true
        · rw [syncKeyStep_eq_update h1f h2f hp h3]
          refine ⟨?_, hrmap⟩
          cases hg : get_key_by_email s.store (normEmail (rawOf r)) with
          | none =>
            rw [update_some_none hg]
            exact hinv.store
          | some k2 =>
            rw [update_some_some hg]
            refine classInv_updFields hinv.store ?_
            intro x hx hxE hid
            rcases get_key_by_email_found hg with ⟨hk2, hk2e⟩
            have hk2E : k2.email = r.email := by
              rw [hk2e, normEmail_idem, hnraw, hraw]
            have hx2 : x = k2 := eq_of_mem_idsP hinv.store.idsP hx hk2 hid
            rw [hx2, hk2E] at hxE
            exact hne hxE
        · rw [syncKeyStep_eq_noupdate h1f h2f hp (by simpa using h3)]
          exact ⟨hinv.store, hrmap⟩
      | none =>
        rw [syncKeyStep_eq_missing h1f h2f hp]
        refine ⟨?_, hrmap⟩
        cases hg : get_key_by_email s.store (normEmail (rawOf r)) with
        | none =>
          rw [update_none_none hg]
          exact hinv.store
        | some k2 =>
          rw [update_none_some hg]
          exact classInv_delete hinv.store (by rw [normEmail_idem]; exact hneE)

/-- The invariant survives any stretch of the key loop that avoids the
tracked email. -/
theorem syncFold_inv {E : String} {L : List DbKey} {users0 : List Nat} {next0 : Nat}
    {R : RemoteEntry → Prop} {now : Int} {rf : String → Bool} :
    ∀ (ks : List DbKey) (s : SyncSt),
      (∀ x ∈ ks, normEmail x.email = x.email ∧ x.email ≠ E) →
      LoopInv E L users0 next0 R s →
      LoopInv E L users0 next0 R (ks.foldl (syncKeyStep now rf) s)
  | [], _, _, hinv => hinv
  | k :: rest, s, h, hinv => by
    rw [List.foldl_cons]
    exact syncFold_inv rest _ (fun x hx => h x (List.mem_cons_of_mem _ hx))
      (syncKeyStep_inv hinv (h k (List.mem_cons_self _ _)).1 (h k (List.mem_cons_self _ _)).2)

/-- Any stretch of the key loop only appends events, and its grace- and
missing-deletion events are tagged with raw emails of processed rows. -/
theorem syncFold_evs {now : Int} {rf : String → Bool} :
    ∀ (ks : List DbKey) (s : SyncSt),
      ∃ t, (ks.foldl (syncKeyStep now rf) s).evs = s.evs ++ t ∧
        (∀ e b, SyncEv.graceDelete e b ∈ t →
          ∃ x ∈ ks, e = rawOf x ∧ graceOld now x.expiryMs = true) ∧
        (∀ e b, SyncEv.missingDelete e b ∈ t → ∃ x ∈ ks, e = rawOf x)
  | [], s => ⟨[], by simp⟩
  | k :: rest, s => by
    rw [List.foldl_cons]
    rcases syncKeyStep_evs now rf s k with ⟨t1, ht1, hg1, hm1, _⟩
    rcases syncFold_evs rest (syncKeyStep now rf s k) with ⟨t2, ht2, hg2, hm2⟩
    refine ⟨t1 ++ t2, ?_, ?_, ?_⟩
    · rw [ht2, ht1, List.append_assoc]
    · intro e b he
      rcases List.mem_append.mp he with h | h
      · exact ⟨k, List.mem_cons_self _ _, hg1 e b h⟩
      · rcases hg2 e b h with ⟨x, hx, hxx⟩
        exact ⟨x, List.mem_cons_of_mem _ hx, hxx⟩
    · intro e b he
      rcases List.mem_append.mp he with h | h
      · exact ⟨k, List.mem_cons_self _ _, hm1 e b h⟩
      · rcases hm2 e b h with ⟨x, hx, hxx⟩
        exact ⟨x, List.mem_cons_of_mem _ hx, hxx⟩

/-- The relink phase only appends `relink` events. -/
theorem relinkFold_evs (hostName squadUuid : String) (now : Int) :
    ∀ (m : List RemoteEntry) (acc : Store × List SyncEv),
      ∃ t, (m.foldl (relinkStep hostName squadUuid now) acc).2 = acc.2 ++ t ∧
        ∀ ev ∈ t, ∃ e u r2, ev = SyncEv.relink e u r2
  | [], _ => ⟨[], by simp⟩
  | en :: rest, acc => by
    rw [List.foldl_cons]
    rcases relinkStep_evs hostName squadUuid now acc en with ⟨t1, ht1, h1⟩
    rcases relinkFold_evs hostName squadUuid now rest
      (relinkStep hostName squadUuid now acc en) with ⟨t2, ht2, h2⟩
    refine ⟨t1 ++ t2, ?_, ?_⟩
    · rw [ht2, ht1, List.append_assoc]
    · intro ev hev
      rcases List.mem_append.mp hev with h | h
      · exact h1 ev h
      · exact h2 ev h

/-! ### The relink phase never reintroduces a foreign email class -/

theorem add_new_key_class {st : Store} {uid : Nat} {hostName remUuid keyEmail : String}
    {expiryMs : Int} {sub : Option String} {E : String}
    (hcls : ∀ x ∈ st.keys, x.email ≠ E) (hne : normEmail keyEmail ≠ E) :
    ∀ x ∈ (add_new_key st uid hostName remUuid keyEmail expiryMs sub).1.keys,
      x.email ≠ E := by
  unfold add_new_key
  split
  · exact hcls
  · intro x hx
    rcases List.mem_append.mp hx with h | h
    · exact hcls x h
    · rw [List.mem_singleton.mp h]
      exact hne

theorem record_key_class {st : Store} {uid : Nat}
    {squadUuid remUuid email hostName : String} {expireAtMs : Option Int}
    {sub : Option String} {now : Int} {E : String}
    (hcls : ∀ x ∈ st.keys, x.email ≠ E) (hne : normEmail email ≠ E) :
    ∀ x ∈ (record_key st uid squadUuid remUuid email hostName expireAtMs sub now).1.keys,
      x.email ≠ E := by
  unfold record_key
  cases hr : record_key_existing st (normEmail email) remUuid with
  | some k =>
    intro x hx
    rcases List.mem_map.mp hx with ⟨y, hy, rfl⟩
    rcases rebindFn_email k.keyId _ remUuid (normEmail email) sub _ y with h | h
    · rw [h]
      exact hcls y hy
    · rw [h]
      exact hne
  | none =>
    exact add_new_key_class hcls hne

theorem relinkStep_class {hostName squadUuid : String} {now : Int}
    {acc : Store × List SyncEv} {en : RemoteEntry} {E : String}
    (hcls : ∀ x ∈ acc.1.keys, x.email ≠ E)
    (hen : MapEntryWF en) (hne : en.norm ≠ E) :
    ∀ x ∈ (relinkStep hostName squadUuid now acc en).1.keys, x.email ≠ E := by
  have hnea : normEmail en.acct.email ≠ E := by
    rw [← mapEntryWF_norm hen]
    exact hne
  unfold relinkStep
  split
  · exact hcls
  · next uid _ =>
    by_cases h1 : (uid == 0) = true
    · rw [if_pos h1]
      exact hcls
    · rw [if_neg h1]
      by_cases h2 : (!(acc.1.users.contains uid)) = true
      · rw [if_pos h2]
        exact hcls
      · rw [if_neg h2]
        split
        · exact hcls
        · unfold record_key_from_payload
          exact record_key_class hcls hnea

theorem relinkFold_class {hostName squadUuid : String} {now : Int} {E : String} :
    ∀ (m : List RemoteEntry) (acc : Store × List SyncEv),
      (∀ en ∈ m, MapEntryWF en ∧ en.norm ≠ E) →
      (∀ x ∈ acc.1.keys, x.email ≠ E) →
      ∀ x ∈ (m.foldl (relinkStep hostName squadUuid now) acc).1.keys, x.email ≠ E
  | [], _, _, hcls => hcls
  | en :: rest, acc, hm, hcls => by
    rw [List.foldl_cons]
    exact relinkFold_class rest _ (fun x hx => hm x (List.mem_cons_of_mem _ hx))
      (relinkStep_class hcls (hm en (List.mem_cons_self _ _)).1
        (hm en (List.mem_cons_self _ _)).2)

/-! ### The tracked row's own step -/

/-- The invariant holds at the loop entry with `L` the tracked email's full
class and `R` any property of the built remote map. -/
theorem loopInv_init {st : Store} {rs : List RemoteAccount} {R : RemoteEntry → Prop}
    (hwf : StoreWF st) (E : String) (hR : ∀ en ∈ buildRemoteMap rs, R en) :
    LoopInv E (st.keys.filter (fun r => r.email == E)) st.users st.nextKeyId
      R ⟨st, buildRemoteMap rs, []⟩ :=
  ⟨⟨rfl, rfl, hwf.emailsNorm, hwf.emailsP, hwf.idsP, rfl⟩, hR⟩

/-- The grace branch for the tracked row itself: the best-effort remote
deletion and the local deletion are both recorded, the whole email class is
removed from the store, and every remote entry keyed by that email is
consumed. -/
theorem syncKeyStep_self_grace {E : String} {L : List DbKey} {users0 : List Nat}
    {next0 : Nat} {R : RemoteEntry → Prop} {now : Int} {rf : String → Bool}
    {s : SyncSt} {k : DbKey}
    (hinv : LoopInv E L users0 next0 R s) (hkE : k.email = E)
    (hnorm : normEmail k.email = k.email) (hke : k.email ≠ "")
    (h2 : graceOld now k.expiryMs = true) (hkL : k ∈ L) :
    LoopInv E [] users0 next0 (fun en => R en ∧ en.norm ≠ E) (syncKeyStep now rf s k) ∧
    (syncKeyStep now rf s k).evs = s.evs ++
      [SyncEv.remoteDelete (graceTarget s k) (!rf (graceTarget s k)),
       SyncEv.graceDelete k.email true] := by
  have hraw : rawOf k = k.email := rawOf_of_norm hnorm
  have h1f : (rawOf k == "") = false := by
    rw [hraw]
    exact beq_eq_false_iff_ne.mpr hke
  have hnraw : normEmail (rawOf k) = E := by rw [hraw, hnorm, hkE]
  have hkmem : k ∈ s.store.keys ∧ (k.email == E) = true := by
    have hmem : k ∈ s.store.keys.filter (fun r => r.email == E) := by
      rw [hinv.store.classEq]
      exact hkL
    exact List.mem_filter.mp hmem
  have hdel : (delete_key_by_email s.store (rawOf k)).2 = true := by
    show s.store.keys.any (fun x => x.email == normEmail (rawOf k)) = true
    rw [hnraw]
    exact List.any_eq_true.mpr ⟨k, hkmem.1, hkmem.2⟩
  have hlow : lowerStr (rawOf k) = E := by
    rw [hraw, lowerStr_of_norm hnorm, hkE]
  rw [syncKeyStep_eq_grace h1f h2]
  constructor
  · refine ⟨?_, ?_⟩
    · exact classInv_delete_self hinv.store hnraw
    · show ∀ en ∈ (popEntry s.rmap (lowerStr (rawOf k))).2, R en ∧ en.norm ≠ E
      rw [hlow]
      cases hp : (popEntry s.rmap E).1 with
      | some en0 =>
        rcases popEntry_found hp with ⟨_, _, h22⟩
        rw [h22]
        intro en hen
        rcases List.mem_filter.mp hen with ⟨hmem, hpred⟩
        exact ⟨hinv.rmapP en hmem, by simpa using hpred⟩
      | none =>
        rcases popEntry_none hp with ⟨h22, hall⟩
        rw [h22]
        intro en hen
        exact ⟨hinv.rmapP en hen, hall en hen⟩
  · rw [hdel, hraw]

/-- The missing-remote branch for the tracked row itself: the deletion via
`update_key_status_from_server(email, None)` is recorded with a hit, and the
whole email class is removed from the store. -/
theorem syncKeyStep_self_missing {E : String} {L : List DbKey} {users0 : List Nat}
    {next0 : Nat} {R : RemoteEntry → Prop} {now : Int} {rf : String → Bool}
    {s : SyncSt} {k : DbKey}
    (hinv : LoopInv E L users0 next0 (fun en => R en ∧ en.norm ≠ E) s) (hkE : k.email = E)
    (hnorm : normEmail k.email = k.email) (hke : k.email ≠ "")
    (h2 : graceOld now k.expiryMs = false) (hkL : k ∈ L) :
    LoopInv E [] users0 next0 (fun en => R en ∧ en.norm ≠ E) (syncKeyStep now rf s k) ∧
    (syncKeyStep now rf s k).evs = s.evs ++ [SyncEv.missingDelete k.email true] := by
  have hraw : rawOf k = k.email := rawOf_of_norm hnorm
  have h1f : (rawOf k == "") = false := by
    rw [hraw]
    exact beq_eq_false_iff_ne.mpr hke
  have hnraw : normEmail (rawOf k) = E := by rw [hraw, hnorm, hkE]
  have hlow : lowerStr (rawOf k) = E := by
    rw [hraw, lowerStr_of_norm hnorm, hkE]
  have hpop : popEntry s.rmap (lowerStr (rawOf k)) = (none, s.rmap) := by
    rw [hlow]
    exact popEntry_none_of (fun x hx => (hinv.rmapP x hx).2)
  have hp1 : (popEntry s.rmap (lowerStr (rawOf k))).1 = none := by rw [hpop]
  have hkmem : k ∈ s.store.keys ∧ (k.email == E) = true := by
    have hmem : k ∈ s.store.keys.filter (fun r => r.email == E) := by
      rw [hinv.store.classEq]
      exact hkL
    exact List.mem_filter.mp hmem
  have hsome : (get_key_by_email s.store (rawOf k)).isSome = true := by
    refine get_key_by_email_isSome hkmem.1 ?_
    rw [hnraw]
    exact hkmem.2
  rw [syncKeyStep_eq_missing h1f h2 hp1]
  constructor
  · refine ⟨?_, ?_⟩
    · cases hg : get_key_by_email s.store (normEmail (rawOf k)) with
      | none =>
        exfalso
        have hno := get_key_by_email_none hg k hkmem.1
        rw [normEmail_idem, hnraw, hkE] at hno
        exact hno rfl
      | some k2 =>
        rw [update_none_some hg]
        exact classInv_delete_self hinv.store (by rw [normEmail_idem, hnraw])
    · show ∀ en ∈ (popEntry s.rmap (lowerStr (rawOf k))).2, R en ∧ en.norm ≠ E
      rw [hpop]
      exact hinv.rmapP
  · rw [hsome, hraw]

/-! ### Squad-level composition -/

theorem syncSquad_eq (now : Int) (rf : String → Bool) (st : Store)
    (hostName squadUuid : String) (rs : List RemoteAccount) (pre : List DbKey)
    (k : DbKey) (post : List DbKey)
    (hks : get_keys_for_host st hostName = pre ++ k :: post) :
    syncSquad now rf st hostName squadUuid rs =
      syncRelinkPhase hostName squadUuid now
        (post.foldl (syncKeyStep now rf)
          (syncKeyStep now rf
            (pre.foldl (syncKeyStep now rf) ⟨st, buildRemoteMap rs, []⟩) k)) := by
  unfold syncSquad
  rw [hks, List.foldl_append, List.foldl_cons]

theorem syncRelinkPhase_evs (hostName squadUuid : String) (now : Int) (s1 : SyncSt) :
    ∃ t, (syncRelinkPhase hostName squadUuid now s1).2 = s1.evs ++ t ∧
      ∀ ev ∈ t, ∃ e u r2, ev = SyncEv.relink e u r2 := by
  unfold syncRelinkPhase
  exact relinkFold_evs hostName squadUuid now s1.rmap (s1.store, s1.evs)

theorem syncRelinkPhase_class {E : String} (hostName squadUuid : String) (now : Int)
    {s1 : SyncSt} (hm : ∀ en ∈ s1.rmap, MapEntryWF en ∧ en.norm ≠ E)
    (hcls : ∀ x ∈ s1.store.keys, x.email ≠ E) :
    ∀ x ∈ (syncRelinkPhase hostName squadUuid now s1).1.keys, x.email ≠ E := by
  unfold syncRelinkPhase
  exact relinkFold_class s1.rmap (s1.store, s1.evs) hm hcls

/-- After the tracked row's own step emptied its class and consumed its map
entries, the rest of the key loop and the whole relink phase only append
events and never reintroduce the email. -/
theorem squad_tail {E : String} {users0 : List Nat} {next0 : Nat} {now : Int}
    {rf : String → Bool} (post : List DbKey) (hostName squadUuid : String)
    {s2 : SyncSt}
    (inv2 : LoopInv E [] users0 next0 (fun en => MapEntryWF en ∧ en.norm ≠ E) s2)
    (hpostWF : ∀ x ∈ post, normEmail x.email = x.email ∧ x.email ≠ E) :
    (∃ t, (syncRelinkPhase hostName squadUuid now
        (post.foldl (syncKeyStep now rf) s2)).2 = s2.evs ++ t) ∧
    ∀ x ∈ (syncRelinkPhase hostName squadUuid now
        (post.foldl (syncKeyStep now rf) s2)).1.keys, x.email ≠ E := by
  have inv3 := @syncFold_inv E [] users0 next0 (fun en => MapEntryWF en ∧ en.norm ≠ E)
    now rf post s2 hpostWF inv2
  constructor
  · rcases syncFold_evs post s2 with ⟨t3, het3, _, _⟩
    rcases syncRelinkPhase_evs hostName squadUuid now (post.foldl (syncKeyStep now rf) s2)
      with ⟨t4, het4, _⟩
    refine ⟨t3 ++ t4, ?_⟩
    rw [het4, het3, List.append_assoc]
  · refine syncRelinkPhase_class hostName squadUuid now inv3.rmapP ?_
    exact class_empty_iff.mp inv3.store.classEq

/-- **C2** — grace-period deletion.  Part 1: on a squad's pass, a local key of
the squad's host with a nonempty email whose parsed expiry lies more than the
5-day grace period before `now` gets a best-effort remote deletion (an
injected remote failure only flips the attempt's flag, never the control
flow) immediately followed by the local deletion, which hits; this holds for
every remote listing, so regardless of whether a matching remote account
exists, and no row with that email survives the pass.  Part 2: a key whose
expiry is not past the grace period (for example only 4 days in the past) is
never grace-deleted by the pass. -/
theorem grace_period_deletion :
    (∀ (now : Int) (rf : String → Bool) (st : Store) (hostName squadUuid : String)
        (rs : List RemoteAccount) (k : DbKey) (e : Int),
      StoreWF st → k ∈ get_keys_for_host st hostName → k.email ≠ "" →
      k.expiryMs = some e → e < now - GRACE_MS →
      (∃ pre t post, (syncSquad now rf st hostName squadUuid rs).2 =
          pre ++ SyncEv.remoteDelete t (!rf t) ::
            SyncEv.graceDelete k.email true :: post) ∧
      ∀ x ∈ (syncSquad now rf st hostName squadUuid rs).1.keys, x.email ≠ k.email) ∧
    (∀ (now : Int) (rf : String → Bool) (st : Store) (hostName squadUuid : String)
        (rs : List RemoteAccount) (k : DbKey) (e : Int),
      StoreWF st → k ∈ get_keys_for_host st hostName →
      k.expiryMs = some e → now - GRACE_MS ≤ e →
      ∀ b, SyncEv.graceDelete k.email b ∉ (syncSquad now rf st hostName squadUuid rs).2) := by
  constructor
  · intro now rf st hostName squadUuid rs k e hwf hk hke hexp he
    have hkst : k ∈ st.keys := List.mem_of_mem_filter hk
    have hknorm : normEmail k.email = k.email := hwf.emailsNorm k hkst
    have h2 : graceOld now k.expiryMs = true := by
      unfold graceOld
      rw [hexp]
      exact decide_eq_true he
    rcases List.append_of_mem hk with ⟨pre, post, hks⟩
    have hsubl : List.Sublist (get_keys_for_host st hostName) st.keys :=
      List.filter_sublist _
    have hksP : (get_keys_for_host st hostName).Pairwise (fun a b => a.email ≠ b.email) :=
      List.Pairwise.sublist hsubl hwf.emailsP
    rw [hks] at hksP
    rcases List.pairwise_append.mp hksP with ⟨hP1, hP2, hP12⟩
    have hpreWF : ∀ x ∈ pre, normEmail x.email = x.email ∧ x.email ≠ k.email := by
      intro x hx
      have hxks : x ∈ get_keys_for_host st hostName := by
        rw [hks]
        exact List.mem_append.mpr (Or.inl hx)
      exact ⟨hwf.emailsNorm x (hsubl.subset hxks), hP12 x hx k (List.mem_cons_self _ _)⟩
    have hpostWF : ∀ x ∈ post, normEmail x.email = x.email ∧ x.email ≠ k.email := by
      intro x hx
      have hxks : x ∈ get_keys_for_host st hostName := by
        rw [hks]
        exact List.mem_append.mpr (Or.inr (List.mem_cons_of_mem _ hx))
      exact ⟨hwf.emailsNorm x (hsubl.subset hxks),
        fun hc => (List.pairwise_cons.mp hP2).1 x hx hc.symm⟩
    have hkL : k ∈ st.keys.filter (fun r => r.email == k.email) :=
      List.mem_filter.mpr ⟨hkst, by simp⟩
    have hsq := syncSquad_eq now rf st hostName squadUuid rs pre k post hks
    have inv0 := @loopInv_init st rs MapEntryWF hwf k.email
      (fun en hen => buildRemoteMap_wf en hen)
    have inv1 := @syncFold_inv k.email (st.keys.filter (fun r => r.email == k.email))
      st.users st.nextKeyId MapEntryWF now rf pre ⟨st, buildRemoteMap rs, []⟩ hpreWF inv0
    rcases syncKeyStep_self_grace inv1 rfl hknorm hke h2 hkL with ⟨inv2, hev2⟩
    rcases squad_tail post hostName squadUuid inv2 hpostWF with ⟨⟨t4, het4⟩, hcls⟩
    rcases syncFold_evs pre (⟨st, buildRemoteMap rs, []⟩ : SyncSt) with ⟨t1, het1, _, _⟩
    have het1p : (pre.foldl (syncKeyStep now rf)
        (⟨st, buildRemoteMap rs, []⟩ : SyncSt)).evs = t1 := het1
    constructor
    · refine ⟨t1,
        graceTarget (pre.foldl (syncKeyStep now rf) ⟨st, buildRemoteMap rs, []⟩) k,
        t4, ?_⟩
      rw [hsq, het4, hev2, het1p, List.append_assoc]
      simp
    · rw [hsq]
      exact hcls
  · intro now rf st hostName squadUuid rs k e hwf hk hexp he b hmem
    have hkst : k ∈ st.keys := List.mem_of_mem_filter hk
    unfold syncSquad at hmem
    rcases syncRelinkPhase_evs hostName squadUuid now
      ((get_keys_for_host st hostName).foldl (syncKeyStep now rf)
        ⟨st, buildRemoteMap rs, []⟩) with ⟨t4, het4, hrel⟩
    rw [het4] at hmem
    rcases syncFold_evs (get_keys_for_host st hostName)
      (⟨st, buildRemoteMap rs, []⟩ : SyncSt) with ⟨t1, het1, hg, _⟩
    have het1p : ((get_keys_for_host st hostName).foldl (syncKeyStep now rf)
        (⟨st, buildRemoteMap rs, []⟩ : SyncSt)).evs = t1 := het1
    rw [het1p] at hmem
    rcases List.mem_append.mp hmem with h | h
    · rcases hg _ _ h with ⟨x, hxks, hxe, hxg⟩
      have hxst : x ∈ st.keys := (List.filter_sublist _).subset hxks
      have hxnorm : normEmail x.email = x.email := hwf.emailsNorm x hxst
      have hxe2 : k.email = x.email := by rw [hxe, rawOf_of_norm hxnorm]
      have hxk : x = k := eq_of_mem_emailsP hwf.emailsP hxst hkst hxe2.symm
      rw [hxk, hexp] at hxg
      have hlt : e < now - GRACE_MS := of_decide_eq_true hxg
      omega
    · rcases hrel _ h with ⟨e2, u2, r2, heq⟩
      simp at heq

/-- Witness for `grace_period_deletion`: a one-key store whose key expired
more than 5 days ago is remote- and locally deleted even though the remote
listing is empty. -/
theorem grace_period_deletion_witness :
    (∃ pre t post,
      (syncSquad (GRACE_MS + 1000) (fun _ => false)
          ⟨[⟨1, 7, "h", "user7@h", some 0, none, none⟩], [7], 2⟩ "h" "sq" []).2 =
        pre ++ SyncEv.remoteDelete t (!(fun _ => false) t) ::
          SyncEv.graceDelete "user7@h" true :: post) ∧
    ∀ x ∈ (syncSquad (GRACE_MS + 1000) (fun _ => false)
        ⟨[⟨1, 7, "h", "user7@h", some 0, none, none⟩], [7], 2⟩ "h" "sq" []).1.keys,
      x.email ≠ "user7@h" :=
  grace_period_deletion.1 (GRACE_MS + 1000) (fun _ => false)
    ⟨[⟨1, 7, "h", "user7@h", some 0, none, none⟩], [7], 2⟩ "h" "sq" []
    ⟨1, 7, "h", "user7@h", some 0, none, none⟩ 0
    ⟨by decide, by simp, by simp, by decide⟩ (by decide) (by decide) rfl (by decide)

/-- **C10** — the implicit policy for a local key with no remote match is
deletion.  Part 1 (call site): on a squad's pass, a local key of the squad's
host with a nonempty email, not past the grace period, whose normalized email
keys no entry of the remote map, is deleted through
`update_key_status_from_server(email, None)` with a hit recorded, and no row
with that email survives the pass.  Parts 2 and 3 (the function itself): with
`None` client data it deletes the row matching the normalized email and
returns `True` when one exists, and returns `True` leaving the store
untouched when none does. -/
theorem missing_remote_deletion_policy :
    (∀ (now : Int) (rf : String → Bool) (st : Store) (hostName squadUuid : String)
        (rs : List RemoteAccount) (k : DbKey),
      StoreWF st → k ∈ get_keys_for_host st hostName → k.email ≠ "" →
      graceOld now k.expiryMs = false →
      (∀ en ∈ buildRemoteMap rs, en.norm ≠ k.email) →
      (∃ pre post, (syncSquad now rf st hostName squadUuid rs).2 =
          pre ++ SyncEv.missingDelete k.email true :: post) ∧
      ∀ x ∈ (syncSquad now rf st hostName squadUuid rs).1.keys, x.email ≠ k.email) ∧
    (∀ (st : Store) (e : String) (k : DbKey),
      get_key_by_email st (normEmail e) = some k →
      update_key_status_from_server st e none =
        ({ st with keys := st.keys.filter (fun x => !(x.email == normEmail e)) }, true)) ∧
    (∀ (st : Store) (e : String),
      get_key_by_email st (normEmail e) = none →
      update_key_status_from_server st e none = (st, true)) := by
  refine ⟨?_, ?_, ?_⟩
  · intro now rf st hostName squadUuid rs k hwf hk hke hgr hno
    have hkst : k ∈ st.keys := List.mem_of_mem_filter hk
    have hknorm : normEmail k.email = k.email := hwf.emailsNorm k hkst
    rcases List.append_of_mem hk with ⟨pre, post, hks⟩
    have hsubl : List.Sublist (get_keys_for_host st hostName) st.keys :=
      List.filter_sublist _
    have hksP : (get_keys_for_host st hostName).Pairwise (fun a b => a.email ≠ b.email) :=
      List.Pairwise.sublist hsubl hwf.emailsP
    rw [hks] at hksP
    rcases List.pairwise_append.mp hksP with ⟨hP1, hP2, hP12⟩
    have hpreWF : ∀ x ∈ pre, normEmail x.email = x.email ∧ x.email ≠ k.email := by
      intro x hx
      have hxks : x ∈ get_keys_for_host st hostName := by
        rw [hks]
        exact List.mem_append.mpr (Or.inl hx)
      exact ⟨hwf.emailsNorm x (hsubl.subset hxks), hP12 x hx k (List.mem_cons_self _ _)⟩
    have hpostWF : ∀ x ∈ post, normEmail x.email = x.email ∧ x.email ≠ k.email := by
      intro x hx
      have hxks : x ∈ get_keys_for_host st hostName := by
        rw [hks]
        exact List.mem_append.mpr (Or.inr (List.mem_cons_of_mem _ hx))
      exact ⟨hwf.emailsNorm x (hsubl.subset hxks),
        fun hc => (List.pairwise_cons.mp hP2).1 x hx hc.symm⟩
    have hkL : k ∈ st.keys.filter (fun r => r.email == k.email) :=
      List.mem_filter.mpr ⟨hkst, by simp⟩
    have hsq := syncSquad_eq now rf st hostName squadUuid rs pre k post hks
    have inv0 := @loopInv_init st rs (fun en => MapEntryWF en ∧ en.norm ≠ k.email)
      hwf k.email (fun en hen => ⟨buildRemoteMap_wf en hen, hno en hen⟩)
    have inv1 := @syncFold_inv k.email (st.keys.filter (fun r => r.email == k.email))
      st.users st.nextKeyId (fun en => MapEntryWF en ∧ en.norm ≠ k.email)
      now rf pre ⟨st, buildRemoteMap rs, []⟩ hpreWF inv0
    rcases @syncKeyStep_self_missing k.email
      (st.keys.filter (fun r => r.email == k.email)) st.users st.nextKeyId
      MapEntryWF now rf _ k inv1 rfl hknorm hke hgr hkL with ⟨inv2, hev2⟩
    rcases squad_tail post hostName squadUuid inv2 hpostWF with ⟨⟨t4, het4⟩, hcls⟩
    rcases syncFold_evs pre (⟨st, buildRemoteMap rs, []⟩ : SyncSt) with ⟨t1, het1, _, _⟩
    have het1p : (pre.foldl (syncKeyStep now rf)
        (⟨st, buildRemoteMap rs, []⟩ : SyncSt)).evs = t1 := het1
    constructor
    · refine ⟨t1, t4, ?_⟩
      rw [hsq, het4, hev2, het1p, List.append_assoc]
      simp
    · rw [hsq]
      exact hcls
  · intro st e k hg
    rw [update_none_some hg]
    unfold delete_key_by_email
    rw [normEmail_idem]
    rcases get_key_by_email_found hg with ⟨hk, hke⟩
    rw [normEmail_idem] at hke
    have hany : st.keys.any (fun x => x.email == normEmail e) = true :=
      List.any_eq_true.mpr ⟨k, hk, by rw [hke]; simp⟩
    rw [hany]
  · intro st e hg
    rw [update_none_none hg]

/-- Witness for `missing_remote_deletion_policy`: an unexpired one-key store
reconciled against an empty remote listing logs a hit for the
missing-remote deletion and ends with no row for that email. -/
theorem missing_remote_deletion_policy_witness :
    (∃ pre post,
      (syncSquad 0 (fun _ => false)
          ⟨[⟨1, 7, "h", "user7@h", some 0, none, none⟩], [7], 2⟩ "h" "sq" []).2 =
        pre ++ SyncEv.missingDelete "user7@h" true :: post) ∧
    ∀ x ∈ (syncSquad 0 (fun _ => false)
        ⟨[⟨1, 7, "h", "user7@h", some 0, none, none⟩], [7], 2⟩ "h" "sq" []).1.keys,
      x.email ≠ "user7@h" :=
  missing_remote_deletion_policy.1 0 (fun _ => false)
    ⟨[⟨1, 7, "h", "user7@h", some 0, none, none⟩], [7], 2⟩ "h" "sq" []
    ⟨1, 7, "h", "user7@h", some 0, none, none⟩
    ⟨by decide, by simp, by simp, by decide⟩ (by decide) (by decide) (by decide)
    (by simp [buildRemoteMap])

/-! ### Relink-path branch equations (C6) -/

theorem lowerStr_ne_empty {s : String} (h : s ≠ "") : lowerStr s ≠ "" := by
  intro hc
  apply h
  unfold lowerStr at hc
  cases s with
  | mk data =>
    cases data with
    | nil => rfl
    | cons c cs =>
      exact absurd (congrArg String.data hc) (by simp)

/-- For a well-formed map entry, normalizing the raw email gives the map key
again (the raw email is already stripped). -/
theorem mapEntryWF_normEmail_raw {en : RemoteEntry} (h : MapEntryWF en) :
    normEmail en.raw = en.norm := by
  rw [h.normEq, h.rawEq]
  unfold normEmail
  rw [stripStr_idem]

theorem mapEntryWF_norm_ne {en : RemoteEntry} (h : MapEntryWF en) : en.norm ≠ "" := by
  rw [h.normEq]
  exact lowerStr_ne_empty h.rawNe

theorem rebindFn_keyId (kid : Nat) (hostNorm remUuid emailNorm : String)
    (subUrl : Option String) (expStored : Int) (k2 : DbKey) :
    (rebindFn kid hostNorm remUuid emailNorm subUrl expStored k2).keyId = k2.keyId := by
  unfold rebindFn
  split <;> rfl

theorem rebindFn_userId (kid : Nat) (hostNorm remUuid emailNorm : String)
    (subUrl : Option String) (expStored : Int) (k2 : DbKey) :
    (rebindFn kid hostNorm remUuid emailNorm subUrl expStored k2).userId = k2.userId := by
  unfold rebindFn
  split <;> rfl

theorem record_key_existing_eq_none {st : Store} {eNorm remUuid : String}
    (hg : get_key_by_email st eNorm = none)
    (hu : remUuid = "" ∨ ∀ x ∈ st.keys, x.uuid ≠ some (stripStr remUuid)) :
    record_key_existing st eNorm remUuid = none := by
  unfold record_key_existing
  have hfirst : (if eNorm == "" then none else get_key_by_email st eNorm) =
      (none : Option DbKey) := by
    by_cases hb : (eNorm == "") = true
    · rw [if_pos hb]
    · rw [if_neg hb]
      exact hg
  rw [hfirst]
  show (if remUuid == "" then none
    else st.keys.find? (fun k => k.uuid == some (stripStr remUuid))) = none
  rcases hu with hu | hu
  · rw [hu]
    simp
  · by_cases hb : (remUuid == "") = true
    · rw [if_pos hb]
    · rw [if_neg hb]
      exact List.find?_eq_none.mpr (fun x hx => by simpa using hu x hx)

theorem record_key_add {st : Store} {uid : Nat}
    {squadUuid remUuid email hostName : String} {expireAtMs : Option Int}
    {sub : Option String} {now : Int}
    (hex : record_key_existing st (normEmail email) remUuid = none)
    (hdup : st.keys.any (fun k => k.email == normEmail email) = false) :
    record_key st uid squadUuid remUuid email hostName expireAtMs sub now =
      ({ st with
          keys := st.keys ++ [⟨st.nextKeyId, uid,
            normalizeHostName (if hostName == "" then "" else normalizeHostName hostName),
            normEmail email, some (truncMs (expireAtMs.getD now)), sub,
            if remUuid == "" then none else some remUuid⟩],
          nextKeyId := st.nextKeyId + 1 }, some st.nextKeyId) := by
  unfold record_key
  rw [hex]
  show add_new_key st uid (if hostName == "" then "" else normalizeHostName hostName)
    remUuid email (expireAtMs.getD now) sub = _
  unfold add_new_key
  rw [hdup]
  rfl

theorem record_key_update {st : Store} {uid : Nat}
    {squadUuid remUuid email hostName : String} {expireAtMs : Option Int}
    {sub : Option String} {now : Int} {k0 : DbKey}
    (hex : record_key_existing st (normEmail email) remUuid = some k0) :
    record_key st uid squadUuid remUuid email hostName expireAtMs sub now =
      ({ st with keys := st.keys.map (rebindFn k0.keyId
          (if hostName == "" then "" else normalizeHostName hostName) remUuid
          (normEmail email) sub (truncMs (expireAtMs.getD now))) }, some k0.keyId) := by
  unfold record_key
  rw [hex]

theorem record_key_users (st : Store) (uid : Nat)
    (squadUuid remUuid email hostName : String) (expireAtMs : Option Int)
    (sub : Option String) (now : Int) :
    (record_key st uid squadUuid remUuid email hostName expireAtMs sub now).1.users =
      st.users := by
  unfold record_key
  cases hr : record_key_existing st (normEmail email) remUuid with
  | some k => rfl
  | none =>
    show (add_new_key st uid (if hostName == "" then "" else normalizeHostName hostName)
      remUuid email (expireAtMs.getD now) sub).1.users = st.users
    unfold add_new_key
    split <;> rfl

theorem relinkStep_eq_record {hostName squadUuid : String} {now : Int}
    {acc : Store × List SyncEv} {en : RemoteEntry} {uid : Nat}
    (hfind : findUserToken en.raw.toList = some uid)
    (h0 : (uid == 0) = false)
    (hmem : acc.1.users.contains uid = true)
    (hget : get_key_by_email acc.1 en.raw = none) :
    relinkStep hostName squadUuid now acc en =
      ((record_key_from_payload acc.1 uid en.acct hostName squadUuid now).1,
       acc.2 ++ [SyncEv.relink en.raw uid
         (record_key_from_payload acc.1 uid en.acct hostName squadUuid now).2]) := by
  unfold relinkStep
  rw [hfind]
  show (if uid == 0 then acc
    else if !(acc.1.users.contains uid) then acc
    else match get_key_by_email acc.1 en.raw with
      | some _ => acc
      | none =>
        ((record_key_from_payload acc.1 uid en.acct hostName squadUuid now).1,
         acc.2 ++ [SyncEv.relink en.raw uid
           (record_key_from_payload acc.1 uid en.acct hostName squadUuid now).2])) = _
  rw [if_neg (by rw [h0]; simp), if_neg (by rw [hmem]; simp), hget]

theorem relinkStep_skip_of_found {hostName squadUuid : String} {now : Int}
    {acc : Store × List SyncEv} {en : RemoteEntry} {r : DbKey}
    (hget : get_key_by_email acc.1 en.raw = some r) :
    relinkStep hostName squadUuid now acc en = acc := by
  unfold relinkStep
  split
  · rfl
  · next uid2 _ =>
    by_cases h1 : (uid2 == 0) = true
    · rw [if_pos h1]
    · rw [if_neg h1]
      by_cases h2 : (!(acc.1.users.contains uid2)) = true
      · rw [if_pos h2]
      · rw [if_neg h2]
        rw [hget]

theorem find?_append_none {l1 l2 : List DbKey} {p : DbKey → Bool}
    (h : l1.find? p = none) : (l1 ++ l2).find? p = l2.find? p := by
  induction l1 with
  | nil => rfl
  | cons x xs ih =>
    rw [List.cons_append]
    cases hx : p x with
    | true =>
      rw [List.find?_cons_of_pos _ hx] at h
      cases h
    | false =>
      rw [List.find?_cons_of_neg _ (by rw [hx]; simp)] at h
      rw [List.find?_cons_of_neg _ (by rw [hx]; simp)]
      exact ih h

/-- **C6 counterexample** — a remote account whose email recovers user id 5,
with user 5 present and no local key with that email, does NOT get a new
record: the stored key with id 1 carries the same remnawave uuid `"uu"`, so
`record_key`'s uuid fallback rebinds that row in place — it keeps its old
owner (user 9) and no record bound to user 5 is created; the relink event
even reports the old row id 1. -/
theorem orphan_relink_counterexample :
    findUserToken ("user5@h".toList) = some 5 ∧
    get_key_by_email ⟨[⟨1, 9, "h", "old@h", some 0, none, some "uu"⟩], [9, 5], 2⟩
      "user5@h" = none ∧
    relinkStep "h" "sq" 0
        (⟨[⟨1, 9, "h", "old@h", some 0, none, some "uu"⟩], [9, 5], 2⟩, [])
        ⟨"user5@h", "user5@h", ⟨"user5@h", some 1000, none, some "uu"⟩⟩ =
      (⟨[⟨1, 9, "h", "user5@h", some 1000, none, some "uu"⟩], [9, 5], 2⟩,
       [SyncEv.relink "user5@h" 5 (some 1)]) :=
  ⟨by decide, by decide, by decide⟩

/-- **C6** as amended.  Part 1: when additionally no stored key carries the
account's stripped remnawave uuid (or that uuid is empty), the relink of a
well-formed unmatched entry whose raw email recovers a nonzero user id, with
that user present locally and no key under that email, appends exactly one
new record bound to that user, leaves the user table unchanged, logs the
relink with the fresh row id, and a second application with the same entry is
a no-op (the email lookup now hits).  Part 2: when a stored row matches the
account's uuid instead, no record is created — every row keeps its id and its
owner — and the logged row id is the matched row's.  Part 3: an
unrecoverable or zero user id, or a missing local user, leaves the
accumulator untouched.  Part 4: no branch of the relink loop ever writes the
user table. -/
theorem orphan_relink_amended :
    (∀ (hostName squadUuid : String) (now : Int) (st : Store) (evs : List SyncEv)
        (en : RemoteEntry) (uid : Nat),
      MapEntryWF en →
      findUserToken en.raw.toList = some uid → uid ≠ 0 →
      st.users.contains uid = true →
      get_key_by_email st en.raw = none →
      (stripStr (en.acct.uuid.getD "") = "" ∨
        ∀ x ∈ st.keys, x.uuid ≠ some (stripStr (en.acct.uuid.getD ""))) →
      (relinkStep hostName squadUuid now (st, evs) en).1.keys =
        st.keys ++ [⟨st.nextKeyId, uid,
          normalizeHostName (if hostName == "" then "" else normalizeHostName hostName),
          normEmail en.acct.email, some (truncMs (en.acct.expireAtMs.getD now)),
          en.acct.subscriptionUrl,
          if stripStr (en.acct.uuid.getD "") == "" then none
          else some (stripStr (en.acct.uuid.getD ""))⟩] ∧
      (relinkStep hostName squadUuid now (st, evs) en).1.users = st.users ∧
      (relinkStep hostName squadUuid now (st, evs) en).2 =
        evs ++ [SyncEv.relink en.raw uid (some st.nextKeyId)] ∧
      ∀ evs2, relinkStep hostName squadUuid now
          ((relinkStep hostName squadUuid now (st, evs) en).1, evs2) en =
        ((relinkStep hostName squadUuid now (st, evs) en).1, evs2)) ∧
    (∀ (hostName squadUuid : String) (now : Int) (st : Store) (evs : List SyncEv)
        (en : RemoteEntry) (uid : Nat) (k0 : DbKey),
      findUserToken en.raw.toList = some uid → uid ≠ 0 →
      st.users.contains uid = true →
      get_key_by_email st en.raw = none →
      record_key_existing st (normEmail en.acct.email)
        (stripStr (en.acct.uuid.getD "")) = some k0 →
      (relinkStep hostName squadUuid now (st, evs) en).1.keys.length =
        st.keys.length ∧
      (∀ x ∈ (relinkStep hostName squadUuid now (st, evs) en).1.keys,
        ∃ y ∈ st.keys, x.keyId = y.keyId ∧ x.userId = y.userId) ∧
      (relinkStep hostName squadUuid now (st, evs) en).2 =
        evs ++ [SyncEv.relink en.raw uid (some k0.keyId)]) ∧
    (∀ (hostName squadUuid : String) (now : Int) (st : Store) (evs : List SyncEv)
        (en : RemoteEntry),
      (findUserToken en.raw.toList = none ∨ findUserToken en.raw.toList = some 0 ∨
        (∃ uid, findUserToken en.raw.toList = some uid ∧
          st.users.contains uid = false)) →
      relinkStep hostName squadUuid now (st, evs) en = (st, evs)) ∧
    (∀ (hostName squadUuid : String) (now : Int) (acc : Store × List SyncEv)
        (en : RemoteEntry),
      (relinkStep hostName squadUuid now acc en).1.users = acc.1.users) := by
  refine ⟨?_, ?_, ?_, ?_⟩
  · intro hostName squadUuid now st evs en uid hwfe hfind h0 hmem hget hfresh
    have h0b : (uid == 0) = false := by simpa using h0
    have hun : normEmail en.acct.email = en.norm := (mapEntryWF_norm hwfe).symm
    have hur : normEmail en.raw = en.norm := mapEntryWF_normEmail_raw hwfe
    have hgetp : st.keys.find? (fun k => k.email == normEmail en.raw) = none := hget
    have hget2 : get_key_by_email st (normEmail en.acct.email) = none := by
      show st.keys.find? (fun k => k.email == normEmail (normEmail en.acct.email)) = none
      rw [normEmail_idem, hun, ← hur]
      exact hgetp
    have hdup : st.keys.any (fun k => k.email == normEmail en.acct.email) = false := by
      rw [List.any_eq_false]
      intro x hx
      have hxe := get_key_by_email_none hget2 x hx
      rw [normEmail_idem] at hxe
      simpa using hxe
    have hfresh2 : stripStr (en.acct.uuid.getD "") = "" ∨
        ∀ x ∈ st.keys, x.uuid ≠ some (stripStr (stripStr (en.acct.uuid.getD ""))) := by
      rcases hfresh with h | h
      · exact Or.inl h
      · refine Or.inr ?_
        intro x hx
        rw [stripStr_idem]
        exact h x hx
    have hex := record_key_existing_eq_none hget2 hfresh2
    have hrk := @record_key_add st uid squadUuid (stripStr (en.acct.uuid.getD ""))
      en.acct.email hostName en.acct.expireAtMs en.acct.subscriptionUrl now hex hdup
    have hpay : record_key_from_payload st uid en.acct hostName squadUuid now =
        ({ st with
            keys := st.keys ++ [⟨st.nextKeyId, uid,
              normalizeHostName (if hostName == "" then "" else normalizeHostName hostName),
              normEmail en.acct.email, some (truncMs (en.acct.expireAtMs.getD now)),
              en.acct.subscriptionUrl,
              if stripStr (en.acct.uuid.getD "") == "" then none
              else some (stripStr (en.acct.uuid.getD ""))⟩],
            nextKeyId := st.nextKeyId + 1 }, some st.nextKeyId) := by
      unfold record_key_from_payload
      exact hrk
    have hstep := @relinkStep_eq_record hostName squadUuid now (st, evs) en uid
      hfind h0b hmem hget
    refine ⟨?_, ?_, ?_, ?_⟩
    · rw [hstep, hpay]
    · rw [hstep, hpay]
    · rw [hstep, hpay]
    · intro evs2
      have hfound : get_key_by_email (relinkStep hostName squadUuid now (st, evs) en).1
          en.raw = some ⟨st.nextKeyId, uid,
            normalizeHostName (if hostName == "" then "" else normalizeHostName hostName),
            normEmail en.acct.email, some (truncMs (en.acct.expireAtMs.getD now)),
            en.acct.subscriptionUrl,
            if stripStr (en.acct.uuid.getD "") == "" then none
            else some (stripStr (en.acct.uuid.getD ""))⟩ := by
        rw [hstep, hpay]
        show (st.keys ++ [_]).find? (fun (k : DbKey) => k.email == normEmail en.raw) = _
        rw [find?_append_none hgetp]
        refine List.find?_cons_of_pos _ ?_
        show (normEmail en.acct.email == normEmail en.raw) = true
        rw [hun, hur]
        simp
      exact relinkStep_skip_of_found hfound
  · intro hostName squadUuid now st evs en uid k0 hfind h0 hmem hget hex
    have h0b : (uid == 0) = false := by simpa using h0
    have hstep := @relinkStep_eq_record hostName squadUuid now (st, evs) en uid
      hfind h0b hmem hget
    have hrk := @record_key_update st uid squadUuid (stripStr (en.acct.uuid.getD ""))
      en.acct.email hostName en.acct.expireAtMs en.acct.subscriptionUrl now k0 hex
    have hpay : record_key_from_payload st uid en.acct hostName squadUuid now =
        ({ st with keys := st.keys.map (rebindFn k0.keyId
            (if hostName == "" then "" else normalizeHostName hostName)
            (stripStr (en.acct.uuid.getD "")) (normEmail en.acct.email)
            en.acct.subscriptionUrl (truncMs (en.acct.expireAtMs.getD now))) },
         some k0.keyId) := by
      unfold record_key_from_payload
      exact hrk
    refine ⟨?_, ?_, ?_⟩
    · rw [hstep, hpay]
      exact List.length_map _ _
    · rw [hstep, hpay]
      intro x hx
      rcases List.mem_map.mp hx with ⟨y, hy, rfl⟩
      exact ⟨y, hy, rebindFn_keyId _ _ _ _ _ _ _, rebindFn_userId _ _ _ _ _ _ _⟩
    · rw [hstep, hpay]
  · intro hostName squadUuid now st evs en hcase
    unfold relinkStep
    rcases hcase with hn | h0 | ⟨uid, hfind, hcon⟩
    · rw [hn]
    · rw [h0]
      rfl
    · rw [hfind]
      show (if uid == 0 then (st, evs)
        else if !((st, evs).1.users.contains uid) then (st, evs)
        else match get_key_by_email (st, evs).1 en.raw with
          | some _ => (st, evs)
          | none =>
            ((record_key_from_payload (st, evs).1 uid en.acct hostName squadUuid now).1,
             (st, evs).2 ++ [SyncEv.relink en.raw uid
               (record_key_from_payload (st, evs).1 uid en.acct hostName squadUuid
                 now).2])) = (st, evs)
      by_cases h1 : (uid == 0) = true
      · rw [if_pos h1]
      · rw [if_neg h1, if_pos (by show (!(st.users.contains uid)) = true; rw [hcon]; rfl)]
  · intro hostName squadUuid now acc en
    unfold relinkStep
    split
    · rfl
    · next uid2 _ =>
      by_cases h1 : (uid2 == 0) = true
      · rw [if_pos h1]
      · rw [if_neg h1]
        by_cases h2 : (!(acc.1.users.contains uid2)) = true
        · rw [if_pos h2]
        · rw [if_neg h2]
          split
          · rfl
          · show (record_key_from_payload acc.1 uid2 en.acct hostName squadUuid
              now).1.users = acc.1.users
            unfold record_key_from_payload
            exact record_key_users _ _ _ _ _ _ _ _ _

/-- Witness for `orphan_relink_amended`: relinking `user5@h` into an empty
store with user 5 present creates exactly the one expected record and is a
no-op the second time. -/
theorem orphan_relink_amended_witness :
    (relinkStep "h" "sq" 0 (⟨[], [5], 1⟩, [])
        ⟨"user5@h", "user5@h", ⟨"user5@h", some 1500, none, some "uu"⟩⟩).1.keys =
      [⟨1, 5, "h", "user5@h", some 1000, none, some "uu"⟩] ∧
    (relinkStep "h" "sq" 0 (⟨[], [5], 1⟩, [])
        ⟨"user5@h", "user5@h", ⟨"user5@h", some 1500, none, some "uu"⟩⟩).1.users =
      [5] ∧
    (relinkStep "h" "sq" 0 (⟨[], [5], 1⟩, [])
        ⟨"user5@h", "user5@h", ⟨"user5@h", some 1500, none, some "uu"⟩⟩).2 =
      [SyncEv.relink "user5@h" 5 (some 1)] ∧
    ∀ evs2, relinkStep "h" "sq" 0
        ((relinkStep "h" "sq" 0 (⟨[], [5], 1⟩, [])
          ⟨"user5@h", "user5@h", ⟨"user5@h", some 1500, none, some "uu"⟩⟩).1, evs2)
        ⟨"user5@h", "user5@h", ⟨"user5@h", some 1500, none, some "uu"⟩⟩ =
      ((relinkStep "h" "sq" 0 (⟨[], [5], 1⟩, [])
          ⟨"user5@h", "user5@h", ⟨"user5@h", some 1500, none, some "uu"⟩⟩).1, evs2) :=
  orphan_relink_amended.1 "h" "sq" 0 ⟨[], [5], 1⟩ []
    ⟨"user5@h", "user5@h", ⟨"user5@h", some 1500, none, some "uu"⟩⟩ 5
    ⟨by decide, by decide, by decide⟩ (by decide) (by decide) (by decide) (by decide)
    (Or.inr (by decide))

/-! ### A no-op reconciliation pass (C3) -/

/-- `remote_by_email` assignment keeps its keys distinct. -/
theorem insertOv_normsP {m : List RemoteEntry} {e : RemoteEntry}
    (hm : m.Pairwise (fun a b => a.norm ≠ b.norm)) :
    (insertOv m e).Pairwise (fun a b => a.norm ≠ b.norm) := by
  unfold insertOv
  by_cases hany : (m.any (fun x => x.norm == e.norm)) = true
  · rw [if_pos hany]
    refine List.pairwise_map.mpr (hm.imp ?_)
    intro a b hab
    by_cases ha : (a.norm == e.norm) = true
    · rw [if_pos ha]
      by_cases hb : (b.norm == e.norm) = true
      · exact absurd ((eq_of_beq ha).trans (eq_of_beq hb).symm) hab
      · rw [if_neg hb]
        exact fun hc => (by simpa using hb : b.norm ≠ e.norm) hc.symm
    · rw [if_neg ha]
      by_cases hb : (b.norm == e.norm) = true
      · rw [if_pos hb]
        exact (eq_of_beq hb) ▸ (by simpa using ha : a.norm ≠ e.norm)
      · rw [if_neg hb]
        exact hab
  · rw [if_neg hany]
    rw [List.pairwise_append]
    refine ⟨hm, by simp, ?_⟩
    intro a ha b hb
    rw [List.mem_singleton.mp hb]
    intro hc
    exact hany (List.any_eq_true.mpr ⟨a, ha, by rw [hc]; simp⟩)

/-- The built remote map has pairwise distinct keys. -/
theorem buildRemoteMap_nodup {rs : List RemoteAccount} :
    (buildRemoteMap rs).Pairwise (fun a b => a.norm ≠ b.norm) := by
  suffices h : ∀ (l : List RemoteAccount) (m0 : List RemoteEntry),
      m0.Pairwise (fun a b => a.norm ≠ b.norm) →
      (l.foldl (fun m r =>
        if stripStr r.email == "" then m
        else insertOv m ⟨lowerStr (stripStr r.email), stripStr r.email, r⟩)
        m0).Pairwise (fun a b => a.norm ≠ b.norm) by
    exact h rs [] (by simp)
  intro l
  induction l with
  | nil =>
    intro m0 h0
    exact h0
  | cons r rest ih =>
    intro m0 h0
    simp only [List.foldl_cons]
    by_cases hr : (stripStr r.email == "") = true
    · rw [if_pos hr]
      exact ih m0 h0
    · rw [if_neg hr]
      exact ih _ (insertOv_normsP h0)

theorem eq_of_mem_normsP {l : List RemoteEntry}
    (hp : l.Pairwise (fun a b => a.norm ≠ b.norm)) {a b : RemoteEntry}
    (ha : a ∈ l) (hb : b ∈ l) (h : a.norm = b.norm) : a = b := by
  by_contra hne
  exact hp.forall (fun x y h2 => fun e => h2 e.symm) ha hb hne h

/-- A stretch of the key loop in which every row with a nonempty email is
within tolerance of a matching remote entry, and every remaining entry is
matched by some unprocessed row, leaves the store untouched, logs nothing,
and consumes the map completely. -/
theorem noopFold {now : Int} {rf : String → Bool} {st : Store} {m0 : List RemoteEntry}
    (hwf : StoreWF st) (hm0P : m0.Pairwise (fun a b => a.norm ≠ b.norm))
    (hm0WF : ∀ en ∈ m0, MapEntryWF en) :
    ∀ (rest : List DbKey) (s : SyncSt),
      rest.Pairwise (fun a b => a.email ≠ b.email) →
      (∀ k ∈ rest, k ∈ st.keys ∧ (k.email ≠ "" →
        graceOld now k.expiryMs = false ∧
        ∃ en ∈ m0, en.norm = k.email ∧
          needsUpdate k.expiryMs k.subscriptionUrl en.acct = false)) →
      s.store = st → s.evs = [] →
      (∀ en ∈ s.rmap, en ∈ m0) →
      (∀ en ∈ s.rmap, ∃ k2 ∈ rest, k2.email = en.norm) →
      (∀ en ∈ m0, (∃ k2 ∈ rest, k2.email = en.norm) → en ∈ s.rmap) →
      (rest.foldl (syncKeyStep now rf) s).store = st ∧
      (rest.foldl (syncKeyStep now rf) s).evs = [] ∧
      (rest.foldl (syncKeyStep now rf) s).rmap = []
  | [], s, _, _, hsst, hsevs, _, hI4, _ => by
    refine ⟨hsst, hsevs, ?_⟩
    rw [List.eq_nil_iff_forall_not_mem]
    intro en hen
    rcases hI4 en hen with ⟨k2, hk2, _⟩
    exact List.not_mem_nil k2 hk2
  | k :: rest, s, hP, hK, hsst, hsevs, hI3, hI4, hI5 => by
    rw [List.foldl_cons]
    have hkfacts := hK k (List.mem_cons_self _ _)
    have hknorm : normEmail k.email = k.email := hwf.emailsNorm k hkfacts.1
    have hraw : rawOf k = k.email := rawOf_of_norm hknorm
    have hPtail : rest.Pairwise (fun a b => a.email ≠ b.email) :=
      (List.pairwise_cons.mp hP).2
    have hkNe : ∀ k2 ∈ rest, k.email ≠ k2.email := (List.pairwise_cons.mp hP).1
    by_cases hke : k.email = ""
    · have h1 : (rawOf k == "") = true := by
        rw [hraw, hke]
        decide
      rw [syncKeyStep_eq_skip h1]
      refine noopFold hwf hm0P hm0WF rest s hPtail
        (fun k2 h2 => hK k2 (List.mem_cons_of_mem _ h2)) hsst hsevs hI3 ?_ ?_
      · intro en hen
        rcases hI4 en hen with ⟨k2, hk2, he2⟩
        rcases List.mem_cons.mp hk2 with h | h
        · exfalso
          apply mapEntryWF_norm_ne (hm0WF en (hI3 en hen))
          rw [← he2, h, hke]
        · exact ⟨k2, h, he2⟩
      · intro en henM hex
        rcases hex with ⟨k2, hk2, he2⟩
        exact hI5 en henM ⟨k2, List.mem_cons_of_mem _ hk2, he2⟩
    · have h1f : (rawOf k == "") = false := by
        rw [hraw]
        exact beq_eq_false_iff_ne.mpr hke
      have hgr : graceOld now k.expiryMs = false := (hkfacts.2 hke).1
      rcases (hkfacts.2 hke).2 with ⟨enM, henM, henNorm, henNU⟩
      have hlow : lowerStr (rawOf k) = k.email := by
        rw [hraw, lowerStr_of_norm hknorm]
      cases hp : (popEntry s.rmap (lowerStr (rawOf k))).1 with
      | none =>
        exfalso
        have henIn : enM ∈ s.rmap :=
          hI5 enM henM ⟨k, List.mem_cons_self _ _, henNorm.symm⟩
        have hne := (popEntry_none hp).2 enM henIn
        rw [hlow] at hne
        exact hne henNorm
      | some en =>
        rcases popEntry_found hp with ⟨henmem, hennorm, hpop2⟩
        rw [hlow] at hennorm
        have heq : en = enM :=
          eq_of_mem_normsP hm0P (hI3 en henmem) henM (by rw [hennorm, henNorm])
        have hNU : needsUpdate k.expiryMs k.subscriptionUrl en.acct = false := by
          rw [heq]
          exact henNU
        rw [syncKeyStep_eq_noupdate h1f hgr hp hNU]
        refine noopFold hwf hm0P hm0WF rest _ hPtail
          (fun k2 h2 => hK k2 (List.mem_cons_of_mem _ h2)) hsst hsevs ?_ ?_ ?_
        · intro en2 hen2
          exact hI3 en2 (popEntry_sub en2 hen2)
        · intro en2 hen2
          have hen2p : en2 ∈ s.rmap.filter
              (fun x => !(x.norm == lowerStr (rawOf k))) := by
            rw [← hpop2]
            exact hen2
          rcases List.mem_filter.mp hen2p with ⟨hmem2, hpred2⟩
          rcases hI4 en2 hmem2 with ⟨k2, hk2, he2⟩
          rcases List.mem_cons.mp hk2 with h | h
          · exfalso
            rw [hlow] at hpred2
            have hne2 : en2.norm ≠ k.email := by simpa using hpred2
            exact hne2 (by rw [← he2, h])
          · exact ⟨k2, h, he2⟩
        · intro en2 henM2 hex
          rcases hex with ⟨k2, hk2, he2⟩
          have hen2in : en2 ∈ s.rmap :=
            hI5 en2 henM2 ⟨k2, List.mem_cons_of_mem _ hk2, he2⟩
          show en2 ∈ (popEntry s.rmap (lowerStr (rawOf k))).2
          rw [hpop2]
          refine List.mem_filter.mpr ⟨hen2in, ?_⟩
          rw [hlow]
          have hne2 : en2.norm ≠ k.email := by
            rw [← he2]
            exact fun hc => hkNe k2 hk2 hc.symm
          simpa using hne2

/-- **C3 counterexample** — two runs against the same unchanged listing are
not idempotent: a key grace-deleted in the first run while its remote account
is still listed is gone when the second run's key loop walks the store, so
its map entry survives to the orphan-relink phase, which re-creates the key —
the second run performs a local insertion (`relink` with a fresh row id, a
local mutation). -/
theorem reconciliation_idempotence_counterexample :
    syncSquad (GRACE_MS + 1000) (fun _ => false)
        ⟨[⟨1, 5, "h", "user5@h", some 0, none, none⟩], [5], 2⟩ "h" "sq"
        [⟨"user5@h", some 0, none, none⟩] =
      (⟨[], [5], 2⟩,
       [SyncEv.remoteDelete "user5@h" true, SyncEv.graceDelete "user5@h" true]) ∧
    syncSquad (GRACE_MS + 1000) (fun _ => false) (⟨[], [5], 2⟩ : Store) "h" "sq"
        [⟨"user5@h", some 0, none, none⟩] =
      (⟨[⟨2, 5, "h", "user5@h", some 0, none, none⟩], [5], 3⟩,
       [SyncEv.relink "user5@h" 5 (some 2)]) ∧
    (SyncEv.relink "user5@h" 5 (some 2)).isLocalMut = true :=
  ⟨by decide, by decide, by decide⟩

/-! ### Tolerance and host-normalization facts (C3 repair-then-stable) -/

/-- Storing at second resolution moves a timestamp by less than a second. -/
theorem truncMs_tol (r : Int) : (r - truncMs r).natAbs ≤ 1000 := by
  unfold truncMs
  omega

/-- A timestamp stored "now" at second resolution is never past the 5-day
grace period. -/
theorem graceOld_truncMs_now (now : Int) : graceOld now (some (truncMs now)) = false := by
  show decide (truncMs now < now - GRACE_MS) = false
  refine decide_eq_false ?_
  unfold truncMs GRACE_MS
  omega

/-- A second-resolution timestamp within the grace window is not grace-old. -/
theorem graceOld_truncMs_of_le {now r : Int} (h : now - GRACE_MS ≤ truncMs r) :
    graceOld now (some (truncMs r)) = false := by
  show decide (truncMs r < now - GRACE_MS) = false
  exact decide_eq_false (by omega)

theorem trimChars_subset {c : Char} {cs : List Char} (h : c ∈ trimChars cs) : c ∈ cs := by
  unfold trimChars at h
  rw [List.mem_reverse] at h
  have h2 := (List.dropWhile_sublist isWs).subset h
  rw [List.mem_reverse] at h2
  exact (List.dropWhile_sublist isWs).subset h2

/-- Renormalizing a normalized host name does not change its trimmed form, so
a key stored by the relink path matches its host's listing. -/
theorem relinkHost_listed (h : String) :
    stripStr (normalizeHostName (if h == "" then "" else normalizeHostName h)) =
      stripStr (normalizeHostName h) := by
  by_cases hb : (h == "") = true
  · rw [if_pos hb, eq_of_beq hb]
  · rw [if_neg hb]
    unfold normalizeHostName stripStr
    rw [toList_mk, toList_mk]
    have hfix : (trimChars ((trimChars h.toList).filter
        (fun c => !(invisibleChars.contains c)))).filter
        (fun c => !(invisibleChars.contains c)) =
        trimChars ((trimChars h.toList).filter (fun c => !(invisibleChars.contains c))) := by
      refine List.filter_eq_self.mpr ?_
      intro c hc
      exact (List.mem_filter.mp (trimChars_subset hc)).2
    rw [hfix, trimChars_idem]

theorem updFn_host (kid : Nat) (uuid : Option String) (expireAtMs : Option Int)
    (subUrl : Option String) (k : DbKey) :
    (updFn kid uuid expireAtMs subUrl k).hostName = k.hostName := by
  unfold updFn
  split <;> rfl

theorem updFn_pos {kid : Nat} {k : DbKey} (uuid : Option String)
    (expireAtMs : Option Int) (subUrl : Option String) (h : (k.keyId == kid) = true) :
    updFn kid uuid expireAtMs subUrl k =
      { k with
        uuid := match uuid with | some u => some u | none => k.uuid,
        expiryMs := match expireAtMs with
          | some m => some (truncMs m)
          | none => k.expiryMs,
        subscriptionUrl := match subUrl with
          | some s => some s
          | none => k.subscriptionUrl } := by
  unfold updFn
  rw [if_pos h]

theorem update_key_sync_fields_eq_map {st : Store} {kid : Nat} {uuid : Option String}
    {expireAtMs : Option Int} {subUrl : Option String}
    (h : (uuid.isNone && expireAtMs.isNone && subUrl.isNone) = false) :
    update_key_sync_fields st kid uuid expireAtMs subUrl =
      ({ st with keys := st.keys.map (updFn kid uuid expireAtMs subUrl) },
       st.keys.any (fun k => k.keyId == kid)) := by
  unfold update_key_sync_fields
  rw [if_neg (by rw [h]; simp)]

/-- A row whose stored values track the remote account within tolerance does
not need an update: expiry within a second when the remote side parses, and
the stored subscription URL equal to the remote one when that is present. -/
theorem needsUpdate_conv (acct : RemoteAccount) (lm : Option Int) (ls : Option String)
    (h1 : ∀ r, acct.expireAtMs = some r → ∃ l, lm = some l ∧ (r - l).natAbs ≤ 1000)
    (h2 : ∀ s2, acct.subscriptionUrl = some s2 → ls = some s2) :
    needsUpdate lm ls acct = false := by
  unfold needsUpdate extract_subscription_url
  cases hea : acct.expireAtMs with
  | none =>
    cases hsu : acct.subscriptionUrl with
    | none => rfl
    | some s2 =>
      rw [h2 s2 hsu]
      simp
  | some r =>
    rcases h1 r hea with ⟨l, hl, htol⟩
    rw [hl]
    have hd : decide (1000 < (r - l).natAbs) = false := decide_eq_false (by omega)
    cases hsu : acct.subscriptionUrl with
    | none => simp [hd]
    | some s2 =>
      rw [h2 s2 hsu]
      simp [hd]

/-- A drifted row implies the remote account carries at least one field, so
the scheduler's update call is never the rejected all-`None` call. -/
theorem needsUpdate_some_field {lm : Option Int} {ls : Option String}
    {acct : RemoteAccount} (h : needsUpdate lm ls acct = true) :
    (acct.uuid.isNone && acct.expireAtMs.isNone && acct.subscriptionUrl.isNone) = false := by
  by_contra hc
  have hall : (acct.uuid.isNone && acct.expireAtMs.isNone &&
      acct.subscriptionUrl.isNone) = true := by
    cases hv : (acct.uuid.isNone && acct.expireAtMs.isNone && acct.subscriptionUrl.isNone) with
    | true => rfl
    | false => exact absurd hv hc
  simp only [Bool.and_eq_true] at hall
  have hea : acct.expireAtMs = none := Option.isNone_iff_eq_none.mp hall.1.2
  have hsu : acct.subscriptionUrl = none := Option.isNone_iff_eq_none.mp hall.2
  have hfalse : needsUpdate lm ls acct = false := by
    refine needsUpdate_conv acct lm ls ?_ ?_
    · intro r hr
      rw [hea] at hr
      cases hr
    · intro s2 hs
      rw [hsu] at hs
      cases hs
  rw [hfalse] at h
  cases h

/-- A remote-map entry whose user-id token is missing, zero, or unknown, or
whose email already has a local key, is skipped by the relink loop. -/
theorem relinkStep_skip_of_guard {hostName squadUuid : String} {now : Int}
    {acc : Store × List SyncEv} {en : RemoteEntry}
    (h : findUserToken en.raw.toList = none ∨
      (∃ uid, findUserToken en.raw.toList = some uid ∧
        (uid = 0 ∨ acc.1.users.contains uid = false))) :
    relinkStep hostName squadUuid now acc en = acc := by
  unfold relinkStep
  rcases h with hn | ⟨uid, hfind, hcase⟩
  · rw [hn]
  · rw [hfind]
    show (if uid == 0 then acc
      else if !(acc.1.users.contains uid) then acc
      else match get_key_by_email acc.1 en.raw with
        | some _ => acc
        | none =>
          ((record_key_from_payload acc.1 uid en.acct hostName squadUuid now).1,
           acc.2 ++ [SyncEv.relink en.raw uid
             (record_key_from_payload acc.1 uid en.acct hostName squadUuid now).2])) = acc
    rcases hcase with h0 | hu
    · rw [if_pos (by rw [h0]; rfl)]
    · by_cases h0 : (uid == 0) = true
      · rw [if_pos h0]
      · rw [if_neg h0, if_pos (by rw [hu]; rfl)]

/-- An entry the relink loop cannot act on: no recoverable nonzero user id
known locally, or a local key already under that email. -/
def relinkInert (st : Store) (en : RemoteEntry) : Prop :=
  findUserToken en.raw.toList = none ∨
  (∃ uid, findUserToken en.raw.toList = some uid ∧
    (uid = 0 ∨ st.users.contains uid = false)) ∨
  (∃ r, get_key_by_email st en.raw = some r)

/-- Generalization of `noopFold`: entries need not all be matched by the
walked rows — an unmatched entry instead satisfies an escape property `P`,
which survives to the end of the loop untouched. -/
theorem noopFoldP {now : Int} {rf : String → Bool} {st : Store} {m0 : List RemoteEntry}
    {P : RemoteEntry → Prop}
    (hwf : StoreWF st) (hm0P : m0.Pairwise (fun a b => a.norm ≠ b.norm))
    (hm0WF : ∀ en ∈ m0, MapEntryWF en) :
    ∀ (rest : List DbKey) (s : SyncSt),
      rest.Pairwise (fun a b => a.email ≠ b.email) →
      (∀ k ∈ rest, k ∈ st.keys ∧ (k.email ≠ "" →
        graceOld now k.expiryMs = false ∧
        ∃ en ∈ m0, en.norm = k.email ∧
          needsUpdate k.expiryMs k.subscriptionUrl en.acct = false)) →
      s.store = st → s.evs = [] →
      (∀ en ∈ s.rmap, en ∈ m0) →
      (∀ en ∈ s.rmap, (∃ k2 ∈ rest, k2.email = en.norm) ∨ P en) →
      (∀ en ∈ m0, (∃ k2 ∈ rest, k2.email = en.norm) → en ∈ s.rmap) →
      (rest.foldl (syncKeyStep now rf) s).store = st ∧
      (rest.foldl (syncKeyStep now rf) s).evs = [] ∧
      ∀ en ∈ (rest.foldl (syncKeyStep now rf) s).rmap, P en
  | [], s, _, _, hsst, hsevs, _, hI4, _ => by
    refine ⟨hsst, hsevs, ?_⟩
    intro en hen
    rcases hI4 en hen with ⟨k2, hk2, _⟩ | hP
    · exact absurd hk2 (List.not_mem_nil k2)
    · exact hP
  | k :: rest, s, hP, hK, hsst, hsevs, hI3, hI4, hI5 => by
    rw [List.foldl_cons]
    have hkfacts := hK k (List.mem_cons_self _ _)
    have hknorm : normEmail k.email = k.email :=
      (hsst ▸ hwf.emailsNorm) k (hsst ▸ hkfacts.1)
    have hraw : rawOf k = k.email := rawOf_of_norm hknorm
    have hPtail : rest.Pairwise (fun a b => a.email ≠ b.email) :=
      (List.pairwise_cons.mp hP).2
    have hkNe : ∀ k2 ∈ rest, k.email ≠ k2.email := (List.pairwise_cons.mp hP).1
    by_cases hke : k.email = ""
    · have h1 : (rawOf k == "") = true := by
        rw [hraw, hke]
        decide
      rw [syncKeyStep_eq_skip h1]
      refine noopFoldP hwf hm0P hm0WF rest s hPtail
        (fun k2 h2 => hK k2 (List.mem_cons_of_mem _ h2)) hsst hsevs hI3 ?_ ?_
      · intro en hen
        rcases hI4 en hen with ⟨k2, hk2, he2⟩ | hPe
        · rcases List.mem_cons.mp hk2 with h | h
          · exfalso
            apply mapEntryWF_norm_ne (hm0WF en (hI3 en hen))
            rw [← he2, h, hke]
          · exact Or.inl ⟨k2, h, he2⟩
        · exact Or.inr hPe
      · intro en henM hex
        rcases hex with ⟨k2, hk2, he2⟩
        exact hI5 en henM ⟨k2, List.mem_cons_of_mem _ hk2, he2⟩
    · have h1f : (rawOf k == "") = false := by
        rw [hraw]
        exact beq_eq_false_iff_ne.mpr hke
      have hgr : graceOld now k.expiryMs = false := (hkfacts.2 hke).1
      rcases (hkfacts.2 hke).2 with ⟨enM, henM, henNorm, henNU⟩
      have hlow : lowerStr (rawOf k) = k.email := by
        rw [hraw, lowerStr_of_norm hknorm]
      cases hp : (popEntry s.rmap (lowerStr (rawOf k))).1 with
      | none =>
        exfalso
        have henIn : enM ∈ s.rmap :=
          hI5 enM henM ⟨k, List.mem_cons_self _ _, henNorm.symm⟩
        have hne := (popEntry_none hp).2 enM henIn
        rw [hlow] at hne
        exact hne henNorm
      | some en =>
        rcases popEntry_found hp with ⟨henmem, hennorm, hpop2⟩
        rw [hlow] at hennorm
        have heq : en = enM :=
          eq_of_mem_normsP hm0P (hI3 en henmem) henM (by rw [hennorm, henNorm])
        have hNU : needsUpdate k.expiryMs k.subscriptionUrl en.acct = false := by
          rw [heq]
          exact henNU
        rw [syncKeyStep_eq_noupdate h1f hgr hp hNU]
        refine noopFoldP hwf hm0P hm0WF rest _ hPtail
          (fun k2 h2 => hK k2 (List.mem_cons_of_mem _ h2)) hsst hsevs ?_ ?_ ?_
        · intro en2 hen2
          exact hI3 en2 (popEntry_sub en2 hen2)
        · intro en2 hen2
          have hen2p : en2 ∈ s.rmap.filter
              (fun x => !(x.norm == lowerStr (rawOf k))) := by
            rw [← hpop2]
            exact hen2
          rcases List.mem_filter.mp hen2p with ⟨hmem2, hpred2⟩
          rcases hI4 en2 hmem2 with ⟨k2, hk2, he2⟩ | hPe
          · rcases List.mem_cons.mp hk2 with h | h
            · exfalso
              rw [hlow] at hpred2
              have hne2 : en2.norm ≠ k.email := by simpa using hpred2
              exact hne2 (by rw [← he2, h])
            · exact Or.inl ⟨k2, h, he2⟩
          · exact Or.inr hPe
        · intro en2 henM2 hex
          rcases hex with ⟨k2, hk2, he2⟩
          have hen2in : en2 ∈ s.rmap :=
            hI5 en2 henM2 ⟨k2, List.mem_cons_of_mem _ hk2, he2⟩
          show en2 ∈ (popEntry s.rmap (lowerStr (rawOf k))).2
          rw [hpop2]
          refine List.mem_filter.mpr ⟨hen2in, ?_⟩
          rw [hlow]
          have hne2 : en2.norm ≠ k.email := by
            rw [← he2]
            exact fun hc => hkNe k2 hk2 hc.symm
          simpa using hne2

/-- A relink pass over entries that are all inert leaves the accumulator
untouched. -/
theorem noopRelinkFold (hostName squadUuid : String) (now : Int) :
    ∀ (m : List RemoteEntry) (acc : Store × List SyncEv),
      (∀ en ∈ m, relinkInert acc.1 en) →
      m.foldl (relinkStep hostName squadUuid now) acc = acc
  | [], _, _ => rfl
  | en :: rest, acc, h => by
    rw [List.foldl_cons]
    have hstep : relinkStep hostName squadUuid now acc en = acc := by
      rcases h en (List.mem_cons_self _ _) with hn | hg | ⟨r, hr⟩
      · exact relinkStep_skip_of_guard (Or.inl hn)
      · exact relinkStep_skip_of_guard (Or.inr hg)
      · exact relinkStep_skip_of_found hr
    rw [hstep]
    exact noopRelinkFold hostName squadUuid now rest acc
      (fun en2 h2 => h en2 (List.mem_cons_of_mem _ h2))

/-- A reconciliation pass over a store whose host keys all track the listing
and whose unmatched entries are all relink-inert is a no-op: the store comes
back unchanged and nothing is logged. -/
theorem syncSquad_noop (now : Int) (rf : String → Bool) (st : Store)
    (hostName squadUuid : String) (rs : List RemoteAccount)
    (hwf : StoreWF st)
    (hB : ∀ k ∈ get_keys_for_host st hostName, k.email ≠ "" →
      graceOld now k.expiryMs = false ∧
      ∃ en ∈ buildRemoteMap rs, en.norm = k.email ∧
        needsUpdate k.expiryMs k.subscriptionUrl en.acct = false)
    (hC : ∀ en ∈ buildRemoteMap rs,
      (∃ k ∈ get_keys_for_host st hostName, k.email = en.norm) ∨ relinkInert st en) :
    syncSquad now rf st hostName squadUuid rs = (st, []) := by
  have hfold := @noopFoldP now rf st (buildRemoteMap rs) (relinkInert st) hwf
    buildRemoteMap_nodup buildRemoteMap_wf (get_keys_for_host st hostName)
    ⟨st, buildRemoteMap rs, []⟩
    (List.Pairwise.sublist (List.filter_sublist _) hwf.emailsP)
    (fun k hk => ⟨(List.filter_sublist _).subset hk, fun hke => hB k hk hke⟩)
    rfl rfl (fun en hen => hen) hC (fun en henM _ => henM)
  rcases hfold with ⟨hst, hevs, hin⟩
  unfold syncSquad syncRelinkPhase
  rw [noopRelinkFold hostName squadUuid now _ _ (by rw [hst]; exact hin), hst, hevs]

/-! ### Simulation of the first reconciliation run (C3) -/

/-- A row tracking its remote account: not grace-old and no update needed. -/
def converged (now : Int) (m0 : List RemoteEntry) (x : DbKey) : Prop :=
  graceOld now x.expiryMs = false ∧
  ∃ en ∈ m0, en.norm = x.email ∧
    needsUpdate x.expiryMs x.subscriptionUrl en.acct = false

/-- Invariant of the first run's key loop over the host listing of `st`:
`todo` is the unprocessed suffix.  The store keeps its user table and rowid
counter, stays well formed, every row descends from an original row with the
same id, email and host, uuids come from the original store or from matched
entries, every processed host row is converged, unprocessed rows are still
present verbatim, every matched entry keeps a row under its email, and the
remote map shrinks from `m0` keeping orphans and the entries of unprocessed
rows. -/
structure Run1Inv (st : Store) (m0 : List RemoteEntry) (now : Int) (hostName : String)
    (todo : List DbKey) (s : SyncSt) : Prop where
  usersEq : s.store.users = st.users
  nextEq : s.store.nextKeyId = st.nextKeyId
  emailsNorm : ∀ x ∈ s.store.keys, normEmail x.email = x.email
  emailsP : s.store.keys.Pairwise (fun a b => a.email ≠ b.email)
  idsP : s.store.keys.Pairwise (fun a b => a.keyId ≠ b.keyId)
  idsLt : ∀ x ∈ s.store.keys, x.keyId < st.nextKeyId
  anc : ∀ x ∈ s.store.keys, ∃ y ∈ st.keys, x.keyId = y.keyId ∧ x.email = y.email ∧
    x.hostName = y.hostName
  uuidO : ∀ x ∈ s.store.keys, ∀ v, x.uuid = some v →
    (∃ y ∈ st.keys, y.uuid = some v) ∨
    (∃ en2 ∈ m0, (∃ k ∈ get_keys_for_host st hostName, k.email = en2.norm) ∧
      ∃ w, en2.acct.uuid = some w ∧ v = w)
  conv : ∀ x ∈ s.store.keys, x.email ≠ "" →
    (∃ k ∈ get_keys_for_host st hostName, k.email = x.email) →
    (∀ k2 ∈ todo, k2.email ≠ x.email) → converged now m0 x
  intact : ∀ k2 ∈ todo, k2 ∈ s.store.keys
  survM : ∀ en ∈ m0, (∃ k ∈ get_keys_for_host st hostName, k.email = en.norm) →
    ∃ x ∈ s.store.keys, x.email = en.norm
  rmapSub : List.Sublist s.rmap m0
  rmapOrphan : ∀ en ∈ m0, (∀ k ∈ get_keys_for_host st hostName, k.email ≠ en.norm) →
    en ∈ s.rmap
  rmapPresent : ∀ en ∈ m0, (∃ k2 ∈ todo, k2.email = en.norm) → en ∈ s.rmap
  rmapMT : ∀ en ∈ s.rmap, (∃ k ∈ get_keys_for_host st hostName, k.email = en.norm) →
    ∃ k2 ∈ todo, k2.email = en.norm

/-- The two local-deletion branches (grace with no listed account, missing
remote) preserve the run invariant: the deleted email has no map entry left
behind and belongs to no other row. -/
theorem run1InvDelete {st : Store} {m0 : List RemoteEntry} {now : Int}
    {hostName : String} {rest : List DbKey} {s : SyncSt} {k : DbKey}
    (hm0WF : ∀ en ∈ m0, MapEntryWF en)
    (inv : Run1Inv st m0 now hostName (k :: rest) s)
    (hkcur : k ∈ s.store.keys)
    (hkNe : ∀ k2 ∈ rest, k.email ≠ k2.email)
    (hnoent : ∀ en2 ∈ m0, en2.norm ≠ k.email)
    {e : String} (hne : normEmail e = k.email)
    {rm : List RemoteEntry} (hrm : rm = s.rmap) (evs : List SyncEv) :
    Run1Inv st m0 now hostName rest ⟨(delete_key_by_email s.store e).1, rm, evs⟩ := by
  have hpredT : ∀ r : DbKey, r.email ≠ k.email → (!(r.email == normEmail e)) = true := by
    intro r h
    rw [hne]
    simpa using h
  have hpredM : ∀ r : DbKey,
      r ∈ s.store.keys.filter (fun x => !(x.email == normEmail e)) →
      r ∈ s.store.keys ∧ r.email ≠ k.email := by
    intro r h
    rcases List.mem_filter.mp h with ⟨h1, h2⟩
    rw [hne] at h2
    exact ⟨h1, by simpa using h2⟩
  refine ⟨inv.usersEq, inv.nextEq, ?_, ?_, ?_, ?_, ?_, ?_, ?_, ?_, ?_, ?_, ?_, ?_, ?_⟩
  · intro x hx
    exact inv.emailsNorm x (List.mem_of_mem_filter hx)
  · exact List.Pairwise.sublist (List.filter_sublist _) inv.emailsP
  · exact List.Pairwise.sublist (List.filter_sublist _) inv.idsP
  · intro x hx
    exact inv.idsLt x (List.mem_of_mem_filter hx)
  · intro x hx
    exact inv.anc x (List.mem_of_mem_filter hx)
  · intro x hx
    exact inv.uuidO x (List.mem_of_mem_filter hx)
  · intro x hx hxe hxl hxt
    rcases hpredM x hx with ⟨hx1, hx2⟩
    refine inv.conv x hx1 hxe hxl ?_
    intro k2 hk2
    rcases List.mem_cons.mp hk2 with h | h
    · rw [h]
      exact fun hc => hx2 hc.symm
    · exact hxt k2 h
  · intro k2 hk2
    exact List.mem_filter.mpr ⟨inv.intact k2 (List.mem_cons_of_mem _ hk2),
      hpredT k2 (fun hc => hkNe k2 hk2 hc.symm)⟩
  · intro en hen hm
    rcases inv.survM en hen hm with ⟨x, hx, he⟩
    exact ⟨x, List.mem_filter.mpr ⟨hx, hpredT x (by rw [he]; exact hnoent en hen)⟩, he⟩
  · rw [hrm]
    exact inv.rmapSub
  · intro en hen h
    rw [hrm]
    exact inv.rmapOrphan en hen h
  · intro en hen hm
    rw [hrm]
    rcases hm with ⟨k2, hk2, he2⟩
    exact inv.rmapPresent en hen ⟨k2, List.mem_cons_of_mem _ hk2, he2⟩
  · intro en hen hm
    rw [hrm] at hen
    rcases inv.rmapMT en hen hm with ⟨k2, hk2, he2⟩
    rcases List.mem_cons.mp hk2 with h | h
    · exfalso
      rw [h] at he2
      exact hnoent en (inv.rmapSub.subset hen) he2.symm
    · exact ⟨k2, h, he2⟩

/-- The remote-map bookkeeping of a matched key's step: popping the key's
entry keeps the map a sub-map of `m0` with orphans and the unprocessed rows'
entries intact. -/
theorem run1RmapFound {st : Store} {m0 : List RemoteEntry} {now : Int}
    {hostName : String} {rest : List DbKey} {s : SyncSt} {k : DbKey}
    (inv : Run1Inv st m0 now hostName (k :: rest) s)
    (hklist : k ∈ get_keys_for_host st hostName)
    (hkNe : ∀ k2 ∈ rest, k.email ≠ k2.email)
    (hlow : lowerStr (rawOf k) = k.email)
    (hpop2 : (popEntry s.rmap (lowerStr (rawOf k))).2 =
      s.rmap.filter (fun x => !(x.norm == lowerStr (rawOf k)))) :
    List.Sublist (popEntry s.rmap (lowerStr (rawOf k))).2 m0 ∧
    (∀ en2 ∈ m0, (∀ k2 ∈ get_keys_for_host st hostName, k2.email ≠ en2.norm) →
      en2 ∈ (popEntry s.rmap (lowerStr (rawOf k))).2) ∧
    (∀ en2 ∈ m0, (∃ k2 ∈ rest, k2.email = en2.norm) →
      en2 ∈ (popEntry s.rmap (lowerStr (rawOf k))).2) ∧
    (∀ en2 ∈ (popEntry s.rmap (lowerStr (rawOf k))).2,
      (∃ k2 ∈ get_keys_for_host st hostName, k2.email = en2.norm) →
      ∃ k2 ∈ rest, k2.email = en2.norm) := by
  refine ⟨?_, ?_, ?_, ?_⟩
  · rw [hpop2]
    exact List.Sublist.trans (List.filter_sublist _) inv.rmapSub
  · intro en2 hen2 h
    rw [hpop2]
    refine List.mem_filter.mpr ⟨inv.rmapOrphan en2 hen2 h, ?_⟩
    rw [hlow]
    simpa using fun hc => h k hklist hc.symm
  · intro en2 hen2 hm
    rcases hm with ⟨k2, hk2, he2⟩
    rw [hpop2]
    refine List.mem_filter.mpr
      ⟨inv.rmapPresent en2 hen2 ⟨k2, List.mem_cons_of_mem _ hk2, he2⟩, ?_⟩
    rw [hlow]
    have hne2 : en2.norm ≠ k.email := by
      rw [← he2]
      exact fun hc => hkNe k2 hk2 hc.symm
    simpa using hne2
  · intro en2 hen2 hm
    have hen2m : en2 ∈ s.rmap.filter (fun x => !(x.norm == lowerStr (rawOf k))) := by
      rw [← hpop2]
      exact hen2
    rcases List.mem_filter.mp hen2m with ⟨hmem2, hpred2⟩
    rw [hlow] at hpred2
    rcases inv.rmapMT en2 hmem2 hm with ⟨k2, hk2, he2⟩
    rcases List.mem_cons.mp hk2 with h | h
    · exfalso
      have hne2 : en2.norm ≠ k.email := by simpa using hpred2
      rw [h] at he2
      exact hne2 he2.symm
    · exact ⟨k2, h, he2⟩

/-- The row refreshed from its matched remote account is converged: the
stored expiry is the remote one at second resolution (within grace by
assumption) or the unchanged local one, and the stored subscription URL is
the remote one when present. -/
theorem updRow_conv {now : Int} {m0 : List RemoteEntry} {en : RemoteEntry} {k : DbKey}
    (henm0 : en ∈ m0) (hennorm : en.norm = k.email)
    (hH2 : ∀ r, en.acct.expireAtMs = some r → now - GRACE_MS ≤ truncMs r)
    (hgrf : graceOld now k.expiryMs = false) :
    converged now m0
      (updFn k.keyId en.acct.uuid en.acct.expireAtMs en.acct.subscriptionUrl k) := by
  have hpos : (k.keyId == k.keyId) = true := by simp
  cases hea : en.acct.expireAtMs with
  | some r =>
    have hexp : (updFn k.keyId en.acct.uuid (some r) en.acct.subscriptionUrl
        k).expiryMs = some (truncMs r) := by
      rw [updFn_pos _ _ _ hpos]
    refine ⟨?_, en, henm0, ?_, ?_⟩
    · rw [hexp]
      exact graceOld_truncMs_of_le (hH2 r hea)
    · rw [updFn_email]
      exact hennorm
    · refine needsUpdate_conv en.acct _ _ ?_ ?_
      · intro r2 hr2
        rw [hea] at hr2
        cases hr2
        exact ⟨truncMs r, hexp, truncMs_tol r⟩
      · intro s2 hs2
        rw [updFn_pos _ _ _ hpos, hs2]
  | none =>
    have hexp : (updFn k.keyId en.acct.uuid none en.acct.subscriptionUrl
        k).expiryMs = k.expiryMs := by
      rw [updFn_pos _ _ _ hpos]
    refine ⟨?_, en, henm0, ?_, ?_⟩
    · rw [hexp]
      exact hgrf
    · rw [updFn_email]
      exact hennorm
    · refine needsUpdate_conv en.acct _ _ ?_ ?_
      · intro r2 hr2
        rw [hea] at hr2
        cases hr2
      · intro s2 hs2
        rw [updFn_pos _ _ _ hpos, hs2]

/-- One step of the first run's key loop preserves the run invariant, given
that a grace-old key never has a listed account and listed expiries are
within the grace window. -/
theorem run1Step {st : Store} {m0 : List RemoteEntry} {now : Int} {hostName : String}
    {rf : String → Bool} {k : DbKey} {rest : List DbKey} {s : SyncSt}
    (hm0P : m0.Pairwise (fun a b => a.norm ≠ b.norm))
    (hm0WF : ∀ en ∈ m0, MapEntryWF en)
    (hH2 : ∀ en ∈ m0, ∀ r, en.acct.expireAtMs = some r → now - GRACE_MS ≤ truncMs r)
    (hTP : (k :: rest).Pairwise (fun a b => a.email ≠ b.email))
    (hKs : ∀ k2 ∈ k :: rest, k2 ∈ get_keys_for_host st hostName ∧
      (k2.email ≠ "" → graceOld now k2.expiryMs = true →
        ∀ en ∈ m0, en.norm ≠ k2.email))
    (inv : Run1Inv st m0 now hostName (k :: rest) s) :
    Run1Inv st m0 now hostName rest (syncKeyStep now rf s k) := by
  have hkfacts := hKs k (List.mem_cons_self _ _)
  have hklist := hkfacts.1
  have hkcur : k ∈ s.store.keys := inv.intact k (List.mem_cons_self _ _)
  have hknorm : normEmail k.email = k.email := inv.emailsNorm k hkcur
  have hraw : rawOf k = k.email := rawOf_of_norm hknorm
  have hnraw : normEmail (rawOf k) = k.email := by rw [hraw, hknorm]
  have hkNe : ∀ k2 ∈ rest, k.email ≠ k2.email := (List.pairwise_cons.mp hTP).1
  have hlow : lowerStr (rawOf k) = k.email := by rw [hraw, lowerStr_of_norm hknorm]
  by_cases hke : k.email = ""
  · have h1 : (rawOf k == "") = true := by
      rw [hraw, hke]
      decide
    rw [syncKeyStep_eq_skip h1]
    refine ⟨inv.usersEq, inv.nextEq, inv.emailsNorm, inv.emailsP, inv.idsP, inv.idsLt,
      inv.anc, inv.uuidO, ?_, ?_, inv.survM, inv.rmapSub, inv.rmapOrphan, ?_, ?_⟩
    · intro x hx hxe hxl hxt
      refine inv.conv x hx hxe hxl ?_
      intro k2 hk2
      rcases List.mem_cons.mp hk2 with h | h
      · rw [h, hke]
        exact fun hc => hxe hc.symm
      · exact hxt k2 h
    · intro k2 hk2
      exact inv.intact k2 (List.mem_cons_of_mem _ hk2)
    · intro en hen hm
      rcases hm with ⟨k2, hk2, he2⟩
      exact inv.rmapPresent en hen ⟨k2, List.mem_cons_of_mem _ hk2, he2⟩
    · intro en hen hm
      rcases inv.rmapMT en hen hm with ⟨k2, hk2, he2⟩
      rcases List.mem_cons.mp hk2 with h | h
      · exfalso
        apply mapEntryWF_norm_ne (hm0WF en (inv.rmapSub.subset hen))
        rw [← he2, h, hke]
      · exact ⟨k2, h, he2⟩
  · have h1f : (rawOf k == "") = false := by
      rw [hraw]
      exact beq_eq_false_iff_ne.mpr hke
    by_cases hgr : graceOld now k.expiryMs = true
    · have hH1 := hkfacts.2 hke hgr
      have hpop : popEntry s.rmap (lowerStr (rawOf k)) = (none, s.rmap) := by
        rw [hlow]
        exact popEntry_none_of (fun x hx => hH1 x (inv.rmapSub.subset hx))
      rw [syncKeyStep_eq_grace h1f hgr]
      exact run1InvDelete hm0WF inv hkcur hkNe hH1 hnraw (by rw [hpop]) _
    · have hgrf : graceOld now k.expiryMs = false := by simpa using hgr
      cases hp : (popEntry s.rmap (lowerStr (rawOf k))).1 with
      | none =>
        have hnoent : ∀ en2 ∈ m0, en2.norm ≠ k.email := by
          intro en2 hen2 hc
          have hin : en2 ∈ s.rmap :=
            inv.rmapPresent en2 hen2 ⟨k, List.mem_cons_self _ _, hc.symm⟩
          have hne := (popEntry_none hp).2 en2 hin
          rw [hlow] at hne
          exact hne hc
        rw [syncKeyStep_eq_missing h1f hgrf hp]
        cases hg : get_key_by_email s.store (normEmail (rawOf k)) with
        | none =>
          exfalso
          have hno := get_key_by_email_none hg k hkcur
          rw [normEmail_idem, hnraw] at hno
          exact hno rfl
        | some r0 =>
          rw [update_none_some hg]
          have hnn : normEmail (normEmail (rawOf k)) = k.email := by
            rw [normEmail_idem, hnraw]
          exact run1InvDelete hm0WF inv hkcur hkNe hnoent hnn
            (by rw [(popEntry_none hp).1]) _
      | some en =>
        rcases popEntry_found hp with ⟨henmem, hennorm0, hpop2⟩
        have hennorm : en.norm = k.email := by rw [hennorm0, hlow]
        have henm0 : en ∈ m0 := inv.rmapSub.subset henmem
        rcases run1RmapFound inv hklist hkNe hlow hpop2 with ⟨hrS, hrO, hrP, hrMT⟩
        by_cases hnu : needsUpdate k.expiryMs k.subscriptionUrl en.acct = true
        · -- update branch
          cases hg : get_key_by_email s.store (normEmail (rawOf k)) with
          | none =>
            exfalso
            have hno := get_key_by_email_none hg k hkcur
            rw [normEmail_idem, hnraw] at hno
            exact hno rfl
          | some r0 =>
            rcases get_key_by_email_found hg with ⟨hr0mem, hr0e⟩
            have hr0e2 : r0.email = k.email := by
              rw [hr0e, normEmail_idem, hnraw]
            have hr0k : r0 = k := eq_of_mem_emailsP inv.emailsP hr0mem hkcur hr0e2
            have hnall := needsUpdate_some_field hnu
            have hupd : update_key_status_from_server s.store (rawOf k) (some en.acct) =
                ({ s.store with keys := s.store.keys.map (updFn k.keyId en.acct.uuid en.acct.expireAtMs en.acct.subscriptionUrl) },
                 s.store.keys.any (fun x => x.keyId == k.keyId)) := by
              rw [update_some_some hg, hr0k]
              exact update_key_sync_fields_eq_map hnall
            rw [syncKeyStep_eq_update h1f hgrf hp hnu, hupd]
            have hnid : ∀ y ∈ s.store.keys, y ≠ k → y.keyId ≠ k.keyId := by
              intro y hy hyk hid
              exact hyk (eq_of_mem_idsP inv.idsP hy hkcur hid)
            have hconvk := updRow_conv henm0 hennorm (hH2 en henm0) hgrf
            refine ⟨inv.usersEq, inv.nextEq, ?_, ?_, ?_, ?_, ?_, ?_, ?_, ?_, ?_,
              hrS, hrO, hrP, hrMT⟩
            · intro x hx
              rcases List.mem_map.mp hx with ⟨y, hy, rfl⟩
              rw [updFn_email]
              exact inv.emailsNorm y hy
            · refine List.pairwise_map.mpr (inv.emailsP.imp ?_)
              intro a b hab
              rw [updFn_email, updFn_email]
              exact hab
            · refine List.pairwise_map.mpr (inv.idsP.imp ?_)
              intro a b hab
              rw [updFn_keyId, updFn_keyId]
              exact hab
            · intro x hx
              rcases List.mem_map.mp hx with ⟨y, hy, rfl⟩
              rw [updFn_keyId]
              exact inv.idsLt y hy
            · intro x hx
              rcases List.mem_map.mp hx with ⟨y, hy, rfl⟩
              rcases inv.anc y hy with ⟨z, hz, h1, h2, h3⟩
              exact ⟨z, hz, by rw [updFn_keyId]; exact h1,
                by rw [updFn_email]; exact h2, by rw [updFn_host]; exact h3⟩
            · intro x hx v hv
              rcases List.mem_map.mp hx with ⟨y, hy, rfl⟩
              by_cases hid : (y.keyId == k.keyId) = true
              · rw [updFn_pos _ _ _ hid] at hv
                have hv2 : (match en.acct.uuid with
                    | some u => some u
                    | none => y.uuid) = some v := hv
                cases huu : en.acct.uuid with
                | some u =>
                  rw [huu] at hv2
                  cases hv2
                  exact Or.inr ⟨en, henm0, ⟨k, hklist, hennorm.symm⟩, v, huu, rfl⟩
                | none =>
                  rw [huu] at hv2
                  exact inv.uuidO y hy v hv2
              · rw [updFn_of_ne _ _ _ (by simpa using hid)] at hv
                exact inv.uuidO y hy v hv
            · intro x hx hxe hxl hxt
              rcases List.mem_map.mp hx with ⟨y, hy, rfl⟩
              by_cases hid : (y.keyId == k.keyId) = true
              · have hyk : y = k := eq_of_mem_idsP inv.idsP hy hkcur (by simpa using hid)
                rw [hyk]
                exact hconvk
              · have hfix : updFn k.keyId en.acct.uuid en.acct.expireAtMs
                    en.acct.subscriptionUrl y = y := updFn_of_ne _ _ _ (by simpa using hid)
                rw [hfix] at hxe hxl hxt ⊢
                refine inv.conv y hy hxe hxl ?_
                intro k2 hk2
                rcases List.mem_cons.mp hk2 with h | h
                · rw [h]
                  intro hc
                  have hyk : y = k := eq_of_mem_emailsP inv.emailsP hy hkcur hc.symm
                  exact hid (by rw [hyk]; simp)
                · exact hxt k2 h
            · intro k2 hk2
              have hk2cur := inv.intact k2 (List.mem_cons_of_mem _ hk2)
              have hne2 : k2.keyId ≠ k.keyId := by
                intro hid
                have hk2k : k2 = k := eq_of_mem_idsP inv.idsP hk2cur hkcur hid
                exact hkNe k2 hk2 (by rw [hk2k])
              exact List.mem_map.mpr ⟨k2, hk2cur, updFn_of_ne _ _ _ hne2⟩
            · intro en2 hen2 hm
              rcases inv.survM en2 hen2 hm with ⟨x, hx, he⟩
              exact ⟨updFn k.keyId en.acct.uuid en.acct.expireAtMs
                en.acct.subscriptionUrl x, List.mem_map.mpr ⟨x, hx, rfl⟩,
                by rw [updFn_email]; exact he⟩
        · -- matched, within tolerance: the step only consumes the entry
          have hnuf : needsUpdate k.expiryMs k.subscriptionUrl en.acct = false := by
            simpa using hnu
          rw [syncKeyStep_eq_noupdate h1f hgrf hp hnuf]
          have hconvk : converged now m0 k := ⟨hgrf, en, henm0, hennorm, hnuf⟩
          refine ⟨inv.usersEq, inv.nextEq, inv.emailsNorm, inv.emailsP, inv.idsP,
            inv.idsLt, inv.anc, inv.uuidO, ?_, ?_, inv.survM, hrS, hrO, hrP, hrMT⟩
          · intro x hx hxe hxl hxt
            by_cases hxk : x.email = k.email
            · have hxkk : x = k := eq_of_mem_emailsP inv.emailsP hx hkcur hxk
              rw [hxkk]
              exact hconvk
            · refine inv.conv x hx hxe hxl ?_
              intro k2 hk2
              rcases List.mem_cons.mp hk2 with h | h
              · rw [h]
                exact fun hc => hxk hc.symm
              · exact hxt k2 h
          · intro k2 hk2
            exact inv.intact k2 (List.mem_cons_of_mem _ hk2)

/-- The whole key loop of the first run preserves the invariant down to an
empty worklist. -/
theorem run1Fold {st : Store} {m0 : List RemoteEntry} {now : Int} {hostName : String}
    {rf : String → Bool}
    (hm0P : m0.Pairwise (fun a b => a.norm ≠ b.norm))
    (hm0WF : ∀ en ∈ m0, MapEntryWF en)
    (hH2 : ∀ en ∈ m0, ∀ r, en.acct.expireAtMs = some r → now - GRACE_MS ≤ truncMs r) :
    ∀ (todo : List DbKey) (s : SyncSt),
      todo.Pairwise (fun a b => a.email ≠ b.email) →
      (∀ k2 ∈ todo, k2 ∈ get_keys_for_host st hostName ∧
        (k2.email ≠ "" → graceOld now k2.expiryMs = true →
          ∀ en ∈ m0, en.norm ≠ k2.email)) →
      Run1Inv st m0 now hostName todo s →
      Run1Inv st m0 now hostName [] (todo.foldl (syncKeyStep now rf) s)
  | [], _, _, _, inv => inv
  | k :: rest, s, hTP, hKs, inv => by
    rw [List.foldl_cons]
    exact run1Fold hm0P hm0WF hH2 rest _ (List.pairwise_cons.mp hTP).2
      (fun k2 h2 => hKs k2 (List.mem_cons_of_mem _ h2))
      (run1Step hm0P hm0WF hH2 hTP hKs inv)

/-- The invariant holds at loop entry. -/
theorem run1Init {st : Store} {rs : List RemoteAccount} {now : Int} {hostName : String}
    (hwf : StoreWF st) :
    Run1Inv st (buildRemoteMap rs) now hostName (get_keys_for_host st hostName)
      ⟨st, buildRemoteMap rs, []⟩ := by
  refine ⟨rfl, rfl, hwf.emailsNorm, hwf.emailsP, hwf.idsP, hwf.idsLt, ?_, ?_, ?_, ?_,
    ?_, List.Sublist.refl _, ?_, ?_, ?_⟩
  · intro x hx
    exact ⟨x, hx, rfl, rfl, rfl⟩
  · intro x hx v hv
    exact Or.inl ⟨x, hx, hv⟩
  · intro x hx hxe hxl hxt
    rcases hxl with ⟨k, hk, hke⟩
    exact absurd hke (hxt k hk)
  · intro k2 hk2
    exact List.mem_of_mem_filter hk2
  · intro en hen hm
    rcases hm with ⟨k, hk, hke⟩
    exact ⟨k, List.mem_of_mem_filter hk, hke⟩
  · intro en hen _
    exact hen
  · intro en hen _
    exact hen
  · intro en hen hm
    exact hm

/-! ### Simulation of the first run's relink phase (C3) -/

theorem stripStr_empty : stripStr "" = "" := rfl

/-- An orphan entry the relink phase has dealt with: either a host-listed row
now carries its email, or it is permanently skippable (no token, token zero,
unknown user, or some row already under its raw email).  All components are
stable under further insertions. -/
def orphanSettled (st : Store) (hostName : String) (acc1 : Store)
    (en : RemoteEntry) : Prop :=
  (∃ x ∈ acc1.keys, x.email = en.norm ∧
    stripStr x.hostName = stripStr (normalizeHostName hostName)) ∨
  findUserToken en.raw.toList = none ∨
  findUserToken en.raw.toList = some 0 ∨
  (∃ uid, findUserToken en.raw.toList = some uid ∧ st.users.contains uid = false) ∨
  (∃ x ∈ acc1.keys, x.email = normEmail en.raw)

/-- Invariant of the first run's relink loop over the orphan entries, `ot`
the unprocessed suffix and `base` the store rows left by the key loop: rows
are only added, stay well formed and converged when host-listed, uuids trace
to the original store, to matched entries, or to already-relinked orphans,
and every orphan is pending or settled. -/
structure Rel2Inv (st : Store) (m0 : List RemoteEntry) (now : Int) (hostName : String)
    (base : List DbKey) (ot : List RemoteEntry) (acc : Store × List SyncEv) : Prop where
  usersEq : acc.1.users = st.users
  emailsNorm : ∀ x ∈ acc.1.keys, normEmail x.email = x.email
  emailsP : acc.1.keys.Pairwise (fun a b => a.email ≠ b.email)
  idsP : acc.1.keys.Pairwise (fun a b => a.keyId ≠ b.keyId)
  idsLt : ∀ x ∈ acc.1.keys, x.keyId < acc.1.nextKeyId
  keysSup : ∀ x ∈ base, x ∈ acc.1.keys
  convAll : ∀ x ∈ acc.1.keys, x.email ≠ "" →
    stripStr x.hostName = stripStr (normalizeHostName hostName) → converged now m0 x
  uuid2 : ∀ x ∈ acc.1.keys, ∀ v, x.uuid = some v →
    (∃ y ∈ st.keys, y.uuid = some v) ∨
    (∃ en2 ∈ m0, (∃ k ∈ get_keys_for_host st hostName, k.email = en2.norm) ∧
      ∃ w, en2.acct.uuid = some w ∧ v = w) ∨
    (∃ en2 ∈ m0, (∀ en3 ∈ ot, en3.norm ≠ en2.norm) ∧
      ∃ w, en2.acct.uuid = some w ∧ v = stripStr w)
  outcome : ∀ en2 ∈ m0, (∀ k ∈ get_keys_for_host st hostName, k.email ≠ en2.norm) →
    en2 ∈ ot ∨ orphanSettled st hostName acc.1 en2

/-- A skipped orphan advances the invariant as long as it itself is settled. -/
theorem rel2InvSkip {st : Store} {m0 : List RemoteEntry} {now : Int} {hostName : String}
    {base : List DbKey} {ot2 : List RemoteEntry} {en : RemoteEntry}
    {acc : Store × List SyncEv}
    (inv : Rel2Inv st m0 now hostName base (en :: ot2) acc)
    (hres : orphanSettled st hostName acc.1 en) :
    Rel2Inv st m0 now hostName base ot2 acc := by
  refine ⟨inv.usersEq, inv.emailsNorm, inv.emailsP, inv.idsP, inv.idsLt, inv.keysSup,
    inv.convAll, ?_, ?_⟩
  · intro x hx v hv
    rcases inv.uuid2 x hx v hv with h | h | ⟨en2, hm, hcond, hw⟩
    · exact Or.inl h
    · exact Or.inr (Or.inl h)
    · exact Or.inr (Or.inr ⟨en2, hm, fun en3 h3 => hcond en3 (List.mem_cons_of_mem _ h3), hw⟩)
  · intro en2 hm ho
    rcases inv.outcome en2 hm ho with hin | hs
    · rcases List.mem_cons.mp hin with h | h
      · rw [h]
        exact Or.inr hres
      · exact Or.inl h
    · exact Or.inr hs

/-- A row created by the relink path from its entry is converged. -/
theorem relinkRow_conv {now : Int} {m0 : List RemoteEntry} {en : RemoteEntry}
    (henm0 : en ∈ m0) (hmwf : MapEntryWF en)
    (hH2 : ∀ r, en.acct.expireAtMs = some r → now - GRACE_MS ≤ truncMs r)
    (kid uid : Nat) (host : String) (uuidOpt : Option String) :
    converged now m0 ⟨kid, uid, host, normEmail en.acct.email,
      some (truncMs (en.acct.expireAtMs.getD now)), en.acct.subscriptionUrl, uuidOpt⟩ := by
  refine ⟨?_, en, henm0, ?_, ?_⟩
  · cases hea : en.acct.expireAtMs with
    | some r => exact graceOld_truncMs_of_le (hH2 r hea)
    | none => exact graceOld_truncMs_now now
  · exact mapEntryWF_norm hmwf
  · refine needsUpdate_conv en.acct _ _ ?_ ?_
    · intro r2 hr2
      refine ⟨truncMs r2, ?_, truncMs_tol r2⟩
      rw [hr2]
      rfl
    · intro s2 hs2
      exact hs2

/-- One step of the first run's relink loop preserves the invariant: skipped
entries are settled, and a recorded entry takes the insertion path — the
uuid-freshness assumption rules out the rebind fallback. -/
theorem rel2Step {st : Store} {m0 : List RemoteEntry} {now : Int}
    {hostName squadUuid : String} {base : List DbKey} {ot2 : List RemoteEntry}
    {en : RemoteEntry} {acc : Store × List SyncEv}
    (hm0WF : ∀ en2 ∈ m0, MapEntryWF en2)
    (hH2 : ∀ en2 ∈ m0, ∀ r, en2.acct.expireAtMs = some r → now - GRACE_MS ≤ truncMs r)
    (hH3 : ∀ en2 ∈ m0, stripStr (en2.acct.uuid.getD "") = "" ∨
      ((∀ x ∈ st.keys, ∀ v, x.uuid = some v →
        stripStr v ≠ stripStr (en2.acct.uuid.getD "")) ∧
       (∀ en3 ∈ m0, en3.norm ≠ en2.norm → ∀ w, en3.acct.uuid = some w →
        stripStr w ≠ stripStr (en2.acct.uuid.getD ""))))
    (hOTP : (en :: ot2).Pairwise (fun a b => a.norm ≠ b.norm))
    (hOTsub : ∀ e ∈ en :: ot2, e ∈ m0)
    (hOTorph : ∀ e ∈ en :: ot2, ∀ k ∈ get_keys_for_host st hostName, k.email ≠ e.norm)
    (inv : Rel2Inv st m0 now hostName base (en :: ot2) acc) :
    Rel2Inv st m0 now hostName base ot2 (relinkStep hostName squadUuid now acc en) := by
  have henm0 : en ∈ m0 := hOTsub en (List.mem_cons_self _ _)
  have hmwf : MapEntryWF en := hm0WF en henm0
  have horph : ∀ k ∈ get_keys_for_host st hostName, k.email ≠ en.norm :=
    hOTorph en (List.mem_cons_self _ _)
  have hun : normEmail en.acct.email = en.norm := (mapEntryWF_norm hmwf).symm
  have hur : normEmail en.raw = en.norm := mapEntryWF_normEmail_raw hmwf
  cases hf : findUserToken en.raw.toList with
  | none =>
    rw [relinkStep_skip_of_guard (Or.inl hf)]
    exact rel2InvSkip inv (Or.inr (Or.inl hf))
  | some uid =>
    by_cases h0 : uid = 0
    · rw [relinkStep_skip_of_guard (Or.inr ⟨uid, hf, Or.inl h0⟩)]
      refine rel2InvSkip inv (Or.inr (Or.inr (Or.inl ?_)))
      rw [← h0]
      exact hf
    · by_cases hcont : acc.1.users.contains uid = true
      · cases hgl : get_key_by_email acc.1 en.raw with
        | some r1 =>
          rw [relinkStep_skip_of_found hgl]
          rcases get_key_by_email_found hgl with ⟨hr1mem, hr1e⟩
          refine rel2InvSkip inv (Or.inr (Or.inr (Or.inr (Or.inr ⟨r1, hr1mem, ?_⟩))))
          exact hr1e
        | none =>
          have h0b : (uid == 0) = false := by simpa using h0
          have hstep := @relinkStep_eq_record hostName squadUuid now acc en uid
            hf h0b hcont hgl
          have hglp : acc.1.keys.find? (fun x => x.email == normEmail en.raw) = none := hgl
          have hget2 : get_key_by_email acc.1 (normEmail en.acct.email) = none := by
            show acc.1.keys.find?
              (fun x => x.email == normEmail (normEmail en.acct.email)) = none
            rw [normEmail_idem, hun, ← hur]
            exact hglp
          have hnewe : ∀ x ∈ acc.1.keys, x.email ≠ normEmail en.acct.email := by
            intro x hx
            have h := get_key_by_email_none hget2 x hx
            rw [normEmail_idem] at h
            exact h
          have hdup : acc.1.keys.any
              (fun x => x.email == normEmail en.acct.email) = false := by
            rw [List.any_eq_false]
            intro x hx
            simpa using hnewe x hx
          have hu : stripStr (en.acct.uuid.getD "") = "" ∨
              ∀ x ∈ acc.1.keys, x.uuid ≠
                some (stripStr (stripStr (en.acct.uuid.getD ""))) := by
            rcases hH3 en henm0 with hemp | ⟨hcl1, hcl2⟩
            · exact Or.inl hemp
            · refine Or.inr ?_
              intro x hx hcol
              rw [stripStr_idem] at hcol
              rcases inv.uuid2 x hx (stripStr (en.acct.uuid.getD "")) hcol with
                ⟨y, hy, hyv⟩ | ⟨en2, hen2, ⟨k, hk, hke⟩, w, hw, hvw⟩ |
                ⟨en2, hen2, hcond, w, hw, hvw⟩
              · exact hcl1 y hy _ hyv (stripStr_idem _)
              · have hne : en2.norm ≠ en.norm := by
                  rw [← hke]
                  exact horph k hk
                apply hcl2 en2 hen2 hne w hw
                rw [← hvw, stripStr_idem]
              · have hne : en2.norm ≠ en.norm := fun hc =>
                  hcond en (List.mem_cons_self _ _) hc.symm
                exact hcl2 en2 hen2 hne w hw hvw.symm
          have hex := record_key_existing_eq_none hget2 hu
          have hrk := @record_key_add acc.1 uid squadUuid
            (stripStr (en.acct.uuid.getD "")) en.acct.email hostName
            en.acct.expireAtMs en.acct.subscriptionUrl now hex hdup
          have hpay : record_key_from_payload acc.1 uid en.acct hostName squadUuid now =
              ({ acc.1 with
                  keys := acc.1.keys ++ [⟨acc.1.nextKeyId, uid,
                    normalizeHostName (if hostName == "" then "" else normalizeHostName hostName),
                    normEmail en.acct.email,
                    some (truncMs (en.acct.expireAtMs.getD now)),
                    en.acct.subscriptionUrl,
                    if stripStr (en.acct.uuid.getD "") == "" then none
                    else some (stripStr (en.acct.uuid.getD ""))⟩],
                  nextKeyId := acc.1.nextKeyId + 1 }, some acc.1.nextKeyId) := by
            unfold record_key_from_payload
            exact hrk
          rw [hstep, hpay]
          have hconvR := relinkRow_conv henm0 hmwf (hH2 en henm0) acc.1.nextKeyId uid
            (normalizeHostName (if hostName == "" then "" else normalizeHostName hostName))
            (if stripStr (en.acct.uuid.getD "") == "" then none
             else some (stripStr (en.acct.uuid.getD "")))
          refine ⟨inv.usersEq, ?_, ?_, ?_, ?_, ?_, ?_, ?_, ?_⟩
          · intro x hx
            rcases List.mem_append.mp hx with h | h
            · exact inv.emailsNorm x h
            · rw [List.mem_singleton.mp h]
              exact normEmail_idem _
          · rw [List.pairwise_append]
            refine ⟨inv.emailsP, by simp, ?_⟩
            intro a ha b hb
            rw [List.mem_singleton.mp hb]
            exact hnewe a ha
          · rw [List.pairwise_append]
            refine ⟨inv.idsP, by simp, ?_⟩
            intro a ha b hb
            rw [List.mem_singleton.mp hb]
            exact Nat.ne_of_lt (inv.idsLt a ha)
          · intro x hx
            rcases List.mem_append.mp hx with h | h
            · exact Nat.lt_trans (inv.idsLt x h) (Nat.lt_succ_self _)
            · rw [List.mem_singleton.mp h]
              exact Nat.lt_succ_self _
          · intro x hx
            exact List.mem_append.mpr (Or.inl (inv.keysSup x hx))
          · intro x hx hxe hxh
            rcases List.mem_append.mp hx with h | h
            · exact inv.convAll x h hxe hxh
            · rw [List.mem_singleton.mp h]
              exact hconvR
          · intro x hx v hv
            rcases List.mem_append.mp hx with h | h
            · rcases inv.uuid2 x h v hv with h2 | h2 | ⟨en2, hen2, hcond, hw⟩
              · exact Or.inl h2
              · exact Or.inr (Or.inl h2)
              · exact Or.inr (Or.inr ⟨en2, hen2,
                  fun en3 h3 => hcond en3 (List.mem_cons_of_mem _ h3), hw⟩)
            · rw [List.mem_singleton.mp h] at hv
              have hv2 : (if stripStr (en.acct.uuid.getD "") == "" then none
                  else some (stripStr (en.acct.uuid.getD ""))) = some v := hv
              by_cases hb : (stripStr (en.acct.uuid.getD "") == "") = true
              · rw [if_pos hb] at hv2
                cases hv2
              · rw [if_neg hb] at hv2
                have hv3 : v = stripStr (en.acct.uuid.getD "") :=
                  (Option.some.injEq _ _ ▸ hv2).symm
                cases huu : en.acct.uuid with
                | none =>
                  exfalso
                  apply hb
                  rw [huu]
                  decide
                | some u =>
                  refine Or.inr (Or.inr ⟨en, henm0,
                    fun en3 h3 hc => (List.pairwise_cons.mp hOTP).1 en3 h3 hc.symm,
                    u, huu, ?_⟩)
                  rw [hv3, huu]
                  rfl
          · intro en2 hen2 ho
            rcases inv.outcome en2 hen2 ho with hin | hs
            · rcases List.mem_cons.mp hin with h | h
              · rw [h]
                refine Or.inr (Or.inl ⟨_, List.mem_append.mpr (Or.inr
                  (List.mem_singleton.mpr rfl)), hun, relinkHost_listed hostName⟩)
              · exact Or.inl h
            · refine Or.inr ?_
              rcases hs with ⟨x, hx, he⟩ | h | h | h | ⟨x, hx, he⟩
              · exact Or.inl ⟨x, List.mem_append.mpr (Or.inl hx), he⟩
              · exact Or.inr (Or.inl h)
              · exact Or.inr (Or.inr (Or.inl h))
              · exact Or.inr (Or.inr (Or.inr (Or.inl h)))
              · exact Or.inr (Or.inr (Or.inr (Or.inr
                  ⟨x, List.mem_append.mpr (Or.inl hx), he⟩)))
      · rw [relinkStep_skip_of_guard (Or.inr ⟨uid, hf, Or.inr (by simpa using hcont)⟩)]
        refine rel2InvSkip inv (Or.inr (Or.inr (Or.inr (Or.inl ⟨uid, hf, ?_⟩))))
        rw [← inv.usersEq]
        simpa using hcont

theorem rel2Fold {st : Store} {m0 : List RemoteEntry} {now : Int}
    {hostName squadUuid : String} {base : List DbKey}
    (hm0WF : ∀ en2 ∈ m0, MapEntryWF en2)
    (hH2 : ∀ en2 ∈ m0, ∀ r, en2.acct.expireAtMs = some r → now - GRACE_MS ≤ truncMs r)
    (hH3 : ∀ en2 ∈ m0, stripStr (en2.acct.uuid.getD "") = "" ∨
      ((∀ x ∈ st.keys, ∀ v, x.uuid = some v →
        stripStr v ≠ stripStr (en2.acct.uuid.getD "")) ∧
       (∀ en3 ∈ m0, en3.norm ≠ en2.norm → ∀ w, en3.acct.uuid = some w →
        stripStr w ≠ stripStr (en2.acct.uuid.getD "")))) :
    ∀ (ot : List RemoteEntry) (acc : Store × List SyncEv),
      ot.Pairwise (fun a b => a.norm ≠ b.norm) →
      (∀ e ∈ ot, e ∈ m0) →
      (∀ e ∈ ot, ∀ k ∈ get_keys_for_host st hostName, k.email ≠ e.norm) →
      Rel2Inv st m0 now hostName base ot acc →
      Rel2Inv st m0 now hostName base []
        (ot.foldl (relinkStep hostName squadUuid now) acc)
  | [], _, _, _, _, inv => inv
  | en :: rest, acc, hP, hsub, horph, inv => by
    rw [List.foldl_cons]
    exact rel2Fold hm0WF hH2 hH3 rest _ (List.pairwise_cons.mp hP).2
      (fun e he => hsub e (List.mem_cons_of_mem _ he))
      (fun e he => horph e (List.mem_cons_of_mem _ he))
      (rel2Step hm0WF hH2 hH3 hP hsub horph inv)

/-- The key loop's final state hands the relink loop a well-formed store of
converged host rows and a worklist of exactly the orphan entries. -/
theorem rel2Init {st : Store} {m0 : List RemoteEntry} {now : Int} {hostName : String}
    {s : SyncSt}
    (hm0P : m0.Pairwise (fun a b => a.norm ≠ b.norm))
    (inv : Run1Inv st m0 now hostName [] s) :
    Rel2Inv st m0 now hostName s.store.keys s.rmap (s.store, s.evs) ∧
    s.rmap.Pairwise (fun a b => a.norm ≠ b.norm) ∧
    (∀ e ∈ s.rmap, e ∈ m0) ∧
    (∀ e ∈ s.rmap, ∀ k ∈ get_keys_for_host st hostName, k.email ≠ e.norm) := by
  have horph : ∀ e ∈ s.rmap, ∀ k ∈ get_keys_for_host st hostName, k.email ≠ e.norm := by
    intro e he k hk hc
    rcases inv.rmapMT e he ⟨k, hk, hc⟩ with ⟨k2, hk2, _⟩
    exact List.not_mem_nil k2 hk2
  refine ⟨⟨inv.usersEq, inv.emailsNorm, inv.emailsP, inv.idsP, ?_, fun x hx => hx,
    ?_, ?_, ?_⟩, List.Pairwise.sublist inv.rmapSub hm0P, inv.rmapSub.subset, horph⟩
  · intro x hx
    rw [inv.nextEq]
    exact inv.idsLt x hx
  · intro x hx hxe hxh
    rcases inv.anc x hx with ⟨y, hy, hid, hem, hhost⟩
    have hybeq : (stripStr y.hostName == stripStr (normalizeHostName hostName)) = true := by
      rw [← hhost, hxh]
      simp
    refine inv.conv x hx hxe ⟨y, List.mem_filter.mpr ⟨hy, hybeq⟩, hem.symm⟩ ?_
    intro k2 hk2
    exact absurd hk2 (List.not_mem_nil k2)
  · intro x hx v hv
    rcases inv.uuidO x hx v hv with h | h
    · exact Or.inl h
    · exact Or.inr (Or.inl h)
  · intro en2 hen2 ho
    exact Or.inl (inv.rmapOrphan en2 hen2 ho)

/-- Repair-then-stable: after one reconciliation pass, a second pass against
the same listing returns the repaired store unchanged and logs nothing,
provided no host key is grace-old while its account is still listed, no
listed expiry is itself past the grace period, and no listed account's
(stripped) uuid collides with a stored or listed uuid under another email
(so relinks take the insertion path). -/
theorem run1_then_noop (now : Int) (rf : String → Bool) (st : Store)
    (hostName squadUuid : String) (rs : List RemoteAccount)
    (hwf : StoreWF st)
    (hH1 : ∀ k ∈ get_keys_for_host st hostName, k.email ≠ "" →
      graceOld now k.expiryMs = true → ∀ en ∈ buildRemoteMap rs, en.norm ≠ k.email)
    (hH2 : ∀ en ∈ buildRemoteMap rs, ∀ r, en.acct.expireAtMs = some r →
      now - GRACE_MS ≤ truncMs r)
    (hH3 : ∀ en ∈ buildRemoteMap rs, stripStr (en.acct.uuid.getD "") = "" ∨
      ((∀ x ∈ st.keys, ∀ v, x.uuid = some v →
        stripStr v ≠ stripStr (en.acct.uuid.getD "")) ∧
       (∀ en3 ∈ buildRemoteMap rs, en3.norm ≠ en.norm → ∀ w, en3.acct.uuid = some w →
        stripStr w ≠ stripStr (en.acct.uuid.getD "")))) :
    syncSquad now rf (syncSquad now rf st hostName squadUuid rs).1
      hostName squadUuid rs = ((syncSquad now rf st hostName squadUuid rs).1, []) := by
  have inv1 := @run1Fold st (buildRemoteMap rs) now hostName rf
    buildRemoteMap_nodup buildRemoteMap_wf hH2
    (get_keys_for_host st hostName) ⟨st, buildRemoteMap rs, []⟩
    (List.Pairwise.sublist (List.filter_sublist _) hwf.emailsP)
    (fun k2 h2 => ⟨h2, fun hke hgr => hH1 k2 h2 hke hgr⟩) (run1Init hwf)
  rcases rel2Init buildRemoteMap_nodup inv1 with ⟨inv20, hotP, hotSub, hotOrph⟩
  have inv2 := @rel2Fold st (buildRemoteMap rs) now hostName squadUuid _
    buildRemoteMap_wf hH2 hH3 _ _ hotP hotSub hotOrph inv20
  have hsqG : syncSquad now rf st hostName squadUuid rs =
      ((get_keys_for_host st hostName).foldl (syncKeyStep now rf)
        ⟨st, buildRemoteMap rs, []⟩).rmap.foldl
        (relinkStep hostName squadUuid now)
        (((get_keys_for_host st hostName).foldl (syncKeyStep now rf)
          ⟨st, buildRemoteMap rs, []⟩).store,
         ((get_keys_for_host st hostName).foldl (syncKeyStep now rf)
          ⟨st, buildRemoteMap rs, []⟩).evs) := by
    unfold syncSquad syncRelinkPhase
    rfl
  rw [hsqG]
  have hfin : StoreWF (((get_keys_for_host st hostName).foldl (syncKeyStep now rf)
      ⟨st, buildRemoteMap rs, []⟩).rmap.foldl (relinkStep hostName squadUuid now)
      (((get_keys_for_host st hostName).foldl (syncKeyStep now rf)
        ⟨st, buildRemoteMap rs, []⟩).store,
       ((get_keys_for_host st hostName).foldl (syncKeyStep now rf)
        ⟨st, buildRemoteMap rs, []⟩).evs)).1 :=
    ⟨inv2.emailsNorm, inv2.emailsP, inv2.idsP, inv2.idsLt⟩
  refine syncSquad_noop now rf _ hostName squadUuid rs hfin ?_ ?_
  · intro k hk hke
    rcases List.mem_filter.mp hk with ⟨hkmem, hkbeq⟩
    exact inv2.convAll k hkmem hke (eq_of_beq hkbeq)
  · intro en hen
    by_cases hm : ∃ k ∈ get_keys_for_host st hostName, k.email = en.norm
    · rcases inv1.survM en hen hm with ⟨x, hxmem, hxe⟩
      rcases inv1.anc x hxmem with ⟨y, hy, hid, hem, hhost⟩
      rcases hm with ⟨k, hk, hke⟩
      have hyk : y = k := eq_of_mem_emailsP hwf.emailsP hy
        (List.mem_of_mem_filter hk) (hem.symm.trans (hxe.trans hke.symm))
      have hkbeq : (stripStr x.hostName ==
          stripStr (normalizeHostName hostName)) = true := by
        rw [hhost, hyk]
        exact (List.mem_filter.mp hk).2
      exact Or.inl ⟨x, List.mem_filter.mpr ⟨inv2.keysSup x hxmem, hkbeq⟩, hxe⟩
    · have ho : ∀ k ∈ get_keys_for_host st hostName, k.email ≠ en.norm := by
        intro k hk hc
        exact hm ⟨k, hk, hc⟩
      rcases inv2.outcome en hen ho with hin | hs
      · exact absurd hin (List.not_mem_nil en)
      · rcases hs with ⟨x, hx, he, hhostx⟩ | h | h | ⟨uid, hfind, hcu⟩ | ⟨x, hx, he⟩
        · exact Or.inl ⟨x, List.mem_filter.mpr ⟨hx, by rw [hhostx]; simp⟩, he⟩
        · exact Or.inr (Or.inl h)
        · exact Or.inr (Or.inr (Or.inl ⟨0, h, Or.inl rfl⟩))
        · exact Or.inr (Or.inr (Or.inl ⟨uid, hfind,
            Or.inr (by rw [inv2.usersEq]; exact hcu)⟩))
        · refine Or.inr (Or.inr (Or.inr ?_))
          have hsome := @get_key_by_email_isSome _ en.raw _ hx (by rw [he]; simp)
          exact Option.isSome_iff_exists.mp hsome

/-- **C3** as amended.  Part 1 (repair then stable): running the per-squad
reconciliation twice against the same unchanged listing performs zero
additional mutations — the second run returns the first run's store unchanged
with an empty action log — provided no host key past the grace period has its
account still listed, no listed account's expiry is itself past the grace
period (the first run's repair would store it and plant a grace-old listed
key for the second run), and no listed account's stripped uuid is empty-free
yet collides with a stored key's uuid or with another listed account's uuid
(so relinks take the insertion path, not the uuid rebind).  First-run
updates, missing-remote deletions, unlisted grace deletions and fresh
relinks are all allowed and converge.  Without the listed-grace exclusion
idempotence fails (see the counterexample).  Part 2: a key whose stored
expiry differs from the matched remote expiry by at most 1 second (1000 ms)
and whose subscription URL already equals the extracted remote one is not
modified by its loop step — only the map entry is consumed. -/
theorem reconciliation_idempotence_amended :
    (∀ (now : Int) (rf : String → Bool) (st : Store) (hostName squadUuid : String)
        (rs : List RemoteAccount),
      StoreWF st →
      (∀ k ∈ get_keys_for_host st hostName, k.email ≠ "" →
        graceOld now k.expiryMs = true → ∀ en ∈ buildRemoteMap rs, en.norm ≠ k.email) →
      (∀ en ∈ buildRemoteMap rs, ∀ r, en.acct.expireAtMs = some r →
        now - GRACE_MS ≤ truncMs r) →
      (∀ en ∈ buildRemoteMap rs, stripStr (en.acct.uuid.getD "") = "" ∨
        ((∀ x ∈ st.keys, ∀ v, x.uuid = some v →
          stripStr v ≠ stripStr (en.acct.uuid.getD "")) ∧
         (∀ en3 ∈ buildRemoteMap rs, en3.norm ≠ en.norm → ∀ w, en3.acct.uuid = some w →
          stripStr w ≠ stripStr (en.acct.uuid.getD "")))) →
      syncSquad now rf (syncSquad now rf st hostName squadUuid rs).1
        hostName squadUuid rs = ((syncSquad now rf st hostName squadUuid rs).1, [])) ∧
    (∀ (now : Int) (rf : String → Bool) (s : SyncSt) (k : DbKey) (en : RemoteEntry),
      (rawOf k == "") = false → graceOld now k.expiryMs = false →
      (popEntry s.rmap (lowerStr (rawOf k))).1 = some en →
      (∀ r l, en.acct.expireAtMs = some r → k.expiryMs = some l →
        (r - l).natAbs ≤ 1000) →
      extract_subscription_url en.acct = k.subscriptionUrl →
      syncKeyStep now rf s k =
        { s with rmap := (popEntry s.rmap (lowerStr (rawOf k))).2 }) := by
  constructor
  · intro now rf st hostName squadUuid rs hwf hH1 hH2 hH3
    exact run1_then_noop now rf st hostName squadUuid rs hwf hH1 hH2 hH3
  · intro now rf s k en h1f hgr hp hexp hsub
    have hNU : needsUpdate k.expiryMs k.subscriptionUrl en.acct = false := by
      unfold needsUpdate
      rw [hsub]
      cases hea : en.acct.expireAtMs with
      | none =>
        cases hsu : k.subscriptionUrl with
        | none => rfl
        | some s2 => simp
      | some r =>
        cases hel : k.expiryMs with
        | none =>
          cases hsu : k.subscriptionUrl with
          | none => rfl
          | some s2 => simp
        | some l =>
          have hle := hexp r l hea hel
          have hd : decide (1000 < (r - l).natAbs) = false :=
            decide_eq_false (by omega)
          cases hsu : k.subscriptionUrl with
          | none => simp [hd]
          | some s2 => simp [hd]
    rw [syncKeyStep_eq_noupdate h1f hgr hp hNU]

/-- Witness for `reconciliation_idempotence_amended`: a one-key store whose
stored expiry drifted 45 seconds from the listed one — the first run repairs
it (an update), the second run returns the repaired store unchanged with an
empty log. -/
theorem reconciliation_idempotence_amended_witness :
    syncSquad 60000 (fun _ => false)
        (syncSquad 60000 (fun _ => false)
          ⟨[⟨1, 5, "h", "user5@h", some 5000, none, none⟩], [5], 2⟩ "h" "sq"
          [⟨"user5@h", some 50000, none, none⟩]).1 "h" "sq"
        [⟨"user5@h", some 50000, none, none⟩] =
      ((syncSquad 60000 (fun _ => false)
          ⟨[⟨1, 5, "h", "user5@h", some 5000, none, none⟩], [5], 2⟩ "h" "sq"
          [⟨"user5@h", some 50000, none, none⟩]).1, []) :=
  reconciliation_idempotence_amended.1 60000 (fun _ => false)
    ⟨[⟨1, 5, "h", "user5@h", some 5000, none, none⟩], [5], 2⟩ "h" "sq"
    [⟨"user5@h", some 50000, none, none⟩]
    ⟨by decide, by simp, by simp, by decide⟩
    (by decide)
    (by
      intro en hen r hr
      have he := List.mem_singleton.mp hen
      subst he
      injection hr with h
      subst h
      decide)
    (by
      intro en hen
      have he := List.mem_singleton.mp hen
      subst he
      exact Or.inl rfl)

end ShopBot
